import Mathlib

/-!
Circuit simulator (circuito_incompleto.cpp): shallow embedding and verification

The class `Circuito` owns a vector of gate pointers (`ports`), the number of
circuit inputs (`Nin`), the origin id of every circuit output (`id_out`) and the
last simulated value of every circuit output (`out_circ`).

Conventions of the embedding:

* C++ `int` is `Int` (no netlist of interest comes near 2^31 elements);
* a `ptr_Port` is an `Option Port`, `nullptr` being `none`;
* an access that is undefined behaviour in C++ (null dereference, `operator[]`
  out of range) makes the embedded operation return `none`
  (`Outcome.undefinedBehaviour` at top level);
* the `do ... while` loop of `simular` is driven by a fuel argument; the
  adequacy lemmas show that `ports.size() + 1` passes are always enough.

The gate classes (`Port`, `Port_NOT`, ...) and the type `bool3S` are declared in
headers that are not part of the source file; they are modelled from the
specification and marked as such.
-/

set_option autoImplicit false

namespace Circ

/-! ## Three-valued signals and gates -/

/-- Modelled from the spec: the type `bool3S` (header not in the source file),
"an enumerated value in {TRUE, FALSE, UNDEFINED}". -/
inductive bool3S where
  | UNDEF
  | FALSE
  | TRUE
deriving DecidableEq

/-- Modelled from the spec: the seven gate kinds, one per subclass
`Port_NOT`, `Port_AND`, `Port_NAND`, `Port_OR`, `Port_NOR`, `Port_XOR`,
`Port_NXOR` allocated by `allocPort`; the constructor names are the
two-letter mnemonics. -/
inductive PortKind where
  | NT
  | AN
  | NA
  | OR
  | NO
  | XO
  | NX
deriving DecidableEq

/-- Modelled from the spec: a gate (class `Port`, header not in the source
file): its kind, the ordered list of input origin ids and the cached output. -/
structure Port where
  kind : PortKind
  id_in : List Int
  out : bool3S
deriving DecidableEq

/-- Modelled from the spec: negation of a signal, UNDEF staying UNDEF. -/
def bool3S.neg : bool3S → bool3S
  | bool3S.UNDEF => bool3S.UNDEF
  | bool3S.FALSE => bool3S.TRUE
  | bool3S.TRUE => bool3S.FALSE

/-- Modelled from the spec: AND rule, "if any input is FALSE, result is FALSE
regardless of others; else if any input is UNDEFINED, result is UNDEFINED; else
combine normally". -/
def evalAND (xs : List bool3S) : bool3S :=
  if bool3S.FALSE ∈ xs then bool3S.FALSE
  else if bool3S.UNDEF ∈ xs then bool3S.UNDEF
  else bool3S.TRUE

/-- Modelled from the spec: OR rule, "any TRUE input forces TRUE; else any
UNDEFINED forces UNDEFINED; else combine normally". -/
def evalOR (xs : List bool3S) : bool3S :=
  if bool3S.TRUE ∈ xs then bool3S.TRUE
  else if bool3S.UNDEF ∈ xs then bool3S.UNDEF
  else bool3S.FALSE

/-- Modelled from the spec: XOR rule, "any UNDEFINED input forces UNDEFINED;
else combine normally (parity)". -/
def evalXOR (xs : List bool3S) : bool3S :=
  if bool3S.UNDEF ∈ xs then bool3S.UNDEF
  else if (xs.count bool3S.TRUE) % 2 = 1 then bool3S.TRUE
  else bool3S.FALSE

/-- Modelled from the spec: NOT rule, "output = not input unless input is
UNDEFINED, then UNDEFINED"; the gate reads its single input, entry 0. -/
def evalNOT (xs : List bool3S) : bool3S :=
  match xs with
  | [] => bool3S.UNDEF
  | x :: _ => x.neg

/-- Modelled from the spec: the evaluation table of each gate kind (section
4.2 of the specification). -/
def PortKind.eval : PortKind → List bool3S → bool3S
  | PortKind.NT, xs => evalNOT xs
  | PortKind.AN, xs => evalAND xs
  | PortKind.NA, xs => (evalAND xs).neg
  | PortKind.OR, xs => evalOR xs
  | PortKind.NO, xs => (evalOR xs).neg
  | PortKind.XO, xs => evalXOR xs
  | PortKind.NX, xs => (evalXOR xs).neg

/-- Modelled from the spec: `Port::getName`, the two-letter mnemonic. -/
def PortKind.getName : PortKind → List Char
  | PortKind.NT => ['N', 'T']
  | PortKind.AN => ['A', 'N']
  | PortKind.NA => ['N', 'A']
  | PortKind.OR => ['O', 'R']
  | PortKind.NO => ['N', 'O']
  | PortKind.XO => ['X', 'O']
  | PortKind.NX => ['N', 'X']

/-- Modelled from the spec: `Port::getNumInputs`, the arity of the gate. -/
def Port.getNumInputs (p : Port) : Int := p.id_in.length

/-- Modelled from the spec: `Port::getOutput`, the cached output. -/
def Port.getOutput (p : Port) : bool3S := p.out

/-- Modelled from the spec: `Port::setOutput`. -/
def Port.setOutput (p : Port) (s : bool3S) : Port := { p with out := s }

/-- Modelled from the spec: `Port::validIndex`, "index must be in
[0, arity())". -/
def Port.validIndex (p : Port) (I : Int) : Bool :=
  decide (0 ≤ I) && decide (I < p.getNumInputs)

/-- Modelled from the spec: `Port::getId_in`, the origin of the I-th input, and
the sentinel 0 for an index out of range. -/
def Port.getId_in (p : Port) (I : Int) : Int :=
  if p.validIndex I then p.id_in.getD I.toNat 0 else 0

/-- Modelled from the spec: `Port::simular`, "computes and caches the gate's
output from a caller-supplied list of already-resolved input signal values";
kind and input origins are untouched. -/
def Port.simular (p : Port) (in_port : List bool3S) : Port :=
  { p with out := p.kind.eval in_port }

/-! ## The netlist -/

/-- Data members of class `Circuito`: `Nin`, `id_out`, `out_circ`, `ports`. -/
structure Circuito where
  Nin : Int
  id_out : List Int
  out_circ : List bool3S
  ports : List (Option Port)
deriving DecidableEq

/-- Result of running an operation that may hit undefined behaviour or, in the
embedding, run out of loop fuel. -/
inductive Outcome (α : Type) where
  | done (a : α)
  | undefinedBehaviour
  | outOfFuel
deriving DecidableEq

/-- A counted `for (i = 0; i < n; i++) body` loop over a state that may fail:
`forLoop body (n+1) s` runs the first `n` iterations and then `body n`. -/
def forLoop {σ : Type} (body : Nat → σ → Option σ) : Nat → σ → Option σ
  | 0, s => some s
  | n + 1, s => (forLoop body n s).bind (body n)

/-- Checked `v.at(i)` / unchecked `v[i]` with an `int` index: `none` when the
index is out of range. -/
def vecAt {α : Type} (v : List α) (i : Int) : Option α :=
  if i < 0 then none else v[i.toNat]?

/-- Dereference of the gate pointer `ports[i]`: `none` when the index is out of
range or the pointer is null. -/
def ptrAt (ports : List (Option Port)) (i : Int) : Option Port :=
  (vecAt ports i).bind id

namespace Circuito

/-- Source: `Circuito::getNumInputs`. -/
def getNumInputs (C : Circuito) : Int := C.Nin

/-- Source: `Circuito::getNumOutputs`, `id_out.size()`. -/
def getNumOutputs (C : Circuito) : Int := C.id_out.length

/-- Source: `Circuito::getNumPorts`, `ports.size()`. -/
def getNumPorts (C : Circuito) : Int := C.ports.length

/-- Source: `Circuito::validIdInput`. -/
def validIdInput (C : Circuito) (IdInput : Int) : Bool :=
  decide (IdInput ≤ -1) && decide (IdInput ≥ -C.getNumInputs)

/-- Source: `Circuito::validIdOutput`. -/
def validIdOutput (C : Circuito) (IdOutput : Int) : Bool :=
  decide (IdOutput ≥ 1) && decide (IdOutput ≤ C.getNumOutputs)

/-- Source: `Circuito::validIdPort`. -/
def validIdPort (C : Circuito) (IdPort : Int) : Bool :=
  decide (IdPort ≥ 1) && decide (IdPort ≤ C.getNumPorts)

/-- Source: `Circuito::validIdOrig`. -/
def validIdOrig (C : Circuito) (IdOrig : Int) : Bool :=
  C.validIdInput IdOrig || C.validIdPort IdOrig

/-- Source: `Circuito::definedPort`. -/
def definedPort (C : Circuito) (IdPort : Int) : Bool :=
  if !C.validIdPort IdPort then false
  else if (ptrAt C.ports (IdPort - 1)).isNone then false
  else true

/-- Source: `Circuito::getIdOutput`. -/
def getIdOutput (C : Circuito) (IdOutput : Int) : Int :=
  if C.validIdOutput IdOutput then C.id_out.getD (IdOutput - 1).toNat 0 else 0

/-- Source: `Circuito::getOutput`; `out_circ.at` throws when `out_circ` is
shorter than `id_out`, which no operation of the class produces: `none`. -/
def getOutput (C : Circuito) (IdOutput : Int) : Option bool3S :=
  if C.validIdOutput IdOutput then vecAt C.out_circ (IdOutput - 1)
  else some bool3S.UNDEF

/-- Source: `Circuito::getNamePort`. -/
def getNamePort (C : Circuito) (IdPort : Int) : List Char :=
  if C.definedPort IdPort then
    match ptrAt C.ports (IdPort - 1) with
    | some p => p.kind.getName
    | none => ['?', '?']
  else ['?', '?']

/-- Source: `Circuito::getNumInputsPort`. -/
def getNumInputsPort (C : Circuito) (IdPort : Int) : Int :=
  if C.definedPort IdPort then
    match ptrAt C.ports (IdPort - 1) with
    | some p => p.getNumInputs
    | none => 0
  else 0

/-- Source: `Circuito::getId_inPort`. -/
def getId_inPort (C : Circuito) (IdPort : Int) (I : Int) : Int :=
  if C.definedPort IdPort then
    match ptrAt C.ports (IdPort - 1) with
    | some p => if p.validIndex I then p.getId_in I else 0
    | none => 0
  else 0

/-- Source: `Circuito::validPort`. -/
def validPort (C : Circuito) (IdPort : Int) : Bool :=
  if !C.definedPort IdPort then false
  else (List.range (C.getNumInputsPort IdPort).toNat).all
    (fun (j : Nat) => C.validIdOrig (C.getId_inPort IdPort (j : Int)))

/-- Source: `Circuito::valid`. -/
def valid (C : Circuito) : Bool :=
  if C.getNumInputs ≤ 0 then false
  else if C.getNumOutputs ≤ 0 then false
  else if C.getNumPorts ≤ 0 then false
  else if !(List.range C.getNumPorts.toNat).all
      (fun (i : Nat) => C.validPort ((i : Int) + 1)) then false
  else if !(List.range C.getNumOutputs.toNat).all
      (fun (i : Nat) => C.validIdOrig (C.getIdOutput ((i : Int) + 1))) then false
  else true

/-! ### Simulation -/

/-- Source: `Circuito::simular`, lines 493-500 and 522-529: the signal an
origin id refers to, `(*ports[id-1]).getOutput()` for `id > 0` and
`in_circ[-id-1]` otherwise; `none` when the access is out of range or the
gate pointer is null. -/
def simular_origem (in_circ : List bool3S) (ports : List (Option Port)) (id : Int) :
    Option bool3S :=
  if id > 0 then (ptrAt ports (id - 1)).map Port.getOutput
  else vecAt in_circ (-id - 1)

/-- Sequencing of a list of possibly failing reads: `none` as soon as one
fails. -/
def allOk {α : Type} : List (Option α) → Option (List α)
  | [] => some []
  | none :: _ => none
  | some a :: rest => (allOk rest).map (fun as => a :: as)

/-- Source: `Circuito::simular`, lines 487-501: the vector `in_port` after the
inner loop over `j = 0 .. getNumInputs()-1`, entry `j` holding the signal of
origin `getId_in(j)`. -/
def simular_in_port (in_circ : List bool3S) (ports : List (Option Port)) (p : Port) :
    Option (List bool3S) :=
  allOk ((List.range p.getNumInputs.toNat).map
    (fun (j : Nat) => simular_origem in_circ ports (p.getId_in (j : Int))))

/-- State of one pass of the `do ... while` loop of `simular`: the gates and
the two flags. -/
structure PassState where
  ports : List (Option Port)
  tudo_def : Bool
  alguma_def : Bool
deriving DecidableEq

/-- Source: `Circuito::simular`, line 473-476: body of the reset loop,
`(*ports[i]).setOutput(bool3S::UNDEF)`. -/
def simular_reset_body (i : Nat) (ports : List (Option Port)) : Option (List (Option Port)) :=
  match ptrAt ports i with
  | none => none
  | some p => some (ports.set i (some (p.setOutput bool3S.UNDEF)))

/-- Source: `Circuito::simular`, lines 485-513: body of the loop over the gates
inside one pass. -/
def simular_body (in_circ : List bool3S) (i : Nat) (st : PassState) : Option PassState :=
  match ptrAt st.ports i with
  | none => none
  | some p =>
    if p.getOutput = bool3S.UNDEF then
      match simular_in_port in_circ st.ports p with
      | none => none
      | some in_port =>
        let q := p.simular in_port
        let ports1 := st.ports.set i (some q)
        if q.getOutput = bool3S.UNDEF then
          some { ports := ports1, tudo_def := false, alguma_def := st.alguma_def }
        else
          some { ports := ports1, tudo_def := st.tudo_def, alguma_def := true }
    else some st

/-- Source: `Circuito::simular`, lines 480-514: one full pass over the gates,
starting with `tudo_def = true` and `alguma_def = false`. -/
def simular_pass (in_circ : List bool3S) (ports : List (Option Port)) : Option PassState :=
  forLoop (simular_body in_circ) ports.length
    { ports := ports, tudo_def := true, alguma_def := false }

/-- Source: `Circuito::simular`, lines 478-516: the `do ... while(!tudo_def &&
alguma_def)` loop; returns the gates at exit and the number of passes
executed. -/
def simular_loop (in_circ : List bool3S) : Nat → List (Option Port) →
    Outcome (List (Option Port) × Nat)
  | 0, _ => Outcome.outOfFuel
  | fuel + 1, ports =>
    match simular_pass in_circ ports with
    | none => Outcome.undefinedBehaviour
    | some st =>
      if !st.tudo_def && st.alguma_def then
        match simular_loop in_circ fuel st.ports with
        | Outcome.done (ports1, n) => Outcome.done (ports1, n + 1)
        | Outcome.undefinedBehaviour => Outcome.undefinedBehaviour
        | Outcome.outOfFuel => Outcome.outOfFuel
      else Outcome.done (st.ports, 1)

/-- State of the read-out loop: the vector `out_circ` and the log of the
indices written so far (ghost, latest first). -/
structure OutState where
  out_circ : List bool3S
  written : List Nat
deriving DecidableEq

/-- Source: `Circuito::simular`, lines 518-530: body of the read-out loop,
`out_circ[j] = ` signal of origin `id_out[j]`. -/
def simular_out_body (in_circ : List bool3S) (ports : List (Option Port)) (id_out : List Int)
    (j : Nat) (st : OutState) : Option OutState :=
  match vecAt id_out j with
  | none => none
  | some id =>
    match simular_origem in_circ ports id with
    | none => none
    | some s =>
      if j < st.out_circ.length then
        some { out_circ := st.out_circ.set j s, written := j :: st.written }
      else none

/-- Source: `Circuito::simular` with the loop bounded by `fuel` passes; the
result is the returned `bool` and the object after the call. -/
def simularFuel (fuel : Nat) (C : Circuito) (in_circ : List bool3S) :
    Outcome (Bool × Circuito) :=
  match forLoop simular_reset_body C.ports.length C.ports with
  | none => Outcome.undefinedBehaviour
  | some ports0 =>
    match simular_loop in_circ fuel ports0 with
    | Outcome.undefinedBehaviour => Outcome.undefinedBehaviour
    | Outcome.outOfFuel => Outcome.outOfFuel
    | Outcome.done (ports1, _) =>
      match forLoop (simular_out_body in_circ ports1 C.id_out) C.id_out.length
          { out_circ := C.out_circ, written := [] } with
      | none => Outcome.undefinedBehaviour
      | some os => Outcome.done (true, { C with ports := ports1, out_circ := os.out_circ })

/-- Source: `Circuito::simular`. The loop never needs more than
`ports.size() + 1` passes, on any netlist (lemma `simularFuel_adequate`). -/
def simular (C : Circuito) (in_circ : List bool3S) : Outcome (Bool × Circuito) :=
  simularFuel (C.ports.length + 1) C in_circ

end Circuito

/-! ## Text input and output -/

/-- State of a `std::istream` during formatted extraction: the characters not
read yet and the `failbit` and `eofbit` flags. -/
structure IStream where
  buf : List Char
  failbit : Bool
  eofbit : Bool
deriving DecidableEq

/-- Library `std::ios::good`: no error flag set. -/
def IStream.good (s : IStream) : Bool := !s.failbit && !s.eofbit

/-- Library `isspace` in the "C" locale. -/
def isSpaceC (c : Char) : Bool :=
  c = ' ' || c = '\n' || c = '\t' || c = '\r' || c = '\x0b' || c = '\x0c'

/-- Library `isdigit`. -/
def isDigitC (c : Char) : Bool := decide ('0' ≤ c) && decide (c ≤ '9')

/-- Prefix step of every `operator>>` (the sentry): fails, setting `failbit`,
when the stream is not good; otherwise skips leading whitespace and fails with
`eofbit | failbit` when nothing is left. -/
def IStream.sentry (s : IStream) : IStream × Bool :=
  if !s.good then ({ s with failbit := true }, false)
  else
    let b := s.buf.dropWhile isSpaceC
    if b.isEmpty then ({ buf := [], failbit := true, eofbit := true }, false)
    else ({ s with buf := b }, true)

/-- Library `operator>>(istream&, std::string&)`: the next whitespace-delimited
word; `old` is kept when the sentry fails; `eofbit` when the word ends the
text. -/
def IStream.readString (s : IStream) (old : List Char) : IStream × List Char :=
  match s.sentry with
  | (s1, false) => (s1, old)
  | (s1, true) =>
    let rest := s1.buf.dropWhile (fun c => !isSpaceC c)
    ({ buf := rest, failbit := s1.failbit, eofbit := rest.isEmpty },
      s1.buf.takeWhile (fun c => !isSpaceC c))

/-- Library `operator>>(istream&, char&)`: the next non-blank character. -/
def IStream.readChar (s : IStream) (old : Char) : IStream × Char :=
  match s.sentry with
  | (s1, false) => (s1, old)
  | (s1, true) =>
    match s1.buf with
    | [] => (s1, old)
    | c :: rest => ({ s1 with buf := rest }, c)

/-- Value of a string of decimal digits. -/
def digitsValue (ds : List Char) : Nat :=
  ds.foldl (fun acc c => 10 * acc + (c.toNat - '0'.toNat)) 0

/-- Library `operator>>(istream&, int&)`: an optional sign and decimal digits;
`old` is kept when the sentry fails, 0 is stored (with `failbit`) when no digit
follows, the nearest bound is stored (with `failbit`) when the value does not
fit an `int`; `eofbit` when the digits end the text. -/
def IStream.readInt (s : IStream) (old : Int) : IStream × Int :=
  match s.sentry with
  | (s1, false) => (s1, old)
  | (s1, true) =>
    let neg := s1.buf.head? = some '-'
    let body := if s1.buf.head? = some '-' ∨ s1.buf.head? = some '+' then s1.buf.tail else s1.buf
    let ds := body.takeWhile isDigitC
    let rest := body.dropWhile isDigitC
    if ds.isEmpty then ({ buf := rest, failbit := true, eofbit := rest.isEmpty }, 0)
    else
      let v : Int := if neg then -(digitsValue ds : Int) else (digitsValue ds : Int)
      if v > 2147483647 then ({ buf := rest, failbit := true, eofbit := rest.isEmpty }, 2147483647)
      else if v < -2147483648 then
        ({ buf := rest, failbit := true, eofbit := rest.isEmpty }, -2147483648)
      else ({ buf := rest, failbit := s1.failbit, eofbit := rest.isEmpty }, v)

/-- Library `operator<<(ostream&, int)`: decimal text of an `int`. -/
def showInt (n : Int) : List Char :=
  if n < 0 then '-' :: Nat.toDigits 10 (-n).toNat else Nat.toDigits 10 n.toNat

/-! ## Gate kinds by name -/

/-- Source: `validType`; the string is passed by reference and is left
upper-cased when it has two characters, so it is returned with the result. -/
def validType (Tipo : List Char) : Bool × List Char :=
  match Tipo with
  | [a, b] =>
    let T := [a.toUpper, b.toUpper]
    (T = ['N', 'T'] || T = ['A', 'N'] || T = ['N', 'A'] || T = ['O', 'R'] || T = ['N', 'O'] ||
      T = ['X', 'O'] || T = ['N', 'X'], T)
  | _ => (false, Tipo)

/-- Source: `allocPort`; a freshly allocated gate is modelled from the spec as
a gate of the given kind without inputs and with output UNDEF. -/
def allocPort (Tipo : List Char) : Option Port × List Char :=
  match validType Tipo with
  | (false, T) => (none, T)
  | (true, T) =>
    let fresh (k : PortKind) : Option Port := some { kind := k, id_in := [], out := bool3S.UNDEF }
    if T = ['N', 'T'] then (fresh PortKind.NT, T)
    else if T = ['A', 'N'] then (fresh PortKind.AN, T)
    else if T = ['N', 'A'] then (fresh PortKind.NA, T)
    else if T = ['O', 'R'] then (fresh PortKind.OR, T)
    else if T = ['N', 'O'] then (fresh PortKind.NO, T)
    else if T = ['X', 'O'] then (fresh PortKind.XO, T)
    else if T = ['N', 'X'] then (fresh PortKind.NX, T)
    else (none, T)

/-- Modelled from the spec: the arity a gate kind accepts, "exactly 1 for NOT,
>= 2 for all others". -/
def PortKind.validNumInputs (k : PortKind) (N : Int) : Bool :=
  match k with
  | PortKind.NT => decide (N = 1)
  | _ => decide (N ≥ 2)

/-- Modelled from the spec: the text of a gate written by `operator<<` on a
`Port` (not in the source file), "kind, arity, then that many origin
identifiers", blank separated, after the `)` that `imprimir` writes. -/
def Port.imprimir (p : Port) : List Char :=
  [' '] ++ p.kind.getName ++ [' '] ++ showInt p.getNumInputs ++
    (p.id_in.map (fun id => ' ' :: showInt id)).flatten

/-- Modelled from the spec: reading of `n` origin identifiers, each followed by
a test of the stream. -/
def lerIds : Nat → IStream → List Int → IStream × Option (List Int)
  | 0, s, acc => (s, some acc.reverse)
  | n + 1, s, acc =>
    match s.readInt 0 with
    | (s1, id) => if !s1.good then (s1, none) else lerIds n s1 (id :: acc)

/-- Modelled from the spec: `Port::ler` (not in the source file), which reads
the gate body "arity then that many origin identifiers" into a gate of the
kind already allocated and reports failure on a malformed body or an arity the
kind does not accept. -/
def Port.ler (p : Port) (s : IStream) : IStream × Option Port :=
  match s.readInt 0 with
  | (s1, N) =>
    if !s1.good || !p.kind.validNumInputs N then (s1, none)
    else
      match lerIds N.toNat s1 [] with
      | (s2, none) => (s2, none)
      | (s2, some ids) => (s2, some { p with id_in := ids })

namespace Circuito

/-! ## Sizing and persistence -/

/-- Source: `Circuito::clear`. -/
def clear (_C : Circuito) : Circuito :=
  { Nin := 0, id_out := [], out_circ := [], ports := [] }

/-- Source: `Circuito::resize`. -/
def resize (C : Circuito) (NI NO NP : Int) : Circuito :=
  if NI < 0 ∨ NO < 0 ∨ NP < 0 then C
  else
    { Nin := NI, id_out := List.replicate NO.toNat 0,
      out_circ := List.replicate NO.toNat bool3S.UNDEF,
      ports := List.replicate NP.toNat none }

/-- Source: `Circuito::imprimir`, lines 433-436: the lines of the gates from
index `i` on; `none` when a gate pointer is null (`*ports[i]`). -/
def imprimir_portas : Nat → List (Option Port) → Option (List Char)
  | _, [] => some []
  | _, none :: _ => none
  | i, some p :: rest =>
    (imprimir_portas (i + 1) rest).map
      (fun t => showInt ((i : Int) + 1) ++ [')'] ++ p.imprimir ++ ['\n'] ++ t)

/-- Source: `Circuito::imprimir`, lines 438-441: the lines of the outputs from
index `k` on. -/
def imprimir_saidas : Nat → List Int → List Char
  | _, [] => []
  | k, id :: rest =>
    showInt ((k : Int) + 1) ++ [')', ' '] ++ showInt id ++ ['\n'] ++ imprimir_saidas (k + 1) rest

/-- Source: `Circuito::imprimir`: the text written to the stream. -/
def imprimir (C : Circuito) : Option (List Char) :=
  (imprimir_portas 0 C.ports).map (fun portas =>
    "CIRCUITO ".toList ++ showInt C.getNumInputs ++ [' '] ++ showInt C.getNumOutputs ++ [' '] ++
      showInt C.getNumPorts ++ ['\n'] ++ "PORTAS\n".toList ++ portas ++ "SAIDAS\n".toList ++
      imprimir_saidas 0 C.id_out)

/-- Source: `Circuito::salvar`; `ofGood` says whether the file could be opened
for writing; the result is the returned `bool` and the text of the file when
one was written. -/
def salvar (C : Circuito) (ofGood : Bool) : Bool × Option (List Char) :=
  if !C.valid then (false, none)
  else if !ofGood then (false, none)
  else (true, C.imprimir)

/-- Local variables of `Circuito::ler` that live across the loops, with the
stream and the object under construction. -/
structure LerState where
  s : IStream
  C : Circuito
  id : Int
  c : Char
  tipo : List Char
deriving DecidableEq

/-- Source: `Circuito::ler`, lines 394-402: the loop over the gates, `n`
iterations from index `i`; `Except.error k` stands for `throw k`. -/
def ler_portas : Nat → Nat → LerState → Except Nat LerState
  | 0, _, st => Except.ok st
  | n + 1, i, st =>
    match st.s.readInt st.id with
    | (s1, id) =>
      match s1.readChar st.c with
      | (s2, c) =>
        match s2.readString st.tipo with
        | (s3, tipo) =>
          if !s3.good || id != (i : Int) + 1 || c != ')' || !(validType tipo).1 then
            Except.error 4
          else
            match allocPort (validType tipo).2 with
            | (none, _) => Except.error 5
            | (some p, tipo1) =>
              match p.ler s3 with
              | (_, none) => Except.error 5
              | (s4, some q) =>
                let C1 : Circuito := { st.C with ports := st.C.ports.set i (some q) }
                if !C1.validPort id then Except.error 5
                else ler_portas n (i + 1) { s := s4, C := C1, id := id, c := c, tipo := tipo1 }

/-- Source: `Circuito::ler`, lines 408-412: the loop over the outputs, `n`
iterations from index `i`. The test of line 411 is `validIdOrig(id)`, on the
output index just read, as in the source. -/
def ler_saidas : Nat → Nat → LerState → Except Nat LerState
  | 0, _, st => Except.ok st
  | n + 1, i, st =>
    match st.s.readInt st.id with
    | (s1, id) =>
      match s1.readChar st.c with
      | (s2, c) =>
        match s2.readInt (st.C.id_out.getD i 0) with
        | (s3, o) =>
          let C1 : Circuito := { st.C with id_out := st.C.id_out.set i o }
          if id != (i : Int) + 1 || c != ')' || !C1.validIdOrig id then Except.error 7
          else ler_saidas n (i + 1) { st with s := s3, C := C1, id := id, c := c }

/-- Source: `Circuito::ler`, the `try` block (lines 377-412); `arq` is the
text of the file, `none` when it cannot be opened. -/
def ler_try (C : Circuito) (arq : Option (List Char)) : Except Nat Circuito :=
  match arq with
  | none => Except.error 1
  | some txt =>
    let s0 : IStream := { buf := txt, failbit := false, eofbit := false }
    match s0.readString [] with
    | (s1, pS) =>
      match s1.readInt 0 with
      | (s2, NI) =>
        match s2.readInt 0 with
        | (s3, NO) =>
          match s3.readInt 0 with
          | (s4, NP) =>
            if !s4.good || pS != "CIRCUITO".toList || NI ≤ 0 || NO ≤ 0 || NP ≤ 0 then
              Except.error 2
            else
              let C1 := C.resize NI NO NP
              match s4.readString pS with
              | (s5, pS1) =>
                if !s5.good || pS1 != "PORTAS".toList then Except.error 3
                else
                  match ler_portas C1.ports.length 0
                      { s := s5, C := C1, id := 0, c := ' ', tipo := [] } with
                  | Except.error k => Except.error k
                  | Except.ok st =>
                    match st.s.readString pS1 with
                    | (s6, pS2) =>
                      if !s6.good || pS2 != "SAIDAS".toList then Except.error 6
                      else
                        match ler_saidas st.C.id_out.length 0 { st with s := s6 } with
                        | Except.error k => Except.error k
                        | Except.ok st1 => Except.ok st1.C

/-- Source: `Circuito::ler`: the returned `bool` and the object after the call;
the `catch` block clears the object and returns `false`. -/
def ler (C : Circuito) (arq : Option (List Char)) : Bool × Circuito :=
  match ler_try C arq with
  | Except.ok C1 => (true, C1)
  | Except.error _ => (false, C.clear)

end Circuito

/-! ## Mutators and copy -/

/-- Modelled from the spec: `Port::setNumInputs` (not in the source file), which
fixes the arity of a gate, "1 for NOT, caller-chosen >= 2 for all others;
rejected otherwise"; the origins start unset (0). -/
def Port.setNumInputs (p : Port) (N : Int) : Port :=
  if p.kind.validNumInputs N then { p with id_in := List.replicate N.toNat 0 } else p

/-- Modelled from the spec: `Port::setId_in` (not in the source file), which
sets the origin of input `I`; "out-of-range index is a no-op". -/
def Port.setId_in (p : Port) (I : Int) (IdOrig : Int) : Port :=
  if p.validIndex I then { p with id_in := p.id_in.set I.toNat IdOrig } else p

/-- Modelled from the spec: `Port::clone` (not in the source file), a newly
allocated copy of the gate. -/
def Port.clone (p : Port) : Port := p

namespace Circuito

/-- Source: `Circuito::setIdOutput`. -/
def setIdOutput (C : Circuito) (IdOut IdOrig : Int) : Circuito :=
  if C.validIdOutput IdOut && C.validIdOrig IdOrig then
    { C with id_out := C.id_out.set (IdOut - 1).toNat IdOrig }
  else C

/-- Source: `Circuito::setPort`; `Tipo` is passed by value. The result is `none`
when `allocPort` returns a null pointer that `->setNumInputs` then dereferences
(which the tests before it exclude). -/
def setPort (C : Circuito) (IdPort : Int) (Tipo : List Char) (NIn : Int) : Option Circuito :=
  if !C.validIdPort IdPort then some C
  else
    match validType Tipo with
    | (false, _) => some C
    | (true, T) =>
      if (if T = "NT".toList then NIn != 1 else decide (NIn < 2)) then some C
      else
        match allocPort T with
        | (none, _) => none
        | (some p, _) =>
          some { C with ports := C.ports.set (IdPort - 1).toNat (some (p.setNumInputs NIn)) }

/-- Source: `Circuito::setId_inPort`. -/
def setId_inPort (C : Circuito) (IdPort : Int) (I : Int) (IdOrig : Int) : Circuito :=
  if !C.definedPort IdPort then C
  else
    match ptrAt C.ports (IdPort - 1) with
    | none => C
    | some p =>
      if !p.validIndex I then C
      else if !C.validIdOrig IdOrig then C
      else { C with ports := C.ports.set (IdPort - 1).toNat (some (p.setId_in I IdOrig)) }

/-- Source: `Circuito::Circuito(const Circuito&)`, line 60: body of the loop,
`ports.at(i) = C.ports.at(i)->clone()`; `none` when `C.ports.at(i)` is null. -/
def copy_body (C : Circuito) (i : Nat) (ports : List (Option Port)) :
    Option (List (Option Port)) :=
  match ptrAt C.ports i with
  | none => none
  | some p => if i < ports.length then some (ports.set i (some p.clone)) else none

/-- Source: `Circuito::Circuito(const Circuito&)`: the copy-constructed object,
`none` when the constructor dereferences a null gate pointer. -/
def copy (C : Circuito) : Option Circuito :=
  (forLoop (copy_body C) C.ports.length (List.replicate C.ports.length none)).map
    (fun ports => { Nin := C.Nin, id_out := C.id_out, out_circ := C.out_circ, ports := ports })

end Circuito

/-! ## Example netlists -/

/-- Netlist with 2 inputs, 1 output and one AND gate reading inputs -1 and -2;
the output reads gate 1. `g` and `o` are the gate output and the output signal
left over from whatever happened before. -/
def circAND (g o : bool3S) : Circuito :=
  { Nin := 2, id_out := [1], out_circ := [o],
    ports := [some { kind := PortKind.AN, id_in := [-1, -2], out := g }] }

/-- Netlist with 1 input, 1 output and one NOT gate reading its own output. -/
def circNOTself (g o : bool3S) : Circuito :=
  { Nin := 1, id_out := [1], out_circ := [o],
    ports := [some { kind := PortKind.NT, id_in := [1], out := g }] }

/-- Netlist with 1 input, 1 output and one AND gate reading input -1 and its
own output. -/
def circANDself (g o : bool3S) : Circuito :=
  { Nin := 1, id_out := [1], out_circ := [o],
    ports := [some { kind := PortKind.AN, id_in := [-1, 1], out := g }] }

/-- Netlist with 1 input, 1 NOT gate reading input -1 and no output at all, as
left by `resize(1, 0, 1)`, `setPort(1, "NT", 1)`, `setId_inPort(1, 0, -1)`. -/
def circNoOutput : Circuito :=
  { Nin := 1, id_out := [], out_circ := [],
    ports := [some { kind := PortKind.NT, id_in := [-1], out := bool3S.UNDEF }] }

/-- Netlist with 1 input, 1 output and two NOT gates: gate 1 reads gate 2 (a
forward reference), gate 2 reads circuit input 1; the output reads gate 1. -/
def circForward : Circuito :=
  { Nin := 1, id_out := [1], out_circ := [bool3S.UNDEF],
    ports := [some { kind := PortKind.NT, id_in := [2], out := bool3S.UNDEF },
      some { kind := PortKind.NT, id_in := [-1], out := bool3S.UNDEF }] }

/-- Netlist with 1 input, 2 outputs and one NOT gate reading circuit input 1;
output 1 reads the gate, output 2 reads the circuit input. More outputs than
gates. -/
def circTwoOut : Circuito :=
  { Nin := 1, id_out := [1, -1], out_circ := [bool3S.UNDEF, bool3S.UNDEF],
    ports := [some { kind := PortKind.NT, id_in := [-1], out := bool3S.UNDEF }] }

/-- Netlist with 1 input, 1 output and one NOT gate reading circuit input 1. -/
def circNOT : Circuito :=
  { Nin := 1, id_out := [1], out_circ := [bool3S.UNDEF],
    ports := [some { kind := PortKind.NT, id_in := [-1], out := bool3S.UNDEF }] }

/-- Netlist left by `resize(1, 1, 1)` on an empty object: 1 input, 1 output
with origin 0, 1 gate slot not set yet. -/
def circResized : Circuito :=
  { Nin := 1, id_out := [0], out_circ := [bool3S.UNDEF], ports := [none] }

/-- Text of a netlist file with 1 input, 1 output and 1 gate (a NOT of circuit
input 1) whose only output line names origin 5. -/
def textoSaida5 : List Char :=
  "CIRCUITO 1 1 1\nPORTAS\n1) NT 1 -1\nSAIDAS\n1) 5\n".toList

/-! ## Notions used in the proofs -/

open Circuito

/-- Cached output of gate `k` (0-based), when the slot exists and is set. -/
def outAt (ports : List (Option Port)) (k : Nat) : Option bool3S :=
  (ptrAt ports k).map Port.getOutput

/-- Topology of a gate vector: kind and input origins of every slot, cached
outputs dropped. -/
def topo (ports : List (Option Port)) : List (Option (PortKind × List Int)) :=
  ports.map (Option.map (fun p => (p.kind, p.id_in)))

/-- Gate outputs only move from UNDEF to a defined value: `Mono a b` says every
gate defined in `a` is the very same gate in `b`. -/
def Mono (a b : List (Option Port)) : Prop :=
  ∀ (k : Nat) (p : Port), ptrAt a (k : Int) = some p → p.out ≠ bool3S.UNDEF →
    ptrAt b (k : Int) = some p

/-- Facts that hold after the first `m` gate visits of a pass started in
`st0`. -/
structure PassInv (st0 : PassState) (m : Nat) (st : PassState) : Prop where
  topo_eq : topo st.ports = topo st0.ports
  mono : Mono st0.ports st.ports
  later : ∀ k : Nat, m ≤ k → ptrAt st.ports (k : Int) = ptrAt st0.ports (k : Int)
  tudo_false : st.tudo_def = false → st0.tudo_def = false ∨
    ∃ k : Nat, k < m ∧ outAt st.ports k = some bool3S.UNDEF
  tudo_true : st.tudo_def = true → st0.tudo_def = true ∧
    ∀ k : Nat, k < m → ∃ p, ptrAt st.ports (k : Int) = some p ∧ p.out ≠ bool3S.UNDEF
  alguma_true : st.alguma_def = true → st0.alguma_def = true ∨
    ∃ k : Nat, k < m ∧ outAt st0.ports k = some bool3S.UNDEF ∧
      ∃ p, ptrAt st.ports (k : Int) = some p ∧ p.out ≠ bool3S.UNDEF
  alguma_false : st.alguma_def = false → st0.alguma_def = false ∧ st.ports = st0.ports

/-- Indices of the gates whose cached output is UNDEF. -/
def undefSet (ports : List (Option Port)) : Finset Nat :=
  (Finset.range ports.length).filter (fun k => outAt ports k = some bool3S.UNDEF)

/-- Number of gates whose cached output is UNDEF. -/
def undefCount (ports : List (Option Port)) : Nat := (undefSet ports).card

/-- An origin id that refers to an existing circuit input or gate. -/
def OrigOk (nin np : Nat) (id : Int) : Prop :=
  (1 ≤ id ∧ id ≤ (np : Int)) ∨ (-(nin : Int) ≤ id ∧ id ≤ -1)

/-- Every gate slot is set and every gate input has an existing origin. -/
def PortsOk (nin : Nat) (ports : List (Option Port)) : Prop :=
  ∀ k : Nat, k < ports.length →
    ∃ q, ptrAt ports (k : Int) = some q ∧ ∀ id ∈ q.id_in, OrigOk nin ports.length id

/-- The gate vector after the reset loop of `simular`. -/
def resetAll (ports : List (Option Port)) : List (Option Port) :=
  ports.map (Option.map (fun p => p.setOutput bool3S.UNDEF))

/-- The vector `out_circ` after the read-out loop of `simular`, when every
origin can be read. -/
def readOut (in_circ : List bool3S) (ports : List (Option Port)) (id_out : List Int) :
    List bool3S :=
  id_out.map (fun id => (simular_origem in_circ ports id).getD bool3S.UNDEF)

/-- One gate visit of a run of `simular`, as recorded in the ghost trace: the
index of the gate visited, whether `ports[i]->simular(in_port)` was called on
it (its output was UNDEF when visited), and the gates after the visit. -/
structure Visit where
  gate : Nat
  evaluated : Bool
  ports : List (Option Port)
deriving DecidableEq

/-- Ghost trace of the first `m` gate visits of a pass started in `st0`, built
from the very loop body the pass runs. -/
def passTrace (in_circ : List bool3S) (st0 : PassState) : Nat → List Visit
  | 0 => []
  | m + 1 => passTrace in_circ st0 m ++
      match forLoop (simular_body in_circ) m st0 with
      | none => []
      | some st =>
        match simular_body in_circ m st with
        | none => []
        | some st1 =>
          [{ gate := m, evaluated := decide (outAt st.ports m = some bool3S.UNDEF),
             ports := st1.ports }]

/-- Ghost trace of all gate visits of the `do ... while` loop, pass after pass,
following the same continuation test as `simular_loop`. -/
def runTrace (in_circ : List bool3S) : Nat → List (Option Port) → List Visit
  | 0, _ => []
  | fuel + 1, ports =>
    passTrace in_circ { ports := ports, tudo_def := true, alguma_def := false } ports.length ++
      match simular_pass in_circ ports with
      | none => []
      | some st =>
        if !st.tudo_def && st.alguma_def then runTrace in_circ fuel st.ports else []

/-- The monotonicity relation between an earlier visit `a` and a later visit
`b`: every gate defined after `a` has the same output after `b`, and `b` did
not evaluate it. -/
def Settled (a b : Visit) : Prop :=
  ∀ (g : Nat) (v : bool3S), outAt a.ports g = some v → v ≠ bool3S.UNDEF →
    outAt b.ports g = some v ∧ ¬ (b.gate = g ∧ b.evaluated = true)

/-- Visit `b` is one execution of the loop body in a state reached from the
gates `x` by defining more gates. -/
def VisitFrom (in_circ : List bool3S) (x : List (Option Port)) (b : Visit) : Prop :=
  ∃ s s1, Mono x s.ports ∧ simular_body in_circ b.gate s = some s1 ∧ b.ports = s1.ports ∧
    b.evaluated = decide (outAt s.ports b.gate = some bool3S.UNDEF)

/-- The seven mnemonics that `validType` accepts. -/
def mnemonics : List (List Char) :=
  ["NT".toList, "AN".toList, "NA".toList, "OR".toList, "NO".toList, "XO".toList, "NX".toList]

/-- Information order on signals: UNDEF may become anything, a defined signal
stays what it is. -/
def le3 (a b : bool3S) : Prop := a = bool3S.UNDEF ∨ a = b

/-- Every gate with a defined output holds the value its evaluation rule gives
on the current values of its inputs. -/
def Cons (in_circ : List bool3S) (ports : List (Option Port)) : Prop :=
  ∀ (k : Nat) (p : Port), ptrAt ports (k : Int) = some p → p.out ≠ bool3S.UNDEF →
    ∃ xs, simular_in_port in_circ ports p = some xs ∧ p.kind.eval xs = p.out

/-- Every gate with output UNDEF evaluates to UNDEF on the current values of
its inputs. -/
def Stuck (in_circ : List bool3S) (ports : List (Option Port)) (m : Nat) : Prop :=
  ∀ (k : Nat) (p : Port), k < m → ptrAt ports (k : Int) = some p → p.out = bool3S.UNDEF →
    ∃ xs, simular_in_port in_circ ports p = some xs ∧ p.kind.eval xs = bool3S.UNDEF

/-- Dependency between gates, by 0-based index: gate `p` depends on gate `q`
when `q + 1`, the id of gate `q`, is an input origin of gate `p`. -/
def dep (ports : List (Option Port)) (q p : Nat) : Prop :=
  ∃ g, ptrAt ports (p : Int) = some g ∧ ((q : Int) + 1) ∈ g.id_in

/-- The gate dependency graph has no cycle: no gate depends on itself through
one or more dependency steps. -/
def Acyclic (ports : List (Option Port)) : Prop :=
  ∀ p : Nat, ¬ Relation.TransGen (dep ports) p p

end Circ

namespace Circ
open Circuito

/-! ## Basic lemmas -/

theorem validIdOrig_iff (C : Circuito) (id : Int) :
    C.validIdOrig id = true ↔
      (-C.getNumInputs ≤ id ∧ id ≤ -1) ∨ (1 ≤ id ∧ id ≤ C.getNumPorts) := by
  simp only [validIdOrig, validIdInput, validIdPort, Bool.or_eq_true, Bool.and_eq_true,
    decide_eq_true_eq, ge_iff_le]
  tauto

theorem all_range_iff (n : Nat) (f : Nat → Bool) :
    (List.range n).all f = true ↔ ∀ i : Nat, i < n → f i = true := by
  simp [List.all_eq_true]

/-- Characterisation of `valid` over ids, as the header comment of the function
states it. -/
theorem valid_unfold_ids (C : Circuito) :
    C.valid = true ↔
      (C.getNumInputs > 0 ∧ C.getNumOutputs > 0 ∧ C.getNumPorts > 0 ∧
       (∀ p : Int, 1 ≤ p → p ≤ C.getNumPorts → C.validPort p = true) ∧
       (∀ k : Int, 1 ≤ k → k ≤ C.getNumOutputs → C.validIdOrig (C.getIdOutput k) = true)) := by
  unfold valid
  simp only [Bool.not_eq_true', gt_iff_lt]
  have hP : (List.range C.getNumPorts.toNat).all (fun i => C.validPort ((i : Int) + 1)) = true ↔
      ∀ p : Int, 1 ≤ p → p ≤ C.getNumPorts → C.validPort p = true := by
    rw [all_range_iff]
    constructor
    · intro h p h1 h2
      have := h (p - 1).toNat (by omega)
      rwa [show (((p - 1).toNat : Nat) : Int) + 1 = p by omega] at this
    · intro h i hi
      exact h _ (by omega) (by omega)
  have hO : (List.range C.getNumOutputs.toNat).all
      (fun i => C.validIdOrig (C.getIdOutput ((i : Int) + 1))) = true ↔
      ∀ k : Int, 1 ≤ k → k ≤ C.getNumOutputs → C.validIdOrig (C.getIdOutput k) = true := by
    rw [all_range_iff]
    constructor
    · intro h p h1 h2
      have := h (p - 1).toNat (by omega)
      rwa [show (((p - 1).toNat : Nat) : Int) + 1 = p by omega] at this
    · intro h i hi
      exact h _ (by omega) (by omega)
  rw [← hP, ← hO]
  by_cases h1 : C.getNumInputs ≤ 0
  · simp [h1]
  by_cases h2 : C.getNumOutputs ≤ 0
  · simp [h1, h2]
  by_cases h3 : C.getNumPorts ≤ 0
  · simp [h1, h2, h3]
  simp only [h1, h2, h3, if_false]
  have h1p : 0 < C.getNumInputs := by omega
  have h2p : 0 < C.getNumOutputs := by omega
  have h3p : 0 < C.getNumPorts := by omega
  simp only [h1p, h2p, h3p, true_and]
  cases hA : (List.range C.getNumPorts.toNat).all (fun i => C.validPort ((i : Int) + 1)) <;>
  cases hB : (List.range C.getNumOutputs.toNat).all
      (fun i => C.validIdOrig (C.getIdOutput ((i : Int) + 1))) <;> simp

theorem vecAt_natCast {α : Type} (v : List α) (k : Nat) : vecAt v (k : Int) = v[k]? := by
  simp [vecAt]

theorem ptrAt_natCast (ports : List (Option Port)) (k : Nat) :
    ptrAt ports (k : Int) = (ports[k]?).bind id := by
  simp [ptrAt, vecAt_natCast]

theorem ptrAt_eq_some {ports : List (Option Port)} {k : Nat} {p : Port} :
    ptrAt ports (k : Int) = some p ↔ ports[k]? = some (some p) := by
  rw [ptrAt_natCast]
  cases h : ports[k]? with
  | none => simp
  | some o => cases o <;> simp

theorem ptrAt_lt {ports : List (Option Port)} {k : Nat} {p : Port}
    (h : ptrAt ports (k : Int) = some p) : k < ports.length := by
  rw [ptrAt_eq_some] at h
  by_contra hk
  rw [List.getElem?_eq_none (by omega)] at h
  cases h

theorem Port.getId_in_natCast (q : Port) (j : Nat) (hj : j < q.id_in.length) :
    q.validIndex (j : Int) = true ∧ q.getId_in (j : Int) = q.id_in[j] := by
  have hv : q.validIndex (j : Int) = true := by
    simp [Port.validIndex, Port.getNumInputs, hj]
  refine ⟨hv, ?_⟩
  simp [Port.getId_in, hv, List.getD_eq_getElem?_getD, List.getElem?_eq_getElem hj]

theorem definedPort_natCast (C : Circuito) (k : Nat) :
    C.definedPort ((k : Int) + 1) = true ↔ ∃ q, ptrAt C.ports (k : Int) = some q := by
  unfold definedPort validIdPort getNumPorts
  simp only [add_sub_cancel_right]
  cases hq : ptrAt C.ports (k : Int) with
  | none => simp
  | some q =>
    have := ptrAt_lt hq
    have h1 : (k : Int) + 1 ≥ 1 := by omega
    have h2 : (k : Int) + 1 ≤ (C.ports.length : Int) := by omega
    simp [h1, h2]

theorem validPort_natCast (C : Circuito) (k : Nat) :
    C.validPort ((k : Int) + 1) = true ↔
      ∃ q, ptrAt C.ports (k : Int) = some q ∧ ∀ id ∈ q.id_in, C.validIdOrig id = true := by
  unfold validPort
  cases hq : ptrAt C.ports (k : Int) with
  | none =>
    have hd : C.definedPort ((k : Int) + 1) = false := by
      cases h : C.definedPort ((k : Int) + 1) with
      | false => rfl
      | true =>
        obtain ⟨q, hq2⟩ := (definedPort_natCast C k).mp h
        rw [hq] at hq2
        cases hq2
    simp [hd]
  | some q =>
    have hd : C.definedPort ((k : Int) + 1) = true := (definedPort_natCast C k).mpr ⟨q, hq⟩
    simp only [hd, Bool.not_true, Bool.false_eq_true, if_false, getNumInputsPort, getId_inPort,
      if_true, add_sub_cancel_right, hq, all_range_iff]
    constructor
    · intro h
      refine ⟨q, rfl, fun id hid => ?_⟩
      obtain ⟨j, hj, rfl⟩ := List.getElem_of_mem hid
      have := h j (by simp [Port.getNumInputs, hj])
      obtain ⟨hv, hg⟩ := Port.getId_in_natCast q j hj
      simpa [hv, hg] using this
    · rintro ⟨q2, hq2, hall⟩ j hj
      cases hq2
      have hj2 : j < q.id_in.length := by simpa [Port.getNumInputs] using hj
      obtain ⟨hv, hg⟩ := Port.getId_in_natCast q j hj2
      simp only [hv, hg, if_true]
      exact hall _ (List.getElem_mem hj2)

theorem getIdOutput_natCast (C : Circuito) (k : Nat) (hk : k < C.id_out.length) :
    C.getIdOutput ((k : Int) + 1) = C.id_out[k] := by
  have h1 : (k : Int) + 1 ≥ 1 := by omega
  have h2 : (k : Int) + 1 ≤ (C.id_out.length : Int) := by omega
  simp [getIdOutput, validIdOutput, getNumOutputs, h1, h2, List.getD_eq_getElem?_getD,
    List.getElem?_eq_getElem hk]

/-- What `simular` needs of a netlist on which `valid()` holds. -/
theorem valid_unpack {C : Circuito} (hv : C.valid = true) :
    0 < C.Nin ∧ 0 < C.id_out.length ∧ 0 < C.ports.length ∧
    (∀ k : Nat, k < C.ports.length →
      ∃ q, ptrAt C.ports (k : Int) = some q ∧ ∀ id ∈ q.id_in, C.validIdOrig id = true) ∧
    (∀ id ∈ C.id_out, C.validIdOrig id = true) := by
  obtain ⟨h1, h2, h3, hP, hO⟩ := (valid_unfold_ids C).mp hv
  simp only [getNumInputs, getNumOutputs, getNumPorts] at h1 h2 h3
  refine ⟨h1, by omega, by omega, fun k hk => ?_, fun id hid => ?_⟩
  · exact (validPort_natCast C k).mp (hP _ (by omega) (by simp only [getNumPorts]; omega))
  · obtain ⟨j, hj, rfl⟩ := List.getElem_of_mem hid
    have := hO ((j : Int) + 1) (by omega) (by simp only [getNumOutputs]; omega)
    rwa [getIdOutput_natCast C j hj] at this

theorem ptrAt_set (ports : List (Option Port)) (i k : Nat) (q : Port) :
    ptrAt (ports.set i (some q)) (k : Int) =
      if i = k ∧ i < ports.length then some q else ptrAt ports (k : Int) := by
  rw [ptrAt_natCast, ptrAt_natCast, List.getElem?_set]
  by_cases hik : i = k
  · subst hik
    by_cases hi : i < ports.length
    · simp [hi]
    · simp [hi, List.getElem?_eq_none (Nat.le_of_not_lt hi)]
  · simp [hik]

theorem topo_set_simular (ports : List (Option Port)) (i : Nat) (p : Port)
    (hp : ptrAt ports (i : Int) = some p) (s : bool3S) :
    topo (ports.set i (some { p with out := s })) = topo ports := by
  rw [ptrAt_eq_some] at hp
  apply List.ext_getElem?
  intro k
  simp only [topo, List.getElem?_map, List.getElem?_set]
  by_cases hik : i = k
  · subst hik
    have hi : i < ports.length := by
      by_contra hk
      rw [List.getElem?_eq_none (by omega)] at hp
      cases hp
    simp [hi, hp]
  · simp [hik]

/-- What one visit of gate `i` does, read off the code of the loop body. -/
theorem simular_body_spec {in_circ : List bool3S} {i : Nat} {st st1 : PassState}
    (h : simular_body in_circ i st = some st1) :
    ∃ p, ptrAt st.ports (i : Int) = some p ∧
      ((p.out ≠ bool3S.UNDEF ∧ st1 = st) ∨
       (p.out = bool3S.UNDEF ∧ ∃ in_port,
          simular_in_port in_circ st.ports p = some in_port ∧
          st1.ports = st.ports.set i (some (p.simular in_port)) ∧
          ((p.kind.eval in_port = bool3S.UNDEF ∧ st1.tudo_def = false ∧
              st1.alguma_def = st.alguma_def) ∨
           (p.kind.eval in_port ≠ bool3S.UNDEF ∧ st1.tudo_def = st.tudo_def ∧
              st1.alguma_def = true)))) := by
  unfold simular_body at h
  cases hp : ptrAt st.ports (i : Int) with
  | none => simp [hp] at h
  | some p =>
    refine ⟨p, rfl, ?_⟩
    simp only [hp, Port.getOutput] at h
    by_cases hu : p.out = bool3S.UNDEF
    · right
      refine ⟨hu, ?_⟩
      simp only [hu, if_true] at h
      cases hin : simular_in_port in_circ st.ports p with
      | none => simp [hin] at h
      | some in_port =>
        refine ⟨in_port, rfl, ?_⟩
        simp only [hin, Port.simular] at h
        by_cases he : p.kind.eval in_port = bool3S.UNDEF
        · simp only [he, if_true, Option.some.injEq] at h
          subst h
          simp [Port.simular, he]
        · simp only [he, if_false, Option.some.injEq] at h
          subst h
          simp [Port.simular, he]
    · left
      simp only [hu, if_false, Option.some.injEq] at h
      exact ⟨hu, h.symm⟩

theorem Mono.refl (a : List (Option Port)) : Mono a a := fun _ _ h _ => h

theorem Mono.trans {a b c : List (Option Port)} (h1 : Mono a b) (h2 : Mono b c) : Mono a c :=
  fun k p hp hd => h2 k p (h1 k p hp hd) hd

theorem simular_body_topo {in_circ : List bool3S} {i : Nat} {st st1 : PassState}
    (h : simular_body in_circ i st = some st1) : topo st1.ports = topo st.ports := by
  obtain ⟨p, hp, hcase⟩ := simular_body_spec h
  rcases hcase with ⟨_, rfl⟩ | ⟨_, in_port, _, hports, _⟩
  · rfl
  · rw [hports]
    exact topo_set_simular st.ports i p hp _

theorem simular_body_other {in_circ : List bool3S} {i : Nat} {st st1 : PassState}
    (h : simular_body in_circ i st = some st1) (k : Nat) (hk : k ≠ i) :
    ptrAt st1.ports (k : Int) = ptrAt st.ports (k : Int) := by
  obtain ⟨p, hp, hcase⟩ := simular_body_spec h
  rcases hcase with ⟨_, rfl⟩ | ⟨_, in_port, _, hports, _⟩
  · rfl
  · rw [hports, ptrAt_set]
    have : ¬ (i = k ∧ i < st.ports.length) := fun hh => hk hh.1.symm
    simp [this]

theorem simular_body_mono {in_circ : List bool3S} {i : Nat} {st st1 : PassState}
    (h : simular_body in_circ i st = some st1) : Mono st.ports st1.ports := by
  intro k q hq hd
  by_cases hk : k = i
  · subst hk
    obtain ⟨p, hp, hcase⟩ := simular_body_spec h
    rcases hcase with ⟨_, rfl⟩ | ⟨hu, _⟩
    · exact hq
    · rw [hp] at hq
      cases hq
      exact absurd hu hd
  · rw [simular_body_other h k hk]
    exact hq

theorem simular_body_length {in_circ : List bool3S} {i : Nat} {st st1 : PassState}
    (h : simular_body in_circ i st = some st1) : st1.ports.length = st.ports.length := by
  have := congrArg List.length (simular_body_topo h)
  simpa [topo] using this

/-- Invariant rule for the counted loop. -/
theorem forLoop_induct {σ : Type} (body : Nat → σ → Option σ) (P : Nat → σ → Prop) (s0 : σ)
    (h0 : P 0 s0)
    (hstep : ∀ m s s1, P m s → forLoop body m s0 = some s → body m s = some s1 → P (m + 1) s1) :
    ∀ n s, forLoop body n s0 = some s → P n s := by
  intro n
  induction n with
  | zero =>
    intro s h
    simp only [forLoop, Option.some.injEq] at h
    subst h
    exact h0
  | succ m ih =>
    intro s h
    simp only [forLoop] at h
    cases hm : forLoop body m s0 with
    | none => simp [hm] at h
    | some sm =>
      rw [hm] at h
      exact hstep m sm s (ih sm hm) hm h

/-- Earlier iterations of a counted loop that completed also completed. -/
theorem forLoop_prefix {σ : Type} (body : Nat → σ → Option σ) (s0 : σ) :
    ∀ (n m : Nat) (s : σ), m ≤ n → forLoop body n s0 = some s →
      ∃ sm, forLoop body m s0 = some sm := by
  intro n
  induction n with
  | zero =>
    intro m s hm h
    have : m = 0 := by omega
    subst this
    exact ⟨s, h⟩
  | succ n ih =>
    intro m s hm h
    by_cases hmn : m = n + 1
    · subst hmn
      exact ⟨s, h⟩
    · simp only [forLoop] at h
      cases hn : forLoop body n s0 with
      | none => simp [hn] at h
      | some sn => exact ih m sn (by omega) hn

theorem PassInv.zero (st0 : PassState) : PassInv st0 0 st0 where
  topo_eq := rfl
  mono := Mono.refl _
  later := fun _ _ => rfl
  tudo_false := fun h => Or.inl h
  tudo_true := fun h => ⟨h, fun k hk => absurd hk (Nat.not_lt_zero k)⟩
  alguma_true := fun h => Or.inl h
  alguma_false := fun h => ⟨h, rfl⟩

theorem set_same_of_ptrAt {ports : List (Option Port)} {i : Nat} {p : Port}
    (hp : ptrAt ports (i : Int) = some p) : ports.set i (some p) = ports := by
  rw [ptrAt_eq_some] at hp
  apply List.ext_getElem?
  intro k
  rw [List.getElem?_set]
  by_cases hik : i = k
  · subst hik
    have hi : i < ports.length := by
      by_contra hk
      rw [List.getElem?_eq_none (by omega)] at hp
      cases hp
    simp [hi, hp]
  · simp [hik]

theorem PassInv.step {in_circ : List bool3S} {st0 st st1 : PassState} {m : Nat}
    (inv : PassInv st0 m st) (h : simular_body in_circ m st = some st1) :
    PassInv st0 (m + 1) st1 := by
  obtain ⟨p, hp, hcase⟩ := simular_body_spec h
  have hother := simular_body_other h
  rcases hcase with ⟨hd, rfl⟩ | ⟨hu, in_port, hin, hports, hflags⟩
  · -- gate already defined: skipped
    refine ⟨inv.topo_eq, inv.mono, fun k hk => inv.later k (by omega), ?_, ?_, ?_, inv.alguma_false⟩
    · intro ht
      rcases inv.tudo_false ht with h0 | ⟨k, hk, hk2⟩
      · exact Or.inl h0
      · exact Or.inr ⟨k, by omega, hk2⟩
    · intro ht
      obtain ⟨h0, hall⟩ := inv.tudo_true ht
      refine ⟨h0, fun k hk => ?_⟩
      by_cases hkm : k = m
      · subst hkm
        exact ⟨p, hp, hd⟩
      · exact hall k (by omega)
    · intro ha
      rcases inv.alguma_true ha with h0 | ⟨k, hk, hk2⟩
      · exact Or.inl h0
      · exact Or.inr ⟨k, by omega, hk2⟩
  · -- gate evaluated
    have hm : m < st.ports.length := ptrAt_lt hp
    have hnew : ptrAt st1.ports (m : Int) = some (p.simular in_port) := by
      rw [hports, ptrAt_set]
      simp [hm]
    refine ⟨(simular_body_topo h).trans inv.topo_eq, inv.mono.trans (simular_body_mono h),
      fun k hk => ?_, ?_, ?_, ?_, ?_⟩
    · rw [hother k (by omega)]
      exact inv.later k (by omega)
    · intro ht
      rcases hflags with ⟨he, _, _⟩ | ⟨_, ht1, _⟩
      · exact Or.inr ⟨m, by omega, by simp [outAt, hnew, Port.getOutput, Port.simular, he]⟩
      · rcases inv.tudo_false (ht1 ▸ ht) with h0 | ⟨k, hk, hk2⟩
        · exact Or.inl h0
        · refine Or.inr ⟨k, by omega, ?_⟩
          simpa [outAt, hother k (by omega)] using hk2
    · intro ht
      rcases hflags with ⟨_, hf, _⟩ | ⟨he, ht1, _⟩
      · rw [hf] at ht
        cases ht
      · obtain ⟨h0, hall⟩ := inv.tudo_true (ht1 ▸ ht)
        refine ⟨h0, fun k hk => ?_⟩
        by_cases hkm : k = m
        · subst hkm
          exact ⟨p.simular in_port, hnew, by simpa [Port.simular] using he⟩
        · rw [hother k hkm]
          exact hall k (by omega)
    · intro ha
      rcases hflags with ⟨_, _, ha1⟩ | ⟨he, _, _⟩
      · rcases inv.alguma_true (ha1 ▸ ha) with h0 | ⟨k, hk, hk0, hk2⟩
        · exact Or.inl h0
        · refine Or.inr ⟨k, by omega, hk0, ?_⟩
          rw [hother k (by omega)]
          exact hk2
      · refine Or.inr ⟨m, by omega, ?_, p.simular in_port, hnew, by simpa [Port.simular] using he⟩
        have := inv.later m (Nat.le_refl m)
        simp [outAt, ← this, hp, Port.getOutput, hu]
    · intro ha
      rcases hflags with ⟨he, _, ha1⟩ | ⟨_, _, ha1⟩
      · obtain ⟨h0, hp0⟩ := inv.alguma_false (ha1 ▸ ha)
        refine ⟨h0, ?_⟩
        rw [hports, ← hp0]
        have : p.simular in_port = p := by
          cases p
          simp only [Port.simular, he]
          simp only at hu
          rw [hu]
        rw [this]
        exact set_same_of_ptrAt hp
      · rw [ha1] at ha
        cases ha

theorem passInv_forLoop (in_circ : List bool3S) (st0 : PassState) (n : Nat) (st : PassState)
    (h : forLoop (simular_body in_circ) n st0 = some st) : PassInv st0 n st :=
  forLoop_induct (simular_body in_circ) (fun m s => PassInv st0 m s) st0 (PassInv.zero st0)
    (fun _ _ _ inv _ hb => inv.step hb) n st h

theorem mem_undefSet {ports : List (Option Port)} {k : Nat} :
    k ∈ undefSet ports ↔ outAt ports k = some bool3S.UNDEF := by
  simp only [undefSet, Finset.mem_filter, Finset.mem_range, and_iff_right_iff_imp]
  intro h
  simp only [outAt, Option.map_eq_some'] at h
  obtain ⟨p, hp, _⟩ := h
  exact ptrAt_lt hp

theorem topo_length (ports : List (Option Port)) : (topo ports).length = ports.length := by
  simp [topo]

theorem topo_ptrAt {a b : List (Option Port)} (h : topo a = topo b) (k : Nat) :
    (ptrAt a (k : Int)).map (fun p => (p.kind, p.id_in)) =
      (ptrAt b (k : Int)).map (fun p => (p.kind, p.id_in)) := by
  have hk := congrArg (fun l => l[k]?) h
  simp only [topo, List.getElem?_map] at hk
  rw [ptrAt_natCast, ptrAt_natCast]
  cases ha : a[k]? with
  | none =>
    cases hb : b[k]? with
    | none => rfl
    | some ob => simp [ha, hb] at hk
  | some oa =>
    cases hb : b[k]? with
    | none => simp [ha, hb] at hk
    | some ob =>
      simp only [ha, hb, Option.map_some', Option.some.injEq] at hk
      simpa using hk

theorem topo_ptrAt_some {a b : List (Option Port)} (h : topo a = topo b) {k : Nat} {p : Port}
    (hp : ptrAt a (k : Int) = some p) :
    ∃ q, ptrAt b (k : Int) = some q ∧ q.kind = p.kind ∧ q.id_in = p.id_in := by
  have := topo_ptrAt h k
  rw [hp] at this
  cases hb : ptrAt b (k : Int) with
  | none => simp [hb] at this
  | some q =>
    simp only [hb, Option.map_some', Option.some.injEq, Prod.mk.injEq] at this
    exact ⟨q, rfl, this.1.symm, this.2.symm⟩

theorem undefSet_subset {a b : List (Option Port)} (ht : topo b = topo a) (hm : Mono a b) :
    undefSet b ⊆ undefSet a := by
  intro k hk
  rw [mem_undefSet] at hk ⊢
  simp only [outAt, Option.map_eq_some'] at hk ⊢
  obtain ⟨q, hq, hqu⟩ := hk
  obtain ⟨p, hp, _, _⟩ := topo_ptrAt_some ht hq
  refine ⟨p, hp, ?_⟩
  by_contra hd
  have := hm k p hp hd
  rw [hq] at this
  cases this
  exact hd hqu

/-- What a completed pass guarantees. -/
theorem simular_pass_spec {in_circ : List bool3S} {ports : List (Option Port)} {st : PassState}
    (h : simular_pass in_circ ports = some st) :
    topo st.ports = topo ports ∧ Mono ports st.ports ∧
    (st.alguma_def = true → undefCount st.ports < undefCount ports) ∧
    (st.tudo_def = false → 0 < undefCount st.ports) ∧
    (st.tudo_def = true → undefCount st.ports = 0) ∧
    (st.alguma_def = false → st.ports = ports) := by
  have inv := passInv_forLoop in_circ _ _ _ h
  have htopo : topo st.ports = topo ports := inv.topo_eq
  have hmono : Mono ports st.ports := inv.mono
  refine ⟨htopo, hmono, ?_, ?_, ?_, ?_⟩
  · intro ha
    rcases inv.alguma_true ha with h0 | ⟨k, _, hk0, p, hp, hd⟩
    · cases h0
    · apply Finset.card_lt_card
      refine ⟨undefSet_subset htopo hmono, fun hsub => ?_⟩
      have hk1 : k ∈ undefSet st.ports := hsub (mem_undefSet.mpr hk0)
      rw [mem_undefSet] at hk1
      simp only [outAt, hp, Option.map_some', Port.getOutput, Option.some.injEq] at hk1
      exact hd hk1
  · intro ht
    rcases inv.tudo_false ht with h0 | ⟨k, _, hk⟩
    · cases h0
    · exact Finset.card_pos.mpr ⟨k, mem_undefSet.mpr hk⟩
  · intro ht
    obtain ⟨_, hall⟩ := inv.tudo_true ht
    apply Finset.card_eq_zero.mpr
    apply Finset.eq_empty_of_forall_not_mem
    intro k hk
    rw [mem_undefSet] at hk
    have hlt : k < st.ports.length := by
      simp only [outAt, Option.map_eq_some'] at hk
      obtain ⟨p, hp, _⟩ := hk
      exact ptrAt_lt hp
    have hlen : st.ports.length = ports.length := by
      have := congrArg List.length htopo
      simpa [topo] using this
    obtain ⟨p, hp, hd⟩ := hall k (by omega)
    simp only [outAt, hp, Option.map_some', Port.getOutput, Option.some.injEq] at hk
    exact hd hk
  · intro ha
    exact (inv.alguma_false ha).2

/-- Termination of the `do ... while` loop: with fuel for `max 1 (undefCount
ports)` passes the loop stops by itself (or hits undefined behaviour), after at
most that many passes. -/
theorem simular_loop_bound (in_circ : List bool3S) :
    ∀ (fuel : Nat) (ports : List (Option Port)), max 1 (undefCount ports) ≤ fuel →
      simular_loop in_circ fuel ports = Outcome.undefinedBehaviour ∨
      ∃ ports1 n, simular_loop in_circ fuel ports = Outcome.done (ports1, n) ∧
        1 ≤ n ∧ n ≤ max 1 (undefCount ports) ∧ topo ports1 = topo ports ∧ Mono ports ports1 := by
  intro fuel
  induction fuel with
  | zero =>
    intro ports hf
    have : 1 ≤ max 1 (undefCount ports) := le_max_left _ _
    omega
  | succ fuel ih =>
    intro ports hf
    simp only [simular_loop]
    cases hpass : simular_pass in_circ ports with
    | none => exact Or.inl rfl
    | some st =>
      obtain ⟨htopo, hmono, hlt, hpos, _, _⟩ := simular_pass_spec hpass
      by_cases hcont : (!st.tudo_def && st.alguma_def) = true
      · simp only [hcont, if_true]
        simp only [Bool.and_eq_true, Bool.not_eq_true'] at hcont
        have h1 := hlt hcont.2
        have h2 := hpos hcont.1
        have hmax : max 1 (undefCount st.ports) = undefCount st.ports := max_eq_right h2
        have hmax0 : max 1 (undefCount ports) = undefCount ports := max_eq_right (by omega)
        rw [hmax0] at hf
        rcases ih st.ports (by rw [hmax]; omega) with hub | ⟨ports1, n, hdone, hn1, hn, ht1, hm1⟩
        · left
          rw [hub]
        · right
          refine ⟨ports1, n + 1, ?_, by omega, ?_, ht1.trans htopo, hmono.trans hm1⟩
          · rw [hdone]
          · rw [hmax] at hn
            rw [hmax0]
            omega
      · right
        simp only [hcont]
        exact ⟨st.ports, 1, rfl, le_refl 1, le_max_left _ _, htopo, hmono⟩

/-- The result of the loop does not depend on the fuel once there is enough. -/
theorem simular_loop_fuel (in_circ : List bool3S) :
    ∀ (fuel1 fuel2 : Nat) (ports : List (Option Port)),
      max 1 (undefCount ports) ≤ fuel1 → max 1 (undefCount ports) ≤ fuel2 →
      simular_loop in_circ fuel1 ports = simular_loop in_circ fuel2 ports := by
  intro fuel1
  induction fuel1 with
  | zero =>
    intro fuel2 ports hf
    have : 1 ≤ max 1 (undefCount ports) := le_max_left _ _
    omega
  | succ fuel1 ih =>
    intro fuel2 ports hf1 hf2
    cases fuel2 with
    | zero =>
      have : 1 ≤ max 1 (undefCount ports) := le_max_left _ _
      omega
    | succ fuel2 =>
      simp only [simular_loop]
      cases hpass : simular_pass in_circ ports with
      | none => rfl
      | some st =>
        obtain ⟨_, _, hlt, hpos, _, _⟩ := simular_pass_spec hpass
        by_cases hcont : (!st.tudo_def && st.alguma_def) = true
        · simp only [hcont, if_true]
          simp only [Bool.and_eq_true, Bool.not_eq_true'] at hcont
          have h1 := hlt hcont.2
          have h2 := hpos hcont.1
          have hmax : max 1 (undefCount st.ports) = undefCount st.ports := max_eq_right h2
          have hmax0 : max 1 (undefCount ports) = undefCount ports := max_eq_right (by omega)
          rw [hmax0] at hf1 hf2
          rw [ih fuel2 st.ports (by rw [hmax]; omega) (by rw [hmax]; omega)]
        · simp [hcont]

theorem undefCount_le (ports : List (Option Port)) : undefCount ports ≤ ports.length := by
  unfold undefCount undefSet
  calc ((Finset.range ports.length).filter _).card ≤ (Finset.range ports.length).card :=
        Finset.card_filter_le _ _
    _ = ports.length := Finset.card_range _

end Circ

namespace Circ
open Circuito

/-- Total-correctness rule for the counted loop: an invariant that every
iteration can be run under and re-establishes. -/
theorem forLoop_total {σ : Type} (body : Nat → σ → Option σ) (P : Nat → σ → Prop) (s0 : σ)
    (n : Nat) (h0 : P 0 s0)
    (hstep : ∀ m s, m < n → P m s → ∃ s1, body m s = some s1 ∧ P (m + 1) s1) :
    ∀ m, m ≤ n → ∃ s, forLoop body m s0 = some s ∧ P m s := by
  intro m
  induction m with
  | zero => exact fun _ => ⟨s0, rfl, h0⟩
  | succ m ih =>
    intro hm
    obtain ⟨s, hs, hP⟩ := ih (by omega)
    obtain ⟨s1, hb, hP1⟩ := hstep m s (by omega) hP
    exact ⟨s1, by simp [forLoop, hs, hb], hP1⟩

theorem allOk_eq_some_iff {α : Type} (l : List (Option α)) (r : List α) :
    allOk l = some r ↔ l = r.map some := by
  induction l generalizing r with
  | nil =>
    cases r <;> simp [allOk]
  | cons x xs ih =>
    cases x with
    | none => cases r <;> simp [allOk]
    | some a =>
      cases r with
      | nil => simp [allOk]
      | cons b bs =>
        simp only [allOk, Option.map_eq_some', List.map_cons, List.cons.injEq, Option.some.injEq]
        constructor
        · rintro ⟨as, has, h1, h2⟩
          exact ⟨h1, by rw [← h2]; exact (ih as).mp has⟩
        · rintro ⟨h1, h2⟩
          exact ⟨bs, (ih bs).mpr h2, h1, rfl⟩

theorem allOk_isSome {α : Type} (l : List (Option α)) (h : ∀ x ∈ l, ∃ a, x = some a) :
    ∃ r, allOk l = some r := by
  induction l with
  | nil => exact ⟨[], rfl⟩
  | cons x xs ih =>
    obtain ⟨a, rfl⟩ := h x (List.mem_cons_self _ _)
    obtain ⟨r, hr⟩ := ih (fun y hy => h y (List.mem_cons_of_mem _ hy))
    exact ⟨a :: r, by simp [allOk, hr]⟩

theorem simular_origem_isSome {nin : Nat} {in_circ : List bool3S} {ports : List (Option Port)}
    (hlen : in_circ.length = nin)
    (hall : ∀ k : Nat, k < ports.length → ∃ q, ptrAt ports (k : Int) = some q)
    {id : Int} (hid : OrigOk nin ports.length id) :
    ∃ s, simular_origem in_circ ports id = some s := by
  unfold simular_origem
  rcases hid with ⟨h1, h2⟩ | ⟨h1, h2⟩
  · have hpos : id > 0 := by omega
    simp only [hpos, if_true]
    obtain ⟨q, hq⟩ := hall (id - 1).toNat (by omega)
    rw [show (((id - 1).toNat : Nat) : Int) = id - 1 by omega] at hq
    exact ⟨q.getOutput, by simp [hq]⟩
  · have hneg : ¬ id > 0 := by omega
    simp only [hneg, if_false]
    have hk : (-id - 1).toNat < in_circ.length := by omega
    refine ⟨in_circ[(-id - 1).toNat], ?_⟩
    have : ¬ (-id - 1 < 0) := by omega
    simp [vecAt, this, List.getElem?_eq_getElem hk]

theorem PortsOk.all_set {nin : Nat} {ports : List (Option Port)} (h : PortsOk nin ports) :
    ∀ k : Nat, k < ports.length → ∃ q, ptrAt ports (k : Int) = some q :=
  fun k hk => (h k hk).imp fun _ hq => hq.1

theorem PortsOk.of_topo {nin : Nat} {a b : List (Option Port)} (ht : topo b = topo a)
    (h : PortsOk nin a) : PortsOk nin b := by
  have hlen : b.length = a.length := by
    have := congrArg List.length ht
    simpa [topo] using this
  intro k hk
  obtain ⟨q, hq, hids⟩ := h k (by omega)
  obtain ⟨r, hr, _, hri⟩ := topo_ptrAt_some ht.symm hq
  refine ⟨r, hr, fun id hid => ?_⟩
  rw [hlen]
  exact hids id (hri ▸ hid)

theorem simular_in_port_isSome {nin : Nat} {in_circ : List bool3S} {ports : List (Option Port)}
    (hlen : in_circ.length = nin) (hok : PortsOk nin ports) {k : Nat} {p : Port}
    (hp : ptrAt ports (k : Int) = some p) :
    ∃ in_port, simular_in_port in_circ ports p = some in_port := by
  unfold simular_in_port
  apply allOk_isSome
  intro x hx
  obtain ⟨j, hj, rfl⟩ := List.mem_map.mp hx
  have hj2 : j < p.id_in.length := by
    have := List.mem_range.mp hj
    simp only [Port.getNumInputs] at this
    omega
  obtain ⟨q, hq, hids⟩ := hok k (ptrAt_lt hp)
  rw [hp] at hq
  cases hq
  rw [(Port.getId_in_natCast p j hj2).2]
  exact simular_origem_isSome hlen hok.all_set (hids _ (List.getElem_mem hj2))

theorem simular_body_isSome {nin : Nat} {in_circ : List bool3S} {st : PassState}
    (hlen : in_circ.length = nin) (hok : PortsOk nin st.ports) {i : Nat}
    (hi : i < st.ports.length) : ∃ st1, simular_body in_circ i st = some st1 := by
  obtain ⟨p, hp, _⟩ := hok i hi
  obtain ⟨in_port, hin⟩ := simular_in_port_isSome hlen hok hp
  unfold simular_body
  simp only [hp, hin]
  by_cases hu : p.getOutput = bool3S.UNDEF
  · simp only [hu, if_true]
    by_cases he : (p.simular in_port).getOutput = bool3S.UNDEF
    · simp [he]
    · simp [he]
  · simp [hu]

theorem simular_pass_isSome {nin : Nat} {in_circ : List bool3S} {ports : List (Option Port)}
    (hlen : in_circ.length = nin) (hok : PortsOk nin ports) :
    ∃ st, simular_pass in_circ ports = some st := by
  unfold simular_pass
  obtain ⟨st, hst, _⟩ := forLoop_total (simular_body in_circ)
    (fun _ s => topo s.ports = topo ports)
    { ports := ports, tudo_def := true, alguma_def := false } ports.length rfl
    (fun m s hm hP => by
      have hok1 : PortsOk nin s.ports := hok.of_topo hP
      have hl : s.ports.length = ports.length := by
        have := congrArg List.length hP
        simpa [topo] using this
      obtain ⟨s1, hs1⟩ := simular_body_isSome hlen hok1 (show m < s.ports.length by omega)
      exact ⟨s1, hs1, (simular_body_topo hs1).trans hP⟩)
    ports.length (le_refl _)
  exact ⟨st, hst⟩

/-- On a netlist whose slots are all set and whose origins all exist the loop
of `simular` never hits undefined behaviour. -/
theorem simular_loop_safe {nin : Nat} {in_circ : List bool3S} (hlen : in_circ.length = nin) :
    ∀ (fuel : Nat) (ports : List (Option Port)), PortsOk nin ports →
      simular_loop in_circ fuel ports ≠ Outcome.undefinedBehaviour := by
  intro fuel
  induction fuel with
  | zero =>
    intro ports _ h
    simp [simular_loop] at h
  | succ fuel ih =>
    intro ports hok
    obtain ⟨st, hst⟩ := simular_pass_isSome hlen hok
    have hok1 : PortsOk nin st.ports := hok.of_topo (simular_pass_spec hst).1
    have := ih st.ports hok1
    simp only [simular_loop, hst]
    by_cases hcont : (!st.tudo_def && st.alguma_def) = true
    · simp only [hcont, if_true]
      cases hl : simular_loop in_circ fuel st.ports with
      | done a => simp
      | undefinedBehaviour => exact absurd hl this
      | outOfFuel => simp
    · simp [hcont]

/-- Termination and pass bound of the loop on a well-formed gate vector. -/
theorem simular_loop_done {nin : Nat} {in_circ : List bool3S} (hlen : in_circ.length = nin)
    {ports : List (Option Port)} (hok : PortsOk nin ports) {fuel : Nat}
    (hf : max 1 (undefCount ports) ≤ fuel) :
    ∃ ports1 n, simular_loop in_circ fuel ports = Outcome.done (ports1, n) ∧
      1 ≤ n ∧ n ≤ max 1 (undefCount ports) ∧ topo ports1 = topo ports ∧ Mono ports ports1 := by
  rcases simular_loop_bound in_circ fuel ports hf with hub | h
  · exact absurd hub (simular_loop_safe hlen fuel ports hok)
  · exact h

end Circ

namespace Circ
open Circuito

theorem valid_portsOk {C : Circuito} {in_circ : List bool3S} (hv : C.valid = true)
    (hlen : (in_circ.length : Int) = C.getNumInputs) :
    PortsOk in_circ.length C.ports ∧ ∀ id ∈ C.id_out, OrigOk in_circ.length C.ports.length id := by
  obtain ⟨_, _, _, hP, hO⟩ := valid_unpack hv
  have conv : ∀ id, C.validIdOrig id = true → OrigOk in_circ.length C.ports.length id := by
    intro id h
    rw [validIdOrig_iff] at h
    simp only [getNumPorts] at h
    rw [← hlen] at h
    exact h.symm
  refine ⟨fun k hk => ?_, fun id hid => conv id (hO id hid)⟩
  obtain ⟨q, hq, hids⟩ := hP k hk
  exact ⟨q, hq, fun id hid => conv id (hids id hid)⟩

theorem topo_resetAll (ports : List (Option Port)) : topo (resetAll ports) = topo ports := by
  simp only [topo, resetAll, List.map_map]
  congr 1
  funext o
  cases o <;> simp [Port.setOutput]

theorem resetAll_of_topo {a b : List (Option Port)} (h : topo a = topo b) :
    resetAll a = resetAll b := by
  have key : ∀ l : List (Option Port), resetAll l =
      (topo l).map (Option.map (fun x => ({ kind := x.1, id_in := x.2, out := bool3S.UNDEF } : Port))) := by
    intro l
    simp only [topo, resetAll, List.map_map]
    congr 1
    funext o
    cases o <;> simp [Port.setOutput]
  rw [key a, key b, h]

theorem simular_reset_ok {ports : List (Option Port)}
    (hall : ∀ k : Nat, k < ports.length → ∃ q, ptrAt ports (k : Int) = some q) :
    forLoop simular_reset_body ports.length ports = some (resetAll ports) := by
  obtain ⟨r, hr, hlen, hP⟩ := forLoop_total simular_reset_body
    (fun m r => r.length = ports.length ∧
      ∀ k : Nat, r[k]? = if k < m then (resetAll ports)[k]? else ports[k]?)
    ports ports.length ⟨rfl, fun k => by simp⟩
    (fun m r hm hP => by
      obtain ⟨hl, hP⟩ := hP
      obtain ⟨q, hq⟩ := hall m hm
      have hrm : ptrAt r (m : Int) = some q := by
        rw [ptrAt_natCast, hP m, if_neg (Nat.lt_irrefl m), ← ptrAt_natCast]
        exact hq
      refine ⟨r.set m (some (q.setOutput bool3S.UNDEF)), by simp [simular_reset_body, hrm],
        by simp [hl], fun k => ?_⟩
      rw [List.getElem?_set]
      by_cases hmk : m = k
      · subst hmk
        have hq2 := ptrAt_eq_some.mp hq
        have hq3 : ports[m] = some q := by
          rw [List.getElem?_eq_getElem hm] at hq2
          exact Option.some.inj hq2
        simp [hl, hm, resetAll, hq3]
      · have : (k < m + 1) = (k < m) := by
          apply propext
          constructor <;> intro h <;> omega
        simp only [hmk, if_false, this]
        exact hP k)
    ports.length (le_refl _)
  rw [hr]
  congr 1
  apply List.ext_getElem?
  intro k
  rw [hP k]
  by_cases hk : k < ports.length
  · simp [hk]
  · simp [hk, resetAll, List.getElem?_eq_none (Nat.le_of_not_lt hk)]

theorem readOut_length (in_circ : List bool3S) (ports : List (Option Port)) (id_out : List Int) :
    (readOut in_circ ports id_out).length = id_out.length := by
  simp [readOut]

theorem simular_out_ok {in_circ : List bool3S} {ports : List (Option Port)} {id_out : List Int}
    {out0 : List bool3S} (hwf : out0.length = id_out.length)
    (hids : ∀ id ∈ id_out, ∃ s, simular_origem in_circ ports id = some s) :
    forLoop (simular_out_body in_circ ports id_out) id_out.length
        { out_circ := out0, written := [] } =
      some { out_circ := readOut in_circ ports id_out,
             written := (List.range id_out.length).reverse } := by
  obtain ⟨os, hos, hlen, hP, hw⟩ := forLoop_total (simular_out_body in_circ ports id_out)
    (fun m os => os.out_circ.length = out0.length ∧
      (∀ k : Nat, os.out_circ[k]? =
        if k < m then (readOut in_circ ports id_out)[k]? else out0[k]?) ∧
      os.written = (List.range m).reverse)
    { out_circ := out0, written := [] } id_out.length ⟨rfl, fun k => by simp, by simp⟩
    (fun m os hm hP => by
      obtain ⟨hl, hP, hw⟩ := hP
      obtain ⟨s, hs⟩ := hids id_out[m] (List.getElem_mem hm)
      have hlt : m < os.out_circ.length := by omega
      refine ⟨{ out_circ := os.out_circ.set m s, written := m :: os.written }, ?_, by simp [hl],
        fun k => ?_, ?_⟩
      · simp [simular_out_body, vecAt_natCast, List.getElem?_eq_getElem hm, hs, hlt]
      · simp only [List.getElem?_set]
        by_cases hmk : m = k
        · subst hmk
          simp [hlt, readOut, List.getElem?_eq_getElem hm, hs]
        · have : (k < m + 1) = (k < m) := by
            apply propext
            constructor <;> intro h <;> omega
          simp only [hmk, if_false, this]
          exact hP k
      · simp [hw, List.range_succ])
    id_out.length (le_refl _)
  rw [hos]
  congr 1
  cases os with
  | mk oc wr =>
    simp only at hlen hP hw
    simp only [OutState.mk.injEq]
    refine ⟨?_, hw⟩
    apply List.ext_getElem?
    intro k
    rw [hP k]
    by_cases hk : k < id_out.length
    · simp [hk]
    · have h1 : (readOut in_circ ports id_out)[k]? = none :=
        List.getElem?_eq_none (by rw [readOut_length]; omega)
      simp [hk, h1, List.getElem?_eq_none (show out0.length ≤ k by omega)]

/-- Main description of a run of `simular` on a netlist whose origins all
exist: the reset, the loop (with its pass count) and the read-out all
complete. -/
theorem simular_run_ok {C : Circuito} {in_circ : List bool3S}
    (hok : PortsOk in_circ.length C.ports)
    (hout : ∀ id ∈ C.id_out, OrigOk in_circ.length C.ports.length id)
    (hnp : 0 < C.ports.length)
    (hwf : C.out_circ.length = C.id_out.length) :
    ∃ ports1 n,
      forLoop simular_reset_body C.ports.length C.ports = some (resetAll C.ports) ∧
      (∀ fuel, C.ports.length ≤ fuel →
        simular_loop in_circ fuel (resetAll C.ports) = Outcome.done (ports1, n)) ∧
      1 ≤ n ∧ n ≤ C.ports.length ∧ topo ports1 = topo C.ports ∧
      forLoop (simular_out_body in_circ ports1 C.id_out) C.id_out.length
          { out_circ := C.out_circ, written := [] } =
        some { out_circ := readOut in_circ ports1 C.id_out,
               written := (List.range C.id_out.length).reverse } ∧
      (∀ fuel, C.ports.length ≤ fuel → simularFuel fuel C in_circ =
        Outcome.done (true, { C with ports := ports1,
                                     out_circ := readOut in_circ ports1 C.id_out })) := by
  have hreset := simular_reset_ok hok.all_set
  have hok0 : PortsOk in_circ.length (resetAll C.ports) := hok.of_topo (topo_resetAll _)
  have hlen0 : (resetAll C.ports).length = C.ports.length := by simp [resetAll]
  have hcount : max 1 (undefCount (resetAll C.ports)) ≤ C.ports.length := by
    have := undefCount_le (resetAll C.ports)
    rw [hlen0] at this
    exact max_le (by omega) this
  obtain ⟨ports1, n, hdone, hn1, hn, htopo, _⟩ :=
    simular_loop_done rfl hok0 (le_refl (max 1 (undefCount (resetAll C.ports))))
  have hloop : ∀ fuel, C.ports.length ≤ fuel →
      simular_loop in_circ fuel (resetAll C.ports) = Outcome.done (ports1, n) := by
    intro fuel hf
    rw [simular_loop_fuel in_circ fuel _ (resetAll C.ports) (le_trans hcount hf) (le_refl _)]
    exact hdone
  have htopo1 : topo ports1 = topo C.ports := htopo.trans (topo_resetAll _)
  have hok1 : PortsOk in_circ.length ports1 := hok.of_topo htopo1
  have hlen1 : ports1.length = C.ports.length := by
    have := congrArg List.length htopo1
    simpa [topo] using this
  have hro := @simular_out_ok in_circ ports1 C.id_out C.out_circ hwf
    (fun id hid => simular_origem_isSome rfl hok1.all_set (hlen1 ▸ hout id hid))
  refine ⟨ports1, n, hreset, hloop, hn1, le_trans hn hcount, htopo1, hro, fun fuel hf => ?_⟩
  simp only [simularFuel, hreset, hloop fuel hf, hro]

/-- Main description of a run of `simular` on a valid netlist. -/
theorem simular_run {C : Circuito} {in_circ : List bool3S} (hv : C.valid = true)
    (hlen : (in_circ.length : Int) = C.getNumInputs)
    (hwf : C.out_circ.length = C.id_out.length) :
    ∃ ports1 n,
      forLoop simular_reset_body C.ports.length C.ports = some (resetAll C.ports) ∧
      (∀ fuel, C.ports.length ≤ fuel →
        simular_loop in_circ fuel (resetAll C.ports) = Outcome.done (ports1, n)) ∧
      1 ≤ n ∧ n ≤ C.ports.length ∧ topo ports1 = topo C.ports ∧
      forLoop (simular_out_body in_circ ports1 C.id_out) C.id_out.length
          { out_circ := C.out_circ, written := [] } =
        some { out_circ := readOut in_circ ports1 C.id_out,
               written := (List.range C.id_out.length).reverse } ∧
      (∀ fuel, C.ports.length ≤ fuel → simularFuel fuel C in_circ =
        Outcome.done (true, { C with ports := ports1,
                                     out_circ := readOut in_circ ports1 C.id_out })) := by
  obtain ⟨hok, hout⟩ := valid_portsOk hv hlen
  obtain ⟨_, _, hnp, _, _⟩ := valid_unpack hv
  exact simular_run_ok hok hout hnp hwf

/-- The result of `simular` depends on the topology only: two netlists with the
same input count, output origins and gate kinds and wiring leave the same
object behind, whatever their cached gate outputs and stored output signals
were. -/
theorem simular_topo_only {C D : Circuito} {in_circ : List bool3S} (hv : C.valid = true)
    (hlen : (in_circ.length : Int) = C.getNumInputs)
    (hwf : C.out_circ.length = C.id_out.length)
    (hNin : D.Nin = C.Nin) (hid : D.id_out = C.id_out) (htopo : topo D.ports = topo C.ports)
    (hout : D.out_circ.length = C.out_circ.length) :
    ∃ C1, C.simular in_circ = Outcome.done (true, C1) ∧
      D.simular in_circ = Outcome.done (true, C1) ∧
      C1.Nin = C.Nin ∧ C1.id_out = C.id_out ∧ topo C1.ports = topo C.ports ∧
      C1.out_circ.length = C.out_circ.length := by
  obtain ⟨hok, hoo⟩ := valid_portsOk hv hlen
  obtain ⟨_, _, hnp, _, _⟩ := valid_unpack hv
  have hlenD : D.ports.length = C.ports.length := by
    have := congrArg List.length htopo
    simpa [topo] using this
  have hokD : PortsOk in_circ.length D.ports := hok.of_topo htopo
  obtain ⟨ports1, n, _, hloop, _, _, ht1, _, hsim⟩ := simular_run_ok hok hoo hnp hwf
  obtain ⟨ports2, n2, _, hloopD, _, _, _, _, hsimD⟩ :=
    simular_run_ok (C := D) hokD (by rw [hid, hlenD]; exact hoo) (by omega) (by rw [hout, hwf, hid])
  have hsame : ports2 = ports1 := by
    have h1 := hloop C.ports.length (le_refl _)
    have h2 := hloopD C.ports.length (by omega)
    rw [resetAll_of_topo htopo, h1] at h2
    simp only [Outcome.done.injEq, Prod.mk.injEq] at h2
    exact h2.1.symm
  subst hsame
  refine ⟨{ C with ports := ports2, out_circ := readOut in_circ ports2 C.id_out },
    hsim _ (Nat.le_succ _), ?_, rfl, rfl, ht1, ?_⟩
  · rw [simular, hsimD _ (Nat.le_succ _)]
    cases D
    cases C
    simp only at hNin hid
    subst hNin
    subst hid
    rfl
  · simp [readOut_length, hwf]

end Circ

namespace Circ
open Circuito

theorem simular_reset_length {ports r : List (Option Port)} (n : Nat)
    (h : forLoop simular_reset_body n ports = some r) : r.length = ports.length := by
  refine forLoop_induct simular_reset_body (fun _ s => s.length = ports.length) ports rfl
    (fun m s s1 hs _ hb => ?_) n r h
  unfold simular_reset_body at hb
  cases hp : ptrAt s (m : Int) with
  | none => simp [hp] at hb
  | some p =>
    simp only [hp, Option.some.injEq] at hb
    rw [← hb, List.length_set]
    exact hs

/-- Fuel adequacy, on every netlist: `ports.size() + 1` passes of fuel are
never exhausted, and more fuel changes nothing. -/
theorem simularFuel_adequate (C : Circuito) (in_circ : List bool3S) (fuel : Nat)
    (hf : C.ports.length + 1 ≤ fuel) :
    simularFuel fuel C in_circ = C.simular in_circ ∧
    C.simular in_circ ≠ Outcome.outOfFuel := by
  unfold simular simularFuel
  cases hr : forLoop simular_reset_body C.ports.length C.ports with
  | none => simp
  | some ports0 =>
    have hlen := simular_reset_length _ hr
    have hcount : max 1 (undefCount ports0) ≤ C.ports.length + 1 := by
      have := undefCount_le ports0
      rw [hlen] at this
      exact max_le (by omega) (by omega)
    have hfuel := simular_loop_fuel in_circ fuel (C.ports.length + 1) ports0
      (le_trans hcount hf) hcount
    simp only [hfuel, true_and]
    rcases simular_loop_bound in_circ (C.ports.length + 1) ports0 hcount with
      hub | ⟨ports1, n, hdone, _⟩
    · simp [hub]
    · simp only [hdone]
      cases forLoop (simular_out_body in_circ ports1 C.id_out) C.id_out.length
        { out_circ := C.out_circ, written := [] } <;> simp

end Circ

namespace Circ
open Circuito

/-- The vectors `out_circ` and `id_out` have the same size after `clear`. -/
theorem clear_sizes (C : Circuito) : C.clear.out_circ.length = C.clear.id_out.length := rfl

/-- The vectors `out_circ` and `id_out` have the same size after `resize`, when
they had before. -/
theorem resize_sizes (C : Circuito) (NI NO NP : Int)
    (h : C.out_circ.length = C.id_out.length) :
    (C.resize NI NO NP).out_circ.length = (C.resize NI NO NP).id_out.length := by
  unfold resize
  by_cases hneg : NI < 0 ∨ NO < 0 ∨ NP < 0
  · simp [hneg, h]
  · simp [hneg]

/-- The vectors `out_circ` and `id_out` keep their sizes through `simular`. -/
theorem simular_sizes {C C1 : Circuito} {in_circ : List bool3S} {b : Bool}
    (h : C.simular in_circ = Outcome.done (b, C1)) :
    C1.id_out = C.id_out ∧ C1.Nin = C.Nin ∧ C1.out_circ.length = C.out_circ.length := by
  unfold simular simularFuel at h
  cases hr : forLoop simular_reset_body C.ports.length C.ports with
  | none => simp [hr] at h
  | some ports0 =>
    simp only [hr] at h
    cases hl : simular_loop in_circ (C.ports.length + 1) ports0 with
    | undefinedBehaviour => simp [hl] at h
    | outOfFuel => simp [hl] at h
    | done a =>
      obtain ⟨ports1, n⟩ := a
      simp only [hl] at h
      cases ho : forLoop (simular_out_body in_circ ports1 C.id_out) C.id_out.length
          { out_circ := C.out_circ, written := [] } with
      | none => simp [ho] at h
      | some os =>
        simp only [ho, Outcome.done.injEq, Prod.mk.injEq] at h
        obtain ⟨_, hC1⟩ := h
        subst hC1
        refine ⟨rfl, rfl, ?_⟩
        refine forLoop_induct (simular_out_body in_circ ports1 C.id_out)
          (fun _ s => s.out_circ.length = C.out_circ.length) _ rfl (fun m s s1 hs _ hb => ?_) _ os ho
        unfold simular_out_body at hb
        cases h1 : vecAt C.id_out (m : Int) with
        | none => simp [h1] at hb
        | some id =>
          cases h2 : simular_origem in_circ ports1 id with
          | none => simp [h1, h2] at hb
          | some v =>
            simp only [h1, h2] at hb
            by_cases hm : m < s.out_circ.length
            · simp only [hm, if_true, Option.some.injEq] at hb
              rw [← hb]
              simpa using hs
            · simp [hm] at hb

end Circ

namespace Circ
open Circuito

theorem validPort_iff (C : Circuito) (p : Int) :
    C.validPort p = true ↔
      C.definedPort p = true ∧
      ∀ j : Int, 0 ≤ j → j < C.getNumInputsPort p →
        C.validIdOrig (C.getId_inPort p j) = true := by
  unfold validPort
  cases hd : C.definedPort p with
  | false => simp
  | true =>
    simp only [Bool.not_true, Bool.false_eq_true, if_false, true_and, all_range_iff]
    constructor
    · intro h j h0 h1
      have := h j.toNat (by omega)
      rwa [show ((j.toNat : Nat) : Int) = j by omega] at this
    · intro h j hj
      exact h _ (by omega) (by omega)

end Circ

namespace Circ
open Circuito

theorem Mono.outAt {a b : List (Option Port)} (h : Mono a b) {g : Nat} {v : bool3S}
    (hv : outAt a g = some v) (hd : v ≠ bool3S.UNDEF) : outAt b g = some v := by
  simp only [Circ.outAt, Option.map_eq_some'] at hv ⊢
  obtain ⟨p, hp, hpv⟩ := hv
  exact ⟨p, h g p hp (by simpa [Port.getOutput, ← hpv] using hd), hpv⟩

theorem VisitFrom.mono {in_circ : List bool3S} {x y : List (Option Port)} {b : Visit}
    (hxy : Mono x y) (h : VisitFrom in_circ y b) : VisitFrom in_circ x b := by
  obtain ⟨s, s1, hm, hb, hp, he⟩ := h
  exact ⟨s, s1, hxy.trans hm, hb, hp, he⟩

theorem VisitFrom.after {in_circ : List bool3S} {x : List (Option Port)} {b : Visit}
    (h : VisitFrom in_circ x b) : Mono x b.ports := by
  obtain ⟨s, s1, hm, hb, hp, _⟩ := h
  rw [hp]
  exact hm.trans (simular_body_mono hb)

theorem VisitFrom.settled {in_circ : List bool3S} {a b : Visit}
    (h : VisitFrom in_circ a.ports b) : Settled a b := by
  intro g v hv hd
  refine ⟨h.after.outAt hv hd, ?_⟩
  obtain ⟨s, s1, hm, _, _, he⟩ := h
  rintro ⟨hg, hev⟩
  rw [he, decide_eq_true_eq, hg, hm.outAt hv hd] at hev
  exact hd (Option.some.inj hev)

theorem forLoop_mono (in_circ : List bool3S) (st0 : PassState) (k : Nat) (s1 : PassState)
    (h1 : forLoop (simular_body in_circ) k st0 = some s1) :
    ∀ (d : Nat) (s2 : PassState), forLoop (simular_body in_circ) (k + d) st0 = some s2 →
      Mono s1.ports s2.ports := by
  intro d
  induction d with
  | zero =>
    intro s2 h2
    rw [Nat.add_zero, h1] at h2
    cases h2
    exact Mono.refl _
  | succ d ih =>
    intro s2 h2
    rw [← Nat.add_assoc] at h2
    simp only [forLoop] at h2
    cases hm : forLoop (simular_body in_circ) (k + d) st0 with
    | none => simp [hm] at h2
    | some sm =>
      rw [hm] at h2
      exact (ih sm hm).trans (simular_body_mono h2)

theorem passTrace_props (in_circ : List bool3S) (st0 : PassState) :
    ∀ m : Nat,
      List.Pairwise Settled (passTrace in_circ st0 m) ∧
      (∀ b ∈ passTrace in_circ st0 m, VisitFrom in_circ st0.ports b) ∧
      (∀ sm, forLoop (simular_body in_circ) m st0 = some sm →
        (∀ b ∈ passTrace in_circ st0 m, Mono b.ports sm.ports) ∧
        (passTrace in_circ st0 m).length = m ∧
        (0 < m → ∃ b, (passTrace in_circ st0 m).getLast? = some b ∧ b.ports = sm.ports)) := by
  intro m
  induction m with
  | zero =>
    refine ⟨List.Pairwise.nil, fun b hb => by simp [passTrace] at hb, fun sm _ => ?_⟩
    exact ⟨fun b hb => by simp [passTrace] at hb, rfl, fun h => absurd h (Nat.lt_irrefl 0)⟩
  | succ m ih =>
    obtain ⟨ihP, ihV, ihM⟩ := ih
    cases hm : forLoop (simular_body in_circ) m st0 with
    | none =>
      have htr : passTrace in_circ st0 (m + 1) = passTrace in_circ st0 m := by
        simp [passTrace, hm]
      rw [htr]
      refine ⟨ihP, ihV, fun sm hsm => ?_⟩
      simp [forLoop, hm] at hsm
    | some s =>
      obtain ⟨ihM1, ihL, _⟩ := ihM s hm
      have h0s : Mono st0.ports s.ports := by
        have := forLoop_mono in_circ st0 0 st0 rfl m s (by rw [Nat.zero_add]; exact hm)
        exact this
      cases hb : simular_body in_circ m s with
      | none =>
        have htr : passTrace in_circ st0 (m + 1) = passTrace in_circ st0 m := by
          simp [passTrace, hm, hb]
        rw [htr]
        refine ⟨ihP, ihV, fun sm hsm => ?_⟩
        simp [forLoop, hm, hb] at hsm
      | some s1 =>
        have htr : passTrace in_circ st0 (m + 1) = passTrace in_circ st0 m ++
            [{ gate := m, evaluated := decide (outAt s.ports m = some bool3S.UNDEF),
               ports := s1.ports }] := by
          simp [passTrace, hm, hb]
        rw [htr]
        have hnew : ∀ x, Mono x s.ports → VisitFrom in_circ x
            { gate := m, evaluated := decide (outAt s.ports m = some bool3S.UNDEF),
              ports := s1.ports } :=
          fun x hx => ⟨s, s1, hx, hb, rfl, rfl⟩
        refine ⟨?_, ?_, fun sm hsm => ?_⟩
        · rw [List.pairwise_append]
          refine ⟨ihP, List.pairwise_singleton _ _, fun a ha b hb2 => ?_⟩
          rw [List.mem_singleton] at hb2
          subst hb2
          exact (hnew a.ports (ihM1 a ha)).settled
        · intro b hb2
          rcases List.mem_append.mp hb2 with h | h
          · exact ihV b h
          · rw [List.mem_singleton] at h
            subst h
            exact hnew _ h0s
        · have hsm1 : sm = s1 := by
            simp only [forLoop, hm, Option.some_bind, hb, Option.some.injEq] at hsm
            exact hsm.symm
          subst hsm1
          refine ⟨fun b hb2 => ?_, by simp [ihL], fun _ => ⟨_, List.getLast?_concat _, rfl⟩⟩
          rcases List.mem_append.mp hb2 with h | h
          · exact (ihM1 b h).trans (simular_body_mono hb)
          · rw [List.mem_singleton] at h
            subst h
            exact Mono.refl _

theorem simular_loop_mono (in_circ : List bool3S) :
    ∀ (fuel : Nat) (ports ports1 : List (Option Port)) (n : Nat),
      simular_loop in_circ fuel ports = Outcome.done (ports1, n) →
      Mono ports ports1 ∧ topo ports1 = topo ports := by
  intro fuel
  induction fuel with
  | zero =>
    intro ports ports1 n h
    simp [simular_loop] at h
  | succ fuel ih =>
    intro ports ports1 n h
    simp only [simular_loop] at h
    cases hpass : simular_pass in_circ ports with
    | none => simp [hpass] at h
    | some st =>
      obtain ⟨htopo, hmono, _⟩ := simular_pass_spec hpass
      rw [hpass] at h
      by_cases hcont : (!st.tudo_def && st.alguma_def) = true
      · simp only [hcont, if_true] at h
        cases hl : simular_loop in_circ fuel st.ports with
        | done a =>
          obtain ⟨p1, n1⟩ := a
          rw [hl] at h
          simp only [Outcome.done.injEq, Prod.mk.injEq] at h
          obtain ⟨h1, h2⟩ := ih st.ports p1 n1 hl
          rw [← h.1]
          exact ⟨hmono.trans h1, h2.trans htopo⟩
        | undefinedBehaviour => simp [hl] at h
        | outOfFuel => simp [hl] at h
      · simp only [hcont] at h
        simp only [Bool.false_eq_true, if_false, Outcome.done.injEq, Prod.mk.injEq] at h
        rw [← h.1]
        exact ⟨hmono, htopo⟩

theorem runTrace_props (in_circ : List bool3S) :
    ∀ (fuel : Nat) (ports : List (Option Port)),
      List.Pairwise Settled (runTrace in_circ fuel ports) ∧
      (∀ b ∈ runTrace in_circ fuel ports, VisitFrom in_circ ports b) ∧
      ∀ ports1 n, simular_loop in_circ fuel ports = Outcome.done (ports1, n) →
        (∀ b ∈ runTrace in_circ fuel ports, Mono b.ports ports1) ∧
        (runTrace in_circ fuel ports).length = n * ports.length ∧
        (0 < ports.length →
          ∃ b, (runTrace in_circ fuel ports).getLast? = some b ∧ b.ports = ports1) := by
  intro fuel
  induction fuel with
  | zero =>
    intro ports
    refine ⟨List.Pairwise.nil, fun b hb => by simp [runTrace] at hb, fun ports1 n h => ?_⟩
    simp [simular_loop] at h
  | succ fuel ih =>
    intro ports
    obtain ⟨pP, pV, pM⟩ := passTrace_props in_circ
      { ports := ports, tudo_def := true, alguma_def := false } ports.length
    cases hpass : simular_pass in_circ ports with
    | none =>
      have htr : runTrace in_circ (fuel + 1) ports = passTrace in_circ
          { ports := ports, tudo_def := true, alguma_def := false } ports.length := by
        simp [runTrace, hpass]
      rw [htr]
      refine ⟨pP, pV, fun ports1 n h => ?_⟩
      simp [simular_loop, hpass] at h
    | some st =>
      obtain ⟨pM1, pL, pLast⟩ := pM st hpass
      obtain ⟨htopo, hmono, _⟩ := simular_pass_spec hpass
      have hlen : st.ports.length = ports.length := by
        have := congrArg List.length htopo
        simpa [topo] using this
      by_cases hcont : (!st.tudo_def && st.alguma_def) = true
      · have htr : runTrace in_circ (fuel + 1) ports = passTrace in_circ
            { ports := ports, tudo_def := true, alguma_def := false } ports.length ++
            runTrace in_circ fuel st.ports := by
          simp [runTrace, hpass, hcont]
        rw [htr]
        obtain ⟨rP, rV, rM⟩ := ih st.ports
        refine ⟨?_, ?_, fun ports1 n h => ?_⟩
        · rw [List.pairwise_append]
          exact ⟨pP, rP, fun a ha b hb => ((rV b hb).mono (pM1 a ha)).settled⟩
        · intro b hb
          rcases List.mem_append.mp hb with h | h
          · exact pV b h
          · exact (rV b h).mono hmono
        · simp only [simular_loop, hpass, hcont, if_true] at h
          cases hl : simular_loop in_circ fuel st.ports with
          | done a =>
            obtain ⟨p1, n1⟩ := a
            rw [hl] at h
            simp only [Outcome.done.injEq, Prod.mk.injEq] at h
            obtain ⟨hp1, hn1⟩ := h
            subst hp1
            subst hn1
            obtain ⟨rM1, rL, rLast⟩ := rM p1 n1 hl
            obtain ⟨hm1, _⟩ := simular_loop_mono in_circ fuel st.ports p1 n1 hl
            refine ⟨fun b hb => ?_, ?_, fun hpos => ?_⟩
            · rcases List.mem_append.mp hb with h | h
              · exact (pM1 b h).trans hm1
              · exact rM1 b h
            · rw [List.length_append, pL, rL, hlen]
              ring
            · obtain ⟨b, hb, hbp⟩ := rLast (by omega)
              exact ⟨b, by simp [List.getLast?_append, hb], hbp⟩
          | undefinedBehaviour => simp [hl] at h
          | outOfFuel => simp [hl] at h
      · have htr : runTrace in_circ (fuel + 1) ports = passTrace in_circ
            { ports := ports, tudo_def := true, alguma_def := false } ports.length := by
          simp [runTrace, hpass, hcont]
        rw [htr]
        refine ⟨pP, pV, fun ports1 n h => ?_⟩
        simp only [simular_loop, hpass, hcont] at h
        simp only [Bool.false_eq_true, if_false, Outcome.done.injEq, Prod.mk.injEq] at h
        obtain ⟨hp1, hn1⟩ := h
        subst hp1
        subst hn1
        exact ⟨pM1, by simp [pL], pLast⟩

end Circ

namespace Circ
open Circuito

theorem mem_mnemonics_iff (T : List Char) :
    T ∈ mnemonics ↔ ∃ k : PortKind, T = k.getName := by
  constructor
  · intro h
    simp only [mnemonics, List.mem_cons, List.mem_singleton, List.not_mem_nil, or_false] at h
    rcases h with h | h | h | h | h | h | h
    · exact ⟨PortKind.NT, h⟩
    · exact ⟨PortKind.AN, h⟩
    · exact ⟨PortKind.NA, h⟩
    · exact ⟨PortKind.OR, h⟩
    · exact ⟨PortKind.NO, h⟩
    · exact ⟨PortKind.XO, h⟩
    · exact ⟨PortKind.NX, h⟩
  · rintro ⟨k, rfl⟩
    cases k <;> decide

theorem validType_pair (a b : Char) :
    validType [a, b] = (decide ([a.toUpper, b.toUpper] ∈ mnemonics), [a.toUpper, b.toUpper]) := by
  simp only [validType, mnemonics, Prod.mk.injEq, and_true]
  simp only [List.mem_cons, List.mem_singleton, List.not_mem_nil, or_false, Bool.decide_or,
    Bool.or_assoc]
  rfl

theorem allocPort_name (k : PortKind) :
    allocPort k.getName = (some { kind := k, id_in := [], out := bool3S.UNDEF }, k.getName) := by
  cases k <;> decide

theorem validType_name (k : PortKind) : validType k.getName = (true, k.getName) := by
  cases k <;> decide

theorem getName_injective {k1 k2 : PortKind} (h : k1.getName = k2.getName) : k1 = k2 := by
  cases k1 <;> cases k2 <;> first | rfl | (exact absurd h (by decide))

theorem allocPort_pair (a b : Char) :
    (allocPort [a, b]).1 =
      if [a.toUpper, b.toUpper] ∈ mnemonics then (allocPort [a.toUpper, b.toUpper]).1 else none := by
  by_cases h : [a.toUpper, b.toUpper] ∈ mnemonics
  · obtain ⟨k, hk⟩ := (mem_mnemonics_iff _).mp h
    rw [if_pos h, hk, allocPort_name]
    simp only [allocPort, validType_pair, h, decide_True]
    rw [hk]
    have := allocPort_name k
    simp only [allocPort, validType_name] at this
    rw [this]
  · rw [if_neg h]
    simp [allocPort, validType_pair, h]

theorem validType_not_pair (s : List Char) (h : ∀ a b : Char, s ≠ [a, b]) :
    validType s = (false, s) := by
  unfold validType
  split
  · rename_i a b
    exact absurd rfl (h a b)
  · rfl

theorem topo_ptrAt_int {a b : List (Option Port)} (h : topo a = topo b) (i : Int) :
    (ptrAt a i).map (fun p => (p.kind, p.id_in)) =
      (ptrAt b i).map (fun p => (p.kind, p.id_in)) := by
  by_cases hi : i < 0
  · simp [ptrAt, vecAt, hi]
  · have := topo_ptrAt h i.toNat
    rwa [show ((i.toNat : Nat) : Int) = i by omega] at this

theorem topo_ptrAt_cases {a b : List (Option Port)} (h : topo a = topo b) (i : Int) :
    (ptrAt a i = none ∧ ptrAt b i = none) ∨
    ∃ p q, ptrAt a i = some p ∧ ptrAt b i = some q ∧ q.kind = p.kind ∧ q.id_in = p.id_in := by
  have := topo_ptrAt_int h i
  cases ha : ptrAt a i with
  | none =>
    cases hb : ptrAt b i with
    | none => exact Or.inl ⟨rfl, rfl⟩
    | some q => simp [ha, hb] at this
  | some p =>
    cases hb : ptrAt b i with
    | none => simp [ha, hb] at this
    | some q =>
      simp only [ha, hb, Option.map_some', Option.some.injEq, Prod.mk.injEq] at this
      exact Or.inr ⟨p, q, rfl, rfl, this.1.symm, this.2.symm⟩

/-- The structural queries of a netlist depend on `Nin`, `id_out` and the
topology of the gates only. -/
theorem queries_of_topo {C D : Circuito} (hN : D.Nin = C.Nin) (hid : D.id_out = C.id_out)
    (ht : topo D.ports = topo C.ports) :
    D.getNumInputs = C.getNumInputs ∧ D.getNumOutputs = C.getNumOutputs ∧
    D.getNumPorts = C.getNumPorts ∧
    (∀ k : Int, D.getIdOutput k = C.getIdOutput k) ∧
    (∀ p : Int, D.definedPort p = C.definedPort p ∧ D.getNamePort p = C.getNamePort p ∧
      D.getNumInputsPort p = C.getNumInputsPort p ∧
      ∀ i : Int, D.getId_inPort p i = C.getId_inPort p i) := by
  have hlen : D.ports.length = C.ports.length := by
    have := congrArg List.length ht
    simpa [topo] using this
  have hNP : D.getNumPorts = C.getNumPorts := by simp [getNumPorts, hlen]
  have hNO : D.getNumOutputs = C.getNumOutputs := by simp [getNumOutputs, hid]
  refine ⟨hN, hNO, hNP, fun k => ?_, fun p => ?_⟩
  · simp [getIdOutput, validIdOutput, hNO, hid]
  · have hvp : D.validIdPort p = C.validIdPort p := by simp [validIdPort, hNP]
    have hdef : D.definedPort p = C.definedPort p := by
      unfold definedPort
      rw [hvp]
      rcases topo_ptrAt_cases ht (p - 1) with ⟨h1, h2⟩ | ⟨q1, q2, h1, h2, _, _⟩
      · simp [h1, h2]
      · simp [h1, h2]
    refine ⟨hdef, ?_, ?_, fun i => ?_⟩
    · unfold getNamePort
      rw [hdef]
      rcases topo_ptrAt_cases ht (p - 1) with ⟨h1, h2⟩ | ⟨q1, q2, h1, h2, hk, _⟩
      · simp [h1, h2]
      · simp [h1, h2, hk]
    · unfold getNumInputsPort
      rw [hdef]
      rcases topo_ptrAt_cases ht (p - 1) with ⟨h1, h2⟩ | ⟨q1, q2, h1, h2, _, hi⟩
      · simp [h1, h2]
      · simp [h1, h2, Port.getNumInputs, hi]
    · unfold getId_inPort
      rw [hdef]
      rcases topo_ptrAt_cases ht (p - 1) with ⟨h1, h2⟩ | ⟨q1, q2, h1, h2, _, hi⟩
      · simp [h1, h2]
      · simp [h1, h2, Port.getId_in, Port.validIndex, Port.getNumInputs, hi]

theorem passTrace_topo (in_circ : List bool3S) (st0 : PassState) :
    ∀ m : Nat, ∀ b ∈ passTrace in_circ st0 m, topo b.ports = topo st0.ports := by
  intro m
  induction m with
  | zero =>
    intro b hb
    simp [passTrace] at hb
  | succ m ih =>
    intro b hb
    simp only [passTrace, List.mem_append] at hb
    rcases hb with hb | hb
    · exact ih b hb
    · cases hm : forLoop (simular_body in_circ) m st0 with
      | none => simp [hm] at hb
      | some s =>
        cases hs : simular_body in_circ m s with
        | none => simp [hm, hs] at hb
        | some s1 =>
          simp only [hm, hs, List.mem_singleton] at hb
          subst hb
          exact (simular_body_topo hs).trans (passInv_forLoop in_circ st0 m s hm).topo_eq

theorem runTrace_topo (in_circ : List bool3S) :
    ∀ (fuel : Nat) (ports : List (Option Port)), ∀ b ∈ runTrace in_circ fuel ports,
      topo b.ports = topo ports := by
  intro fuel
  induction fuel with
  | zero =>
    intro ports b hb
    simp [runTrace] at hb
  | succ fuel ih =>
    intro ports b hb
    simp only [runTrace, List.mem_append] at hb
    rcases hb with hb | hb
    · exact passTrace_topo in_circ _ _ b hb
    · cases hpass : simular_pass in_circ ports with
      | none => simp [hpass] at hb
      | some st =>
        simp only [hpass] at hb
        by_cases hcont : (!st.tudo_def && st.alguma_def) = true
        · simp only [hcont, if_true] at hb
          exact (ih st.ports b hb).trans (simular_pass_spec hpass).1
        · simp [hcont] at hb

end Circ

namespace Circ
open Circuito

theorem forall₂_le3_mem {xs ys : List bool3S} (h : List.Forall₂ le3 xs ys) {a : bool3S}
    (ha : a ∈ xs) (hd : a ≠ bool3S.UNDEF) : a ∈ ys := by
  induction h with
  | nil => cases ha
  | cons hab _ ih =>
    rcases List.mem_cons.mp ha with rfl | ha
    · rcases hab with h1 | h1
      · exact absurd h1 hd
      · rw [h1]
        exact List.mem_cons_self _ _
    · exact List.mem_cons_of_mem _ (ih ha)

theorem forall₂_le3_eq {xs ys : List bool3S} (h : List.Forall₂ le3 xs ys)
    (hd : bool3S.UNDEF ∉ xs) : ys = xs := by
  induction h with
  | nil => rfl
  | @cons a b l1 l2 hab _ ih =>
    have ha : a ≠ bool3S.UNDEF := fun h1 => hd (h1 ▸ List.mem_cons_self _ _)
    have hl : bool3S.UNDEF ∉ l1 := fun h1 => hd (List.mem_cons_of_mem _ h1)
    rcases hab with h1 | h1
    · exact absurd h1 ha
    · rw [ih hl, h1]

theorem neg_ne_undef {a : bool3S} : a.neg ≠ bool3S.UNDEF ↔ a ≠ bool3S.UNDEF := by
  cases a <;> simp [bool3S.neg]

theorem evalAND_mono {xs ys : List bool3S} (h : List.Forall₂ le3 xs ys)
    (hd : evalAND xs ≠ bool3S.UNDEF) : evalAND ys = evalAND xs := by
  unfold evalAND at hd ⊢
  by_cases hF : bool3S.FALSE ∈ xs
  · have := forall₂_le3_mem h hF (by decide)
    simp [hF, this]
  · by_cases hU : bool3S.UNDEF ∈ xs
    · simp [hF, hU] at hd
    · rw [forall₂_le3_eq h hU]

theorem evalOR_mono {xs ys : List bool3S} (h : List.Forall₂ le3 xs ys)
    (hd : evalOR xs ≠ bool3S.UNDEF) : evalOR ys = evalOR xs := by
  unfold evalOR at hd ⊢
  by_cases hT : bool3S.TRUE ∈ xs
  · have := forall₂_le3_mem h hT (by decide)
    simp [hT, this]
  · by_cases hU : bool3S.UNDEF ∈ xs
    · simp [hT, hU] at hd
    · rw [forall₂_le3_eq h hU]

theorem evalXOR_mono {xs ys : List bool3S} (h : List.Forall₂ le3 xs ys)
    (hd : evalXOR xs ≠ bool3S.UNDEF) : evalXOR ys = evalXOR xs := by
  by_cases hU : bool3S.UNDEF ∈ xs
  · simp [evalXOR, hU] at hd
  · rw [forall₂_le3_eq h hU]

theorem evalNOT_mono {xs ys : List bool3S} (h : List.Forall₂ le3 xs ys)
    (hd : evalNOT xs ≠ bool3S.UNDEF) : evalNOT ys = evalNOT xs := by
  cases h with
  | nil => rfl
  | cons hab _ =>
    simp only [evalNOT] at hd ⊢
    rcases hab with h1 | h1
    · rw [h1] at hd
      exact absurd rfl hd
    · rw [h1]

/-- The evaluation rules are monotone: a defined result is not changed by
inputs that go from UNDEF to a defined value. -/
theorem eval_mono (k : PortKind) {xs ys : List bool3S} (h : List.Forall₂ le3 xs ys)
    (hd : k.eval xs ≠ bool3S.UNDEF) : k.eval ys = k.eval xs := by
  cases k <;> simp only [PortKind.eval] at hd ⊢
  · exact evalNOT_mono h hd
  · exact evalAND_mono h hd
  · rw [evalAND_mono h (neg_ne_undef.mp hd)]
  · exact evalOR_mono h hd
  · rw [evalOR_mono h (neg_ne_undef.mp hd)]
  · exact evalXOR_mono h hd
  · rw [evalXOR_mono h (neg_ne_undef.mp hd)]

/-- The inner loop of `simular` reads the origins of the gate in order. -/
theorem simular_in_port_eq (in_circ : List bool3S) (ports : List (Option Port)) (p : Port) :
    simular_in_port in_circ ports p = allOk (p.id_in.map (simular_origem in_circ ports)) := by
  unfold simular_in_port
  congr 1
  apply List.ext_getElem
  · simp [Port.getNumInputs]
  · intro j h1 h2
    have hj : j < p.id_in.length := by simpa using h2
    simp [(Port.getId_in_natCast p j hj).2]

theorem simular_origem_le {in_circ : List bool3S} {a b : List (Option Port)}
    (ht : topo b = topo a) (hm : Mono a b) (id : Int) {x : bool3S}
    (hx : simular_origem in_circ a id = some x) :
    ∃ y, simular_origem in_circ b id = some y ∧ le3 x y := by
  unfold simular_origem at hx ⊢
  by_cases hpos : id > 0
  · simp only [hpos, if_true, Option.map_eq_some'] at hx ⊢
    obtain ⟨q, hq, hqx⟩ := hx
    by_cases hu : q.out = bool3S.UNDEF
    · rcases topo_ptrAt_cases ht.symm (id - 1) with ⟨h1, _⟩ | ⟨q1, q2, h1, h2, _, _⟩
      · rw [hq] at h1
        cases h1
      · exact ⟨q2.getOutput, ⟨q2, h2, rfl⟩, Or.inl (by rw [← hqx]; exact hu)⟩
    · have hid : ((id - 1).toNat : Int) = id - 1 := by omega
      have := hm (id - 1).toNat q (by rw [hid]; exact hq) hu
      rw [hid] at this
      exact ⟨x, ⟨q, this, hqx⟩, Or.inr rfl⟩
  · simp only [hpos, if_false] at hx ⊢
    exact ⟨x, hx, Or.inr rfl⟩

theorem allOk_map_le {in_circ : List bool3S} {a b : List (Option Port)}
    (ht : topo b = topo a) (hm : Mono a b) :
    ∀ (ids : List Int) (xs : List bool3S),
      allOk (ids.map (simular_origem in_circ a)) = some xs →
      ∃ ys, allOk (ids.map (simular_origem in_circ b)) = some ys ∧ List.Forall₂ le3 xs ys := by
  intro ids
  induction ids with
  | nil =>
    intro xs h
    simp only [List.map_nil, allOk, Option.some.injEq] at h
    subst h
    exact ⟨[], rfl, List.Forall₂.nil⟩
  | cons id rest ih =>
    intro xs h
    simp only [List.map_cons] at h ⊢
    cases hx : simular_origem in_circ a id with
    | none => simp [hx, allOk] at h
    | some x =>
      rw [hx] at h
      simp only [allOk, Option.map_eq_some'] at h
      obtain ⟨xs1, hxs1, rfl⟩ := h
      obtain ⟨y, hy, hxy⟩ := simular_origem_le ht hm id hx
      obtain ⟨ys1, hys1, hf⟩ := ih xs1 hxs1
      exact ⟨y :: ys1, by simp [hy, allOk, hys1], List.Forall₂.cons hxy hf⟩

/-- A defined evaluation of a gate stays the same when more gates become
defined. -/
theorem eval_transfer {in_circ : List bool3S} {a b : List (Option Port)}
    (ht : topo b = topo a) (hm : Mono a b) {p q : Port} (hk : q.kind = p.kind)
    (hi : q.id_in = p.id_in) {xs : List bool3S}
    (hxs : simular_in_port in_circ a p = some xs) (hd : p.kind.eval xs ≠ bool3S.UNDEF) :
    ∃ ys, simular_in_port in_circ b q = some ys ∧ q.kind.eval ys = p.kind.eval xs := by
  rw [simular_in_port_eq] at hxs
  obtain ⟨ys, hys, hf⟩ := allOk_map_le ht hm p.id_in xs hxs
  refine ⟨ys, ?_, ?_⟩
  · rw [simular_in_port_eq, hi]
    exact hys
  · rw [hk]
    exact eval_mono p.kind hf hd

theorem simular_in_port_congr (in_circ : List bool3S) (ports : List (Option Port))
    {p q : Port} (hi : q.id_in = p.id_in) :
    simular_in_port in_circ ports q = simular_in_port in_circ ports p := by
  rw [simular_in_port_eq, simular_in_port_eq, hi]

theorem Cons.through_step {in_circ : List bool3S} {i : Nat} {st st1 : PassState}
    (h : simular_body in_circ i st = some st1) (hc : Cons in_circ st.ports) :
    Cons in_circ st1.ports := by
  have htopo := simular_body_topo h
  have hmono := simular_body_mono h
  obtain ⟨p, hp, hcase⟩ := simular_body_spec h
  rcases hcase with ⟨_, rfl⟩ | ⟨hu, in_port, hin, hports, _⟩
  · exact hc
  · intro k q hq hd
    by_cases hk : k = i
    · subst hk
      have hi : k < st.ports.length := ptrAt_lt hp
      rw [hports, ptrAt_set] at hq
      simp only [hi, and_self, if_true, Option.some.injEq] at hq
      subst hq
      simp only [Port.simular] at hd
      obtain ⟨ys, hys, he⟩ := @eval_transfer in_circ st.ports st1.ports htopo hmono p
        (p.simular in_port) rfl rfl in_port hin hd
      exact ⟨ys, hys, by rw [he]; rfl⟩
    · rw [simular_body_other h k hk] at hq
      obtain ⟨xs, hxs, he⟩ := hc k q hq hd
      obtain ⟨ys, hys, he2⟩ := @eval_transfer in_circ st.ports st1.ports htopo hmono q q rfl rfl
        xs hxs (by rw [he]; exact hd)
      exact ⟨ys, hys, by rw [he2, he]⟩

theorem Cons.through_pass {in_circ : List bool3S} {ports : List (Option Port)} {st : PassState}
    (h : simular_pass in_circ ports = some st) (hc : Cons in_circ ports) :
    Cons in_circ st.ports :=
  forLoop_induct (simular_body in_circ) (fun _ s => Cons in_circ s.ports) _ hc
    (fun _ _ _ hs _ hb => Cons.through_step hb hs) _ st h

theorem Stuck.after_pass {in_circ : List bool3S} {ports : List (Option Port)} {st : PassState}
    (h : simular_pass in_circ ports = some st) (ha : st.alguma_def = false) :
    Stuck in_circ st.ports ports.length := by
  have key := forLoop_induct (simular_body in_circ)
    (fun m s => s.alguma_def = false → Stuck in_circ s.ports m)
    { ports := ports, tudo_def := true, alguma_def := false }
    (fun _ k p hk _ _ => absurd hk (Nat.not_lt_zero k))
    (fun m s s1 hs _ hb ha1 => by
      obtain ⟨p, hp, hcase⟩ := simular_body_spec hb
      rcases hcase with ⟨hd, rfl⟩ | ⟨hu, in_port, hin, hports, hflags⟩
      · intro k q hk hq hqu
        by_cases hkm : k = m
        · subst hkm
          rw [hp] at hq
          cases hq
          exact absurd hqu hd
        · exact hs ha1 k q (by omega) hq hqu
      · rcases hflags with ⟨he, _, ha2⟩ | ⟨_, _, ha2⟩
        · have hsame : p.simular in_port = p := by
            cases p
            simp only [Port.simular, he]
            simp only at hu
            rw [hu]
          have hps : s1.ports = s.ports := by
            rw [hports, hsame]
            exact set_same_of_ptrAt hp
          rw [hps]
          intro k q hk hq hqu
          by_cases hkm : k = m
          · subst hkm
            rw [hp] at hq
            cases hq
            exact ⟨in_port, hin, he⟩
          · exact hs (ha2 ▸ ha1) k q (by omega) hq hqu
        · rw [ha2] at ha1
          cases ha1)
    ports.length st h
  exact key ha

/-- At the exit of the loop every gate is consistent with the final values of
its inputs, defined or not. -/
theorem simular_loop_fixpoint (in_circ : List bool3S) :
    ∀ (fuel : Nat) (ports ports1 : List (Option Port)) (n : Nat),
      simular_loop in_circ fuel ports = Outcome.done (ports1, n) → Cons in_circ ports →
      Cons in_circ ports1 ∧ Stuck in_circ ports1 ports1.length := by
  intro fuel
  induction fuel with
  | zero =>
    intro ports ports1 n h
    simp [simular_loop] at h
  | succ fuel ih =>
    intro ports ports1 n h hc
    simp only [simular_loop] at h
    cases hpass : simular_pass in_circ ports with
    | none => simp [hpass] at h
    | some st =>
      rw [hpass] at h
      have hc1 := Cons.through_pass hpass hc
      by_cases hcont : (!st.tudo_def && st.alguma_def) = true
      · simp only [hcont, if_true] at h
        cases hl : simular_loop in_circ fuel st.ports with
        | done a =>
          obtain ⟨p1, n1⟩ := a
          rw [hl] at h
          simp only [Outcome.done.injEq, Prod.mk.injEq] at h
          rw [← h.1]
          exact ih st.ports p1 n1 hl hc1
        | undefinedBehaviour => simp [hl] at h
        | outOfFuel => simp [hl] at h
      · simp only [hcont] at h
        simp only [Bool.false_eq_true, if_false, Outcome.done.injEq, Prod.mk.injEq] at h
        rw [← h.1]
        refine ⟨hc1, ?_⟩
        have hlen : st.ports.length = ports.length := by
          have := congrArg List.length (simular_pass_spec hpass).1
          simpa [topo] using this
        rw [hlen]
        by_cases ha : st.alguma_def = false
        · exact Stuck.after_pass hpass ha
        · have ht : st.tudo_def = true := by
            cases htd : st.tudo_def with
            | true => rfl
            | false =>
              cases had : st.alguma_def with
              | false => exact absurd had ha
              | true => simp [htd, had] at hcont
          have inv := passInv_forLoop in_circ _ _ _ hpass
          obtain ⟨_, hall⟩ := inv.tudo_true ht
          intro k q hk hq hqu
          obtain ⟨q1, hq1, hd⟩ := hall k hk
          rw [hq] at hq1
          cases hq1
          exact absurd hqu hd

theorem Cons.resetAll (in_circ : List bool3S) (ports : List (Option Port)) :
    Cons in_circ (resetAll ports) := by
  intro k p hp hd
  exfalso
  apply hd
  rw [ptrAt_eq_some] at hp
  simp only [Circ.resetAll, List.getElem?_map, Option.map_eq_some'] at hp
  obtain ⟨o, _, ho⟩ := hp
  cases o with
  | none => simp at ho
  | some q =>
    obtain ⟨a, _, ha⟩ := ho
    rw [← ha]
    rfl

end Circ

namespace Circ
open Circuito

theorem dep_of_topo {a b : List (Option Port)} (h : topo a = topo b) {q p : Nat}
    (hd : dep a q p) : dep b q p := by
  obtain ⟨g, hg, hq⟩ := hd
  obtain ⟨g1, hg1, _, hi⟩ := topo_ptrAt_some h hg
  exact ⟨g1, hg1, hi ▸ hq⟩

theorem transGen_dep_of_topo {a b : List (Option Port)} (h : topo a = topo b) {q p : Nat}
    (hd : Relation.TransGen (dep a) q p) : Relation.TransGen (dep b) q p :=
  Relation.TransGen.mono (fun _ _ hqp => dep_of_topo h hqp) hd

theorem Acyclic.transport {a b : List (Option Port)} (h : topo b = topo a) (ha : Acyclic a) :
    Acyclic b :=
  fun p hp => ha p (transGen_dep_of_topo h hp)

/-- A ranking of the gates that decreases along dependencies shows that the
graph has no cycle. -/
theorem acyclic_of_rank (ports : List (Option Port)) (r : Nat → Nat)
    (h : ∀ q p, dep ports q p → r q < r p) : Acyclic ports := by
  have key : ∀ q p, Relation.TransGen (dep ports) q p → r q < r p := by
    intro q p hqp
    induction hqp with
    | single hd => exact h _ _ hd
    | tail _ hd ih => exact lt_trans ih (h _ _ hd)
  intro p hp
  exact lt_irrefl _ (key p p hp)

/-- Among the gates that are UNDEF, in a graph without cycle, one depends on no
UNDEF gate. -/
theorem exists_min_undef {ports : List (Option Port)} (ha : Acyclic ports) {k : Nat}
    (hk : outAt ports k = some bool3S.UNDEF) :
    ∃ m, outAt ports m = some bool3S.UNDEF ∧
      ∀ x, outAt ports x = some bool3S.UNDEF → ¬ dep ports x m := by
  have hlt : ∀ x, outAt ports x = some bool3S.UNDEF → x < ports.length := by
    intro x hx
    simp only [outAt, Option.map_eq_some'] at hx
    obtain ⟨p, hp, _⟩ := hx
    exact ptrAt_lt hp
  let r : Fin ports.length → Fin ports.length → Prop :=
    fun a b => Relation.TransGen (dep ports) a.val b.val
  haveI : IsTrans (Fin ports.length) r := ⟨fun _ _ _ hab hbc => Relation.TransGen.trans hab hbc⟩
  haveI : IsIrrefl (Fin ports.length) r := ⟨fun a haa => ha a.val haa⟩
  have hwf : WellFounded r := Finite.wellFounded_of_trans_of_irrefl r
  obtain ⟨m, hm, hmin⟩ := hwf.has_min
    {a : Fin ports.length | outAt ports a.val = some bool3S.UNDEF} ⟨⟨k, hlt k hk⟩, hk⟩
  refine ⟨m.val, hm, fun x hx hd => ?_⟩
  exact hmin ⟨x, hlt x hx⟩ hx (Relation.TransGen.single hd)

/-- Defined inputs give a defined output, for every kind; a NOT gate needs its
input to exist. -/
theorem eval_defined (k : PortKind) (xs : List bool3S) (hU : bool3S.UNDEF ∉ xs)
    (hne : k = PortKind.NT → xs ≠ []) : k.eval xs ≠ bool3S.UNDEF := by
  have hand : evalAND xs ≠ bool3S.UNDEF := by
    unfold evalAND
    by_cases hF : bool3S.FALSE ∈ xs <;> simp [hF, hU]
  have hor : evalOR xs ≠ bool3S.UNDEF := by
    unfold evalOR
    by_cases hT : bool3S.TRUE ∈ xs <;> simp [hT, hU]
  have hxor : evalXOR xs ≠ bool3S.UNDEF := by
    unfold evalXOR
    by_cases hP : xs.count bool3S.TRUE % 2 = 1 <;> simp [hP, hU]
  cases k <;> simp only [PortKind.eval]
  · cases xs with
    | nil => exact absurd rfl (hne rfl)
    | cons x rest =>
      simp only [evalNOT]
      exact neg_ne_undef.mpr (fun hx => hU (hx ▸ List.mem_cons_self _ _))
  · exact hand
  · exact neg_ne_undef.mpr hand
  · exact hor
  · exact neg_ne_undef.mpr hor
  · exact hxor
  · exact neg_ne_undef.mpr hxor

theorem forLoop_alguma (in_circ : List bool3S) (st0 : PassState) (k : Nat) (s1 : PassState)
    (h1 : forLoop (simular_body in_circ) k st0 = some s1) (ha : s1.alguma_def = true) :
    ∀ (d : Nat) (s2 : PassState), forLoop (simular_body in_circ) (k + d) st0 = some s2 →
      s2.alguma_def = true := by
  intro d
  induction d with
  | zero =>
    intro s2 h2
    rw [Nat.add_zero, h1] at h2
    cases h2
    exact ha
  | succ d ih =>
    intro s2 h2
    rw [← Nat.add_assoc] at h2
    simp only [forLoop] at h2
    cases hm : forLoop (simular_body in_circ) (k + d) st0 with
    | none => simp [hm] at h2
    | some sm =>
      rw [hm] at h2
      have ham := ih sm hm
      obtain ⟨p, _, hcase⟩ := simular_body_spec h2
      rcases hcase with ⟨_, rfl⟩ | ⟨_, _, _, _, hflags⟩
      · exact ham
      · rcases hflags with ⟨_, _, h3⟩ | ⟨_, _, h3⟩
        · rw [h3]
          exact ham
        · exact h3

/-- In a graph without cycle, with all circuit inputs defined, a pass that
starts with some gate UNDEF defines at least one gate. -/
theorem pass_progress {nin : Nat} {in_circ : List bool3S} {ports : List (Option Port)}
    {st : PassState} (hok : PortsOk nin ports)
    (hac : Acyclic ports) (hin : bool3S.UNDEF ∉ in_circ)
    (hnot : ∀ (k : Nat) (p : Port), ptrAt ports (k : Int) = some p → p.kind = PortKind.NT →
      p.id_in ≠ [])
    {k : Nat} (hk : outAt ports k = some bool3S.UNDEF)
    (h : simular_pass in_circ ports = some st) : st.alguma_def = true := by
  obtain ⟨m, hm, hmin⟩ := exists_min_undef hac hk
  simp only [outAt, Option.map_eq_some'] at hm
  obtain ⟨p, hp, hpu⟩ := hm
  have hmlt : m < ports.length := ptrAt_lt hp
  unfold simular_pass at h
  obtain ⟨sm, hsm⟩ := forLoop_prefix _ _ _ m st (by omega) h
  obtain ⟨sm1, hsm1⟩ := forLoop_prefix _ _ _ (m + 1) st (by omega) h
  have hbody : simular_body in_circ m sm = some sm1 := by
    simpa [forLoop, hsm] using hsm1
  have inv := passInv_forLoop in_circ _ m sm hsm
  have hpm : ptrAt sm.ports (m : Int) = some p := by
    rw [inv.later m (le_refl m)]
    exact hp
  have ha1 : sm1.alguma_def = true := by
    obtain ⟨p1, hp1, hcase⟩ := simular_body_spec hbody
    rw [hpm] at hp1
    cases hp1
    rcases hcase with ⟨hd, _⟩ | ⟨_, in_port, hinp, _, hflags⟩
    · exact absurd hpu hd
    · have hmap : p.id_in.map (simular_origem in_circ sm.ports) = in_port.map some := by
        rw [simular_in_port_eq] at hinp
        exact (allOk_eq_some_iff _ _).mp hinp
      have hU : bool3S.UNDEF ∉ in_port := by
        intro hmem
        have : some bool3S.UNDEF ∈ in_port.map some := List.mem_map.mpr ⟨_, hmem, rfl⟩
        rw [← hmap] at this
        obtain ⟨id, hid, horig⟩ := List.mem_map.mp this
        obtain ⟨q, hq, hids⟩ := hok m hmlt
        rw [hp] at hq
        cases hq
        have hidok := hids id hid
        unfold simular_origem at horig
        by_cases hpos : id > 0
        · simp only [hpos, if_true, Option.map_eq_some'] at horig
          obtain ⟨g1, hg1, hg1u⟩ := horig
          have hxlt : (id - 1).toNat < ports.length := by
            rcases hidok with ⟨_, h2⟩ | ⟨_, h2⟩ <;> omega
          have hcast : (((id - 1).toNat : Nat) : Int) = id - 1 := by omega
          have hdep : dep ports (id - 1).toNat m :=
            ⟨p, hp, by rw [hcast, sub_add_cancel]; exact hid⟩
          obtain ⟨g, hg, _⟩ := hok (id - 1).toNat hxlt
          have hgd : g.out ≠ bool3S.UNDEF := by
            intro hgu
            apply hmin (id - 1).toNat _ hdep
            rw [outAt, hg]
            simp only [Option.map_some', Port.getOutput, hgu]
          have := inv.mono (id - 1).toNat g hg hgd
          rw [hcast, hg1] at this
          cases this
          exact hgd hg1u
        · simp only [hpos, if_false] at horig
          have hneg : ¬ (-id - 1 < 0) := by
            intro hlt0
            simp [vecAt, hlt0] at horig
          simp only [vecAt, hneg, if_false] at horig
          exact hin (List.getElem?_mem horig)
      have hne : p.kind = PortKind.NT → in_port ≠ [] := by
        intro hkind hnil
        have hl := congrArg List.length hmap
        rw [hnil] at hl
        simp only [List.length_map, List.length_nil] at hl
        exact hnot m p hp hkind (List.length_eq_zero.mp hl)
      have hdef := eval_defined p.kind in_port hU hne
      rcases hflags with ⟨he, _, _⟩ | ⟨_, _, h3⟩
      · exact absurd he hdef
      · exact h3
  obtain ⟨d, hd⟩ : ∃ d, ports.length = (m + 1) + d := ⟨ports.length - (m + 1), by omega⟩
  rw [hd] at h
  exact forLoop_alguma in_circ _ (m + 1) sm1 hsm1 ha1 d st h

/-- In a graph without cycle, with all circuit inputs defined, the loop ends
with every gate defined. -/
theorem simular_loop_all_defined {nin : Nat} {in_circ : List bool3S}
    (hin : bool3S.UNDEF ∉ in_circ) :
    ∀ (fuel : Nat) (ports ports1 : List (Option Port)) (n : Nat),
      PortsOk nin ports → Acyclic ports →
      (∀ (k : Nat) (p : Port), ptrAt ports (k : Int) = some p → p.kind = PortKind.NT →
        p.id_in ≠ []) →
      (∃ k, outAt ports k = some bool3S.UNDEF) →
      simular_loop in_circ fuel ports = Outcome.done (ports1, n) →
      ∀ k : Nat, k < ports.length →
        ∃ p, ptrAt ports1 (k : Int) = some p ∧ p.out ≠ bool3S.UNDEF := by
  intro fuel
  induction fuel with
  | zero =>
    intro ports ports1 n _ _ _ _ h
    simp [simular_loop] at h
  | succ fuel ih =>
    intro ports ports1 n hok hac hnot hex h
    simp only [simular_loop] at h
    cases hpass : simular_pass in_circ ports with
    | none => simp [hpass] at h
    | some st =>
      rw [hpass] at h
      obtain ⟨k0, hk0⟩ := hex
      have halg := pass_progress hok hac hin hnot hk0 hpass
      have inv := passInv_forLoop in_circ _ _ _ hpass
      have htopo : topo st.ports = topo ports := inv.topo_eq
      have hlen1 : st.ports.length = ports.length := by
        have := congrArg List.length htopo
        simpa [topo] using this
      cases htd : st.tudo_def with
      | true =>
        simp only [htd, halg, Bool.not_true, Bool.false_and, Bool.false_eq_true, if_false,
          Outcome.done.injEq, Prod.mk.injEq] at h
        rw [← h.1]
        exact (inv.tudo_true htd).2
      | false =>
        simp only [htd, halg, Bool.not_false, Bool.and_self, if_true] at h
        cases hl : simular_loop in_circ fuel st.ports with
        | done a =>
          obtain ⟨p1, n1⟩ := a
          rw [hl] at h
          simp only [Outcome.done.injEq, Prod.mk.injEq] at h
          rw [← h.1, ← hlen1]
          refine ih st.ports p1 n1 (hok.of_topo htopo) (hac.transport htopo) ?_ ?_ hl
          · intro k p hp hkind
            obtain ⟨p0, hp0, hk0, hi0⟩ := topo_ptrAt_some htopo hp
            rw [← hi0]
            exact hnot k p0 hp0 (hk0.trans hkind)
          · rcases inv.tudo_false htd with h0 | ⟨k1, _, hk1⟩
            · cases h0
            · exact ⟨k1, hk1⟩
        | undefinedBehaviour => simp [hl] at h
        | outOfFuel => simp [hl] at h

/-- The value `getOutput(k)` returns after the read-out loop is the signal of
the origin of output `k` in the final gates. -/
theorem getOutput_readOut {C : Circuito} {in_circ : List bool3S}
    {ports1 : List (Option Port)} {k : Int} (hk1 : 1 ≤ k) (hk2 : k ≤ C.getNumOutputs)
    {s : bool3S} (hs : simular_origem in_circ ports1 (C.getIdOutput k) = some s) :
    getOutput { C with ports := ports1, out_circ := readOut in_circ ports1 C.id_out } k =
      some s := by
  simp only [getNumOutputs] at hk2
  have hkn : (k - 1).toNat < C.id_out.length := by omega
  have hko : C.getIdOutput k = C.id_out[(k - 1).toNat] := by
    have := getIdOutput_natCast C (k - 1).toNat hkn
    rwa [show (((k - 1).toNat : Nat) : Int) + 1 = k by omega] at this
  rw [hko] at hs
  have hvalid : validIdOutput
      { C with ports := ports1, out_circ := readOut in_circ ports1 C.id_out } k = true := by
    simp only [validIdOutput, getNumOutputs, Bool.and_eq_true, decide_eq_true_eq]
    omega
  unfold getOutput
  rw [if_pos hvalid, vecAt, if_neg (by omega)]
  simp only [readOut, List.getElem?_map, List.getElem?_eq_getElem hkn, Option.map_some', hs,
    Option.getD_some]

theorem acyclic_circForward : Acyclic circForward.ports := by
  apply acyclic_of_rank _ (fun k => if k = 0 then 1 else 0)
  intro q p hd
  obtain ⟨g, hg, hq⟩ := hd
  match p, hg with
  | 0, hg =>
    have : g = { kind := PortKind.NT, id_in := [2], out := bool3S.UNDEF } := by
      have h0 : ptrAt circForward.ports ((0 : Nat) : Int) = some
          { kind := PortKind.NT, id_in := [2], out := bool3S.UNDEF } := by decide
      rw [h0] at hg
      exact (Option.some.inj hg).symm
    subst this
    simp only [List.mem_singleton] at hq
    have hq1 : q = 1 := by omega
    subst hq1
    decide
  | 1, hg =>
    have : g = { kind := PortKind.NT, id_in := [-1], out := bool3S.UNDEF } := by
      have h1 : ptrAt circForward.ports ((1 : Nat) : Int) = some
          { kind := PortKind.NT, id_in := [-1], out := bool3S.UNDEF } := by decide
      rw [h1] at hg
      exact (Option.some.inj hg).symm
    subst this
    simp only [List.mem_singleton] at hq
    omega
  | p + 2, hg =>
    have := ptrAt_lt hg
    simp [circForward] at this

end Circ

namespace Circ
open Circuito

/-! ## The claims -/

/-- C1: on every valid netlist (whose vectors `out_circ` and `id_out` have the
same size, as every constructor, `resize` and `simular` leave them), with an
input vector of length `getNumInputs()`, `simular` terminates: the reset loop
completes, the
`do ... while` loop stops by itself after at most `getNumPorts()` passes
(whatever fuel of at least that many passes it is given), the read-out loop
completes having written every index of `out_circ` exactly once, and the call
returns. -/
theorem simular_terminates (C : Circuito) (in_circ : List bool3S) (hv : C.valid = true)
    (hlen : (in_circ.length : Int) = C.getNumInputs)
    (hwf : C.out_circ.length = C.id_out.length) :
    ∃ ports0 ports1 passes os,
      forLoop simular_reset_body C.ports.length C.ports = some ports0 ∧
      (∀ fuel, C.ports.length ≤ fuel →
        simular_loop in_circ fuel ports0 = Outcome.done (ports1, passes)) ∧
      (passes : Int) ≤ C.getNumPorts ∧
      forLoop (simular_out_body in_circ ports1 C.id_out) C.id_out.length
          { out_circ := C.out_circ, written := [] } = some os ∧
      (os.written.length : Int) = C.getNumOutputs ∧
      (∀ j : Nat, j < C.id_out.length → os.written.count j = 1) ∧
      C.simular in_circ =
        Outcome.done (true, { C with ports := ports1, out_circ := os.out_circ }) := by
  obtain ⟨ports1, n, hreset, hloop, _, hn, _, hro, hsim⟩ := simular_run hv hlen hwf
  refine ⟨resetAll C.ports, ports1, n, _, hreset, hloop, ?_, hro, ?_, ?_, hsim _ (Nat.le_succ _)⟩
  · simp only [getNumPorts]
    exact_mod_cast hn
  · simp [getNumOutputs]
  · intro j hj
    apply List.count_eq_one_of_mem
    · exact List.nodup_reverse.mpr (List.nodup_range _)
    · simp [hj]

/-- Witness of C1 on the one-gate AND netlist. -/
theorem simular_terminates_witness :
    (circAND bool3S.TRUE bool3S.FALSE).valid = true ∧
    ∃ ports0 ports1 passes os,
      forLoop simular_reset_body (circAND bool3S.TRUE bool3S.FALSE).ports.length
        (circAND bool3S.TRUE bool3S.FALSE).ports = some ports0 ∧
      (∀ fuel, (circAND bool3S.TRUE bool3S.FALSE).ports.length ≤ fuel →
        simular_loop [bool3S.TRUE, bool3S.UNDEF] fuel ports0 = Outcome.done (ports1, passes)) ∧
      (passes : Int) ≤ (circAND bool3S.TRUE bool3S.FALSE).getNumPorts ∧
      forLoop (simular_out_body [bool3S.TRUE, bool3S.UNDEF] ports1
          (circAND bool3S.TRUE bool3S.FALSE).id_out)
          (circAND bool3S.TRUE bool3S.FALSE).id_out.length
          { out_circ := (circAND bool3S.TRUE bool3S.FALSE).out_circ, written := [] } = some os ∧
      (os.written.length : Int) = (circAND bool3S.TRUE bool3S.FALSE).getNumOutputs ∧
      (∀ j : Nat, j < (circAND bool3S.TRUE bool3S.FALSE).id_out.length →
        os.written.count j = 1) ∧
      (circAND bool3S.TRUE bool3S.FALSE).simular [bool3S.TRUE, bool3S.UNDEF] =
        Outcome.done (true, { circAND bool3S.TRUE bool3S.FALSE with
          ports := ports1, out_circ := os.out_circ }) :=
  ⟨by decide, simular_terminates (circAND bool3S.TRUE bool3S.FALSE)
    [bool3S.TRUE, bool3S.UNDEF] (by decide) (by decide) (by decide)⟩

/-- C2: on every valid netlist (whose vectors `out_circ` and `id_out` have the
same size, as every constructor, `resize` and `simular` leave them), with an
input vector of length `getNumInputs()` whose entries are any of TRUE, FALSE, UNDEF, `simular` returns
`true`, with any fuel of at least `getNumPorts()` passes; gates that a cycle
keeps UNDEF do not change the returned value. -/
theorem simular_returns_true (C : Circuito) (in_circ : List bool3S) (hv : C.valid = true)
    (hlen : (in_circ.length : Int) = C.getNumInputs)
    (hwf : C.out_circ.length = C.id_out.length) :
    ∃ C1, C.simular in_circ = Outcome.done (true, C1) ∧
      ∀ fuel, C.ports.length ≤ fuel → simularFuel fuel C in_circ = Outcome.done (true, C1) := by
  obtain ⟨ports1, n, _, _, _, _, _, _, hsim⟩ := simular_run hv hlen hwf
  exact ⟨_, hsim _ (Nat.le_succ _), hsim⟩

/-- Witness of C2 on the NOT gate that reads its own output, which stays
UNDEF. -/
theorem simular_returns_true_witness :
    (circNOTself bool3S.TRUE bool3S.TRUE).valid = true ∧
    ∃ C1, (circNOTself bool3S.TRUE bool3S.TRUE).simular [bool3S.FALSE] =
        Outcome.done (true, C1) ∧
      ∀ fuel, (circNOTself bool3S.TRUE bool3S.TRUE).ports.length ≤ fuel →
        simularFuel fuel (circNOTself bool3S.TRUE bool3S.TRUE) [bool3S.FALSE] =
          Outcome.done (true, C1) :=
  ⟨by decide, simular_returns_true (circNOTself bool3S.TRUE bool3S.TRUE) [bool3S.FALSE]
    (by decide) (by decide) (by decide)⟩

/-- C3: idempotence of `simular`. On a valid netlist `C` (whose vectors
`out_circ` and `id_out` have the same size) with an input vector of the right
length, the object `C1` left by `simular` is left unchanged by a
second `simular` with the same inputs (same cached output of every gate, same
`out_circ`, hence same `getOutput(k)`), and any netlist `D` that differs from
`C` only in the cached gate outputs and in the contents of `out_circ` is taken
to the same `C1`. -/
theorem simular_idempotent (C : Circuito) (in_circ : List bool3S) (hv : C.valid = true)
    (hlen : (in_circ.length : Int) = C.getNumInputs)
    (hwf : C.out_circ.length = C.id_out.length) :
    ∃ C1, C.simular in_circ = Outcome.done (true, C1) ∧
      C1.simular in_circ = Outcome.done (true, C1) ∧
      (∀ k : Int, (C1.getOutput k).isSome = true) ∧
      ∀ D : Circuito, D.Nin = C.Nin → D.id_out = C.id_out → topo D.ports = topo C.ports →
        D.out_circ.length = C.out_circ.length →
        D.simular in_circ = Outcome.done (true, C1) := by
  obtain ⟨C1, hC, _, hNin, hid, htopo, hout⟩ :=
    simular_topo_only (D := C) hv hlen hwf rfl rfl rfl rfl
  refine ⟨C1, hC, ?_, ?_, ?_⟩
  · obtain ⟨C2, hC2, hD2, _⟩ := simular_topo_only (D := C1) hv hlen hwf hNin hid htopo hout
    rw [hC] at hC2
    simp only [Outcome.done.injEq, Prod.mk.injEq, true_and] at hC2
    rw [hD2, ← hC2]
  · intro k
    unfold getOutput
    by_cases hk : C1.validIdOutput k = true
    · simp only [hk, if_true]
      simp only [validIdOutput, getNumOutputs, Bool.and_eq_true, decide_eq_true_eq] at hk
      have h1 : ¬ (k - 1 < 0) := by omega
      have h2 : (k - 1).toNat < C1.out_circ.length := by
        rw [hout, hwf, ← hid]
        omega
      rw [vecAt, if_neg h1, List.getElem?_eq_getElem h2]
      rfl
    · simp [hk]
  · intro D h1 h2 h3 h4
    obtain ⟨C2, hC2, hD2, _⟩ := simular_topo_only (D := D) hv hlen hwf h1 h2 h3 h4
    rw [hC] at hC2
    simp only [Outcome.done.injEq, Prod.mk.injEq, true_and] at hC2
    rw [hD2, ← hC2]

/-- Witness of C3 on the one-gate AND netlist. -/
theorem simular_idempotent_witness :
    (circAND bool3S.UNDEF bool3S.UNDEF).valid = true ∧
    ∃ C1, (circAND bool3S.UNDEF bool3S.UNDEF).simular [bool3S.TRUE, bool3S.TRUE] =
        Outcome.done (true, C1) ∧
      C1.simular [bool3S.TRUE, bool3S.TRUE] = Outcome.done (true, C1) ∧
      (∀ k : Int, (C1.getOutput k).isSome = true) ∧
      ∀ D : Circuito, D.Nin = (circAND bool3S.UNDEF bool3S.UNDEF).Nin →
        D.id_out = (circAND bool3S.UNDEF bool3S.UNDEF).id_out →
        topo D.ports = topo (circAND bool3S.UNDEF bool3S.UNDEF).ports →
        D.out_circ.length = (circAND bool3S.UNDEF bool3S.UNDEF).out_circ.length →
        D.simular [bool3S.TRUE, bool3S.TRUE] = Outcome.done (true, C1) :=
  ⟨by decide, simular_idempotent (circAND bool3S.UNDEF bool3S.UNDEF)
    [bool3S.TRUE, bool3S.TRUE] (by decide) (by decide) (by decide)⟩

/-- C4: monotonicity within one run of `simular`. Along the trace of all gate
visits of the loop (in execution order), for every earlier visit `a` and later
visit `b`: a gate whose output is TRUE or FALSE after `a` has the same output
after `b`, and `b` did not evaluate it. The same outputs are found in the
gates the loop ends with; the trace has one visit per gate and pass, and its
last visit leaves the final gates. -/
theorem simular_monotone (in_circ : List bool3S) (fuel : Nat)
    (ports0 ports1 : List (Option Port)) (n : Nat)
    (h : simular_loop in_circ fuel ports0 = Outcome.done (ports1, n)) :
    List.Pairwise
      (fun a b : Visit => ∀ (g : Nat) (v : bool3S), outAt a.ports g = some v →
        v ≠ bool3S.UNDEF → outAt b.ports g = some v ∧ ¬ (b.gate = g ∧ b.evaluated = true))
      (runTrace in_circ fuel ports0) ∧
    (∀ a ∈ runTrace in_circ fuel ports0, ∀ (g : Nat) (v : bool3S),
      outAt a.ports g = some v → v ≠ bool3S.UNDEF → outAt ports1 g = some v) ∧
    (runTrace in_circ fuel ports0).length = n * ports0.length ∧
    (0 < ports0.length →
      ∃ b, (runTrace in_circ fuel ports0).getLast? = some b ∧ b.ports = ports1) := by
  obtain ⟨hP, _, hM⟩ := runTrace_props in_circ fuel ports0
  obtain ⟨hM1, hL, hLast⟩ := hM ports1 n h
  exact ⟨hP, fun a ha g v hv hd => (hM1 a ha).outAt hv hd, hL, hLast⟩

/-- Witness of C4 on a two-gate netlist with a forward reference (gate 1 is a
NOT of gate 2, gate 2 a NOT of circuit input 1): two passes. -/
theorem simular_monotone_witness :
    simular_loop [bool3S.TRUE] 2 (resetAll circForward.ports) =
      Outcome.done ([some { kind := PortKind.NT, id_in := [2], out := bool3S.TRUE },
        some { kind := PortKind.NT, id_in := [-1], out := bool3S.FALSE }], 2) ∧
    (List.Pairwise
      (fun a b : Visit => ∀ (g : Nat) (v : bool3S), outAt a.ports g = some v →
        v ≠ bool3S.UNDEF → outAt b.ports g = some v ∧ ¬ (b.gate = g ∧ b.evaluated = true))
      (runTrace [bool3S.TRUE] 2 (resetAll circForward.ports)) ∧
    (∀ a ∈ runTrace [bool3S.TRUE] 2 (resetAll circForward.ports), ∀ (g : Nat) (v : bool3S),
      outAt a.ports g = some v → v ≠ bool3S.UNDEF →
      outAt [some { kind := PortKind.NT, id_in := [2], out := bool3S.TRUE },
        some { kind := PortKind.NT, id_in := [-1], out := bool3S.FALSE }] g = some v) ∧
    (runTrace [bool3S.TRUE] 2 (resetAll circForward.ports)).length =
      2 * (resetAll circForward.ports).length ∧
    (0 < (resetAll circForward.ports).length →
      ∃ b, (runTrace [bool3S.TRUE] 2 (resetAll circForward.ports)).getLast? = some b ∧
        b.ports = [some { kind := PortKind.NT, id_in := [2], out := bool3S.TRUE },
          some { kind := PortKind.NT, id_in := [-1], out := bool3S.FALSE }])) :=
  ⟨by decide, simular_monotone [bool3S.TRUE] 2 (resetAll circForward.ports) _ 2 (by decide)⟩

/-- C5: on the netlist with 2 inputs, 1 output and one AND gate reading inputs
-1 and -2, `simular([TRUE, TRUE])` leaves `getOutput(1) == TRUE`,
`simular([TRUE, FALSE])` leaves FALSE, `simular([TRUE, UNDEF])` leaves UNDEF,
and for every pair `(a, b)` the output is the AND rule of the specification
applied to `[a, b]`: FALSE when one of them is FALSE, otherwise UNDEF when one
of them is UNDEF, otherwise TRUE. -/
theorem simular_circAND (g o : bool3S) :
    (∃ C1, (circAND g o).simular [bool3S.TRUE, bool3S.TRUE] = Outcome.done (true, C1) ∧
      C1.getOutput 1 = some bool3S.TRUE) ∧
    (∃ C1, (circAND g o).simular [bool3S.TRUE, bool3S.FALSE] = Outcome.done (true, C1) ∧
      C1.getOutput 1 = some bool3S.FALSE) ∧
    (∃ C1, (circAND g o).simular [bool3S.TRUE, bool3S.UNDEF] = Outcome.done (true, C1) ∧
      C1.getOutput 1 = some bool3S.UNDEF) ∧
    ∀ a b : bool3S, ∃ C1, (circAND g o).simular [a, b] = Outcome.done (true, C1) ∧
      C1.getOutput 1 = some
        (if a = bool3S.FALSE ∨ b = bool3S.FALSE then bool3S.FALSE
         else if a = bool3S.UNDEF ∨ b = bool3S.UNDEF then bool3S.UNDEF
         else bool3S.TRUE) := by
  refine ⟨?_, ?_, ?_, ?_⟩
  · cases g <;> cases o <;> exact ⟨_, rfl, rfl⟩
  · cases g <;> cases o <;> exact ⟨_, rfl, rfl⟩
  · cases g <;> cases o <;> exact ⟨_, rfl, rfl⟩
  · intro a b
    cases g <;> cases o <;> cases a <;> cases b <;> exact ⟨_, rfl, rfl⟩

/-- C6: the netlist made of one NOT gate that reads its own output is valid;
for every circuit input (and whatever the gate and the output held before)
`simular` returns `true`, the gate is left UNDEF and `getOutput(1)` is
UNDEF. -/
theorem simular_circNOTself (g o a : bool3S) :
    (circNOTself g o).valid = true ∧
    ∃ C1, (circNOTself g o).simular [a] = Outcome.done (true, C1) ∧
      outAt C1.ports 0 = some bool3S.UNDEF ∧
      C1.getOutput 1 = some bool3S.UNDEF := by
  cases g <;> cases o <;> cases a <;> exact ⟨rfl, _, rfl, rfl, rfl⟩

/-- C7: on the netlist made of one AND gate reading circuit input 1 and its own
output, `simular([FALSE])` leaves the gate and `getOutput(1)` at FALSE, the
second input of the gate still naming the gate itself. -/
theorem simular_circANDself (g o : bool3S) :
    ∃ C1, (circANDself g o).simular [bool3S.FALSE] = Outcome.done (true, C1) ∧
      outAt C1.ports 0 = some bool3S.FALSE ∧
      C1.getOutput 1 = some bool3S.FALSE ∧
      C1.getId_inPort 1 1 = 1 := by
  cases g <;> cases o <;> exact ⟨_, rfl, rfl, rfl, rfl⟩

/-- C8: `valid()` is true exactly when the three counts are positive, every
gate slot `1..getNumPorts()` is defined, every input origin of every gate and
every output origin satisfies `validIdOrig`; `validIdOrig(id)` holds exactly
for `-getNumInputs() <= id <= -1` or `1 <= id <= getNumPorts()`. So a netlist
without gates or with an unset slot is not valid, origin 0 is never valid, and
an origin naming the gate itself or a later gate passes the check. -/
theorem valid_characterisation (C : Circuito) :
    (C.valid = true ↔
      C.getNumInputs > 0 ∧ C.getNumOutputs > 0 ∧ C.getNumPorts > 0 ∧
      (∀ p : Int, 1 ≤ p → p ≤ C.getNumPorts → C.definedPort p = true) ∧
      (∀ p : Int, 1 ≤ p → p ≤ C.getNumPorts →
        ∀ j : Int, 0 ≤ j → j < C.getNumInputsPort p →
          C.validIdOrig (C.getId_inPort p j) = true) ∧
      (∀ k : Int, 1 ≤ k → k ≤ C.getNumOutputs →
        C.validIdOrig (C.getIdOutput k) = true)) ∧
    (∀ id : Int, C.validIdOrig id = true ↔
      (-C.getNumInputs ≤ id ∧ id ≤ -1) ∨ (1 ≤ id ∧ id ≤ C.getNumPorts)) ∧
    (C.getNumPorts = 0 → C.valid = false) ∧
    (∀ p : Int, 1 ≤ p → p ≤ C.getNumPorts → C.definedPort p = false → C.valid = false) ∧
    C.validIdOrig 0 = false ∧
    (∀ p q : Int, 1 ≤ p → p ≤ q → q ≤ C.getNumPorts → C.validIdOrig q = true) := by
  have hiff : C.valid = true ↔
      C.getNumInputs > 0 ∧ C.getNumOutputs > 0 ∧ C.getNumPorts > 0 ∧
      (∀ p : Int, 1 ≤ p → p ≤ C.getNumPorts → C.definedPort p = true) ∧
      (∀ p : Int, 1 ≤ p → p ≤ C.getNumPorts →
        ∀ j : Int, 0 ≤ j → j < C.getNumInputsPort p →
          C.validIdOrig (C.getId_inPort p j) = true) ∧
      (∀ k : Int, 1 ≤ k → k ≤ C.getNumOutputs →
        C.validIdOrig (C.getIdOutput k) = true) := by
    rw [valid_unfold_ids]
    constructor
    · rintro ⟨h1, h2, h3, hP, hO⟩
      exact ⟨h1, h2, h3, fun p hp1 hp2 => ((validPort_iff C p).mp (hP p hp1 hp2)).1,
        fun p hp1 hp2 => ((validPort_iff C p).mp (hP p hp1 hp2)).2, hO⟩
    · rintro ⟨h1, h2, h3, hD, hI, hO⟩
      exact ⟨h1, h2, h3, fun p hp1 hp2 => (validPort_iff C p).mpr ⟨hD p hp1 hp2, hI p hp1 hp2⟩,
        hO⟩
  refine ⟨hiff, validIdOrig_iff C, ?_, ?_, ?_, ?_⟩
  · intro h0
    cases hv : C.valid with
    | false => rfl
    | true =>
      have := (hiff.mp hv).2.2.1
      omega
  · intro p hp1 hp2 hd
    cases hv : C.valid with
    | false => rfl
    | true =>
      have := (hiff.mp hv).2.2.2.1 p hp1 hp2
      rw [hd] at this
      cases this
  · cases h : C.validIdOrig 0 with
    | false => rfl
    | true =>
      have := (validIdOrig_iff C 0).mp h
      omega
  · intro p q hp hpq hq
    exact (validIdOrig_iff C q).mpr (Or.inr ⟨by omega, hq⟩)

/-- C9 (the code at the failing input): the netlist `circNoOutput` is not
valid, yet `simular` runs on it and returns `true`. -/
theorem simular_runs_on_invalid :
    circNoOutput.valid = false ∧
    circNoOutput.simular [bool3S.TRUE] = Outcome.done (true,
      { circNoOutput with
        ports := [some { kind := PortKind.NT, id_in := [-1], out := bool3S.FALSE }] }) := by
  decide

/-- C10 (the code at the failing input): the netlist `circTwoOut` (1 input,
2 outputs, 1 gate) is valid and `salvar` writes it, but `ler` rejects the text
written: on the line of output 2 the test of line 411 is `validIdOrig(2)`, on
the output index, and there is only one gate. The object is left cleared. -/
theorem ler_rejects_saved_circTwoOut :
    circTwoOut.valid = true ∧
    circTwoOut.salvar true =
      (true, some "CIRCUITO 1 2 1\nPORTAS\n1) NT 1 -1\nSAIDAS\n1) 1\n2) -1\n".toList) ∧
    ler_try circTwoOut (circTwoOut.salvar true).2 = Except.error 7 ∧
    circTwoOut.ler (circTwoOut.salvar true).2 = (false, circTwoOut.clear) :=
  ⟨by decide, by decide, rfl, by decide⟩

/-- C11 (the code at the failing input): the text `textoSaida5` declares 1
input, 1 output and 1 gate and names origin 5 for its output; `ler` returns
`true` and stores the origin, which does not satisfy `validIdOrig`, so `valid()`
is false on the loaded netlist. -/
theorem ler_accepts_invalid_output_origin :
    circNOT.clear.ler (some textoSaida5) =
      (true, { Nin := 1, id_out := [5], out_circ := [bool3S.UNDEF],
               ports := [some { kind := PortKind.NT, id_in := [-1], out := bool3S.UNDEF }] }) ∧
    (circNOT.clear.ler (some textoSaida5)).2.validIdOrig
      ((circNOT.clear.ler (some textoSaida5)).2.getIdOutput 1) = false ∧
    (circNOT.clear.ler (some textoSaida5)).2.valid = false :=
  ⟨by decide, by decide, by decide⟩

/-- C12: for every prior state and all `NI, NO, NP >= 0`, `resize(NI, NO, NP)`
leaves `getNumInputs() == NI`, `getNumOutputs() == NO`, `getNumPorts() == NP`,
every output with origin 0 and signal UNDEF, every gate slot undefined; the
result is the same whatever the object held before. -/
theorem resize_spec (C : Circuito) (NI NO NP : Int) (hNI : 0 ≤ NI) (hNO : 0 ≤ NO)
    (hNP : 0 ≤ NP) :
    (C.resize NI NO NP).getNumInputs = NI ∧
    (C.resize NI NO NP).getNumOutputs = NO ∧
    (C.resize NI NO NP).getNumPorts = NP ∧
    (∀ k : Int, 1 ≤ k → k ≤ NO →
      (C.resize NI NO NP).getIdOutput k = 0 ∧
      (C.resize NI NO NP).getOutput k = some bool3S.UNDEF) ∧
    (∀ p : Int, 1 ≤ p → p ≤ NP → (C.resize NI NO NP).definedPort p = false) ∧
    (∀ D : Circuito, D.resize NI NO NP = C.resize NI NO NP) := by
  have hneg : ¬ (NI < 0 ∨ NO < 0 ∨ NP < 0) := by omega
  have hres : ∀ D : Circuito, D.resize NI NO NP =
      { Nin := NI, id_out := List.replicate NO.toNat 0,
        out_circ := List.replicate NO.toNat bool3S.UNDEF,
        ports := List.replicate NP.toNat none } := by
    intro D
    simp [resize, hneg]
  rw [hres C]
  refine ⟨rfl, ?_, ?_, ?_, ?_, fun D => hres D⟩
  · simp only [getNumOutputs, List.length_replicate]
    omega
  · simp only [getNumPorts, List.length_replicate]
    omega
  · intro k h1 h2
    have hk : (k - 1).toNat < NO.toNat := by omega
    have hvalid : validIdOutput
        { Nin := NI, id_out := List.replicate NO.toNat 0,
          out_circ := List.replicate NO.toNat bool3S.UNDEF,
          ports := List.replicate NP.toNat none } k = true := by
      simp only [validIdOutput, getNumOutputs, List.length_replicate, Bool.and_eq_true,
        decide_eq_true_eq]
      omega
    constructor
    · unfold getIdOutput
      rw [if_pos hvalid, List.getD_eq_getElem?_getD, List.getElem?_replicate, if_pos hk]
      rfl
    · unfold getOutput
      rw [if_pos hvalid, vecAt, if_neg (by omega), List.getElem?_replicate, if_pos hk]
  · intro p h1 h2
    have hp : (p - 1).toNat < NP.toNat := by omega
    have hlt : ¬ (p - 1 < 0) := by omega
    have : ptrAt (List.replicate NP.toNat (none : Option Port)) (p - 1) = none := by
      rw [ptrAt, vecAt, if_neg hlt, List.getElem?_replicate, if_pos hp]
      rfl
    simp [definedPort, this]

/-- Witness of C12: resizing the one-gate NOT netlist to 2 inputs, 1 output and
3 gates. -/
theorem resize_spec_witness :
    (circNOT.resize 2 1 3).getNumInputs = 2 ∧
    (circNOT.resize 2 1 3).getNumOutputs = 1 ∧
    (circNOT.resize 2 1 3).getNumPorts = 3 ∧
    (∀ k : Int, 1 ≤ k → k ≤ 1 →
      (circNOT.resize 2 1 3).getIdOutput k = 0 ∧
      (circNOT.resize 2 1 3).getOutput k = some bool3S.UNDEF) ∧
    (∀ p : Int, 1 ≤ p → p ≤ 3 → (circNOT.resize 2 1 3).definedPort p = false) ∧
    (∀ D : Circuito, D.resize 2 1 3 = circNOT.resize 2 1 3) :=
  resize_spec circNOT 2 1 3 (by decide) (by decide) (by decide)

/-- C13: a mutator called with an invalid argument returns the object it was
given: `resize` with a negative count; `setIdOutput` with an invalid output id
or an invalid origin; `setPort` with an invalid gate id, a string that is not a
mnemonic, NT with an arity other than 1, or another kind with an arity below 2;
`setId_inPort` on a gate that is not defined, with an index outside
`[0, arity)`, or with an invalid origin. -/
theorem mutators_invalid_noop (C : Circuito) :
    (∀ NI NO NP : Int, NI < 0 ∨ NO < 0 ∨ NP < 0 → C.resize NI NO NP = C) ∧
    (∀ IdOut IdOrig : Int, C.validIdOutput IdOut = false ∨ C.validIdOrig IdOrig = false →
      C.setIdOutput IdOut IdOrig = C) ∧
    (∀ (IdPort : Int) (Tipo : List Char) (NIn : Int),
      C.validIdPort IdPort = false ∨ (validType Tipo).1 = false ∨
        ((validType Tipo).2 = "NT".toList ∧ NIn ≠ 1) ∨
        ((validType Tipo).2 ≠ "NT".toList ∧ NIn < 2) →
      C.setPort IdPort Tipo NIn = some C) ∧
    (∀ IdPort I IdOrig : Int,
      C.definedPort IdPort = false ∨ ¬ (0 ≤ I ∧ I < C.getNumInputsPort IdPort) ∨
        C.validIdOrig IdOrig = false →
      C.setId_inPort IdPort I IdOrig = C) := by
  refine ⟨?_, ?_, ?_, ?_⟩
  · intro NI NO NP h
    simp [resize, h]
  · intro IdOut IdOrig h
    unfold setIdOutput
    rcases h with h | h <;> simp [h]
  · intro IdPort Tipo NIn h
    unfold setPort
    by_cases hid : C.validIdPort IdPort = true
    · simp only [hid, Bool.not_true, Bool.false_eq_true, if_false]
      rcases h with h | h | h | h
      · rw [hid] at h
        cases h
      · cases hvt : validType Tipo with
        | mk b T =>
          rw [hvt] at h
          simp only at h
          subst h
          rfl
      · cases hvt : validType Tipo with
        | mk b T =>
          rw [hvt] at h
          simp only at h
          cases b
          · rfl
          · simp [h.1, h.2]
      · cases hvt : validType Tipo with
        | mk b T =>
          rw [hvt] at h
          simp only at h
          cases b
          · rfl
          · have h1 : T ≠ ['N', 'T'] := h.1
            have h2 : ¬ (2 ≤ NIn) := by omega
            simp [h1, h.2]
    · simp [hid]
  · intro IdPort I IdOrig h
    unfold setId_inPort
    by_cases hd : C.definedPort IdPort = true
    · simp only [hd, Bool.not_true, Bool.false_eq_true, if_false]
      cases hp : ptrAt C.ports (IdPort - 1) with
      | none => rfl
      | some p =>
        simp only
        rcases h with h | h | h
        · rw [hd] at h
          cases h
        · have hv : p.validIndex I = false := by
            simp only [getNumInputsPort, hd, if_true, hp] at h
            cases hv : p.validIndex I with
            | false => rfl
            | true =>
              simp only [Port.validIndex, Bool.and_eq_true, decide_eq_true_eq] at hv
              exact absurd hv h
          simp [hv]
        · by_cases hv : p.validIndex I = true
          · simp [hv, h]
          · simp [hv]
    · simp [hd]

/-- C14: a query called with an invalid id returns its sentinel: `getIdOutput`
gives 0 and `getOutput` gives UNDEF for an id outside `[1, getNumOutputs()]`;
`getNamePort` gives "??", `getNumInputsPort` gives 0 and `getId_inPort` gives 0
for a gate id out of range or a slot that is not set; `getId_inPort` gives 0 for
an index outside `[0, arity)` of a defined gate. -/
theorem queries_invalid_sentinel (C : Circuito) :
    (∀ k : Int, ¬ (1 ≤ k ∧ k ≤ C.getNumOutputs) →
      C.getIdOutput k = 0 ∧ C.getOutput k = some bool3S.UNDEF) ∧
    (∀ p : Int, ¬ (1 ≤ p ∧ p ≤ C.getNumPorts) ∨ vecAt C.ports (p - 1) = some none →
      C.definedPort p = false ∧
      C.getNamePort p = "??".toList ∧ C.getNumInputsPort p = 0 ∧
      ∀ i : Int, C.getId_inPort p i = 0) ∧
    (∀ p i : Int, ¬ (0 ≤ i ∧ i < C.getNumInputsPort p) → C.getId_inPort p i = 0) := by
  refine ⟨?_, ?_, ?_⟩
  · intro k hk
    have hv : C.validIdOutput k = false := by
      cases h : C.validIdOutput k with
      | false => rfl
      | true =>
        simp only [validIdOutput, Bool.and_eq_true, decide_eq_true_eq] at h
        exact absurd h hk
    simp [getIdOutput, getOutput, hv]
  · intro p hp
    have hd : C.definedPort p = false := by
      unfold definedPort
      rcases hp with hp | hp
      · have hv : C.validIdPort p = false := by
          cases h : C.validIdPort p with
          | false => rfl
          | true =>
            simp only [validIdPort, Bool.and_eq_true, decide_eq_true_eq] at h
            exact absurd h hp
        simp [hv]
      · simp [ptrAt, hp]
    refine ⟨hd, ?_, ?_, fun i => ?_⟩
    · simp [getNamePort, hd]
    · simp [getNumInputsPort, hd]
    · simp [getId_inPort, hd]
  · intro p i hi
    unfold getId_inPort
    by_cases hd : C.definedPort p = true
    · simp only [hd, if_true]
      cases hp : ptrAt C.ports (p - 1) with
      | none => rfl
      | some q =>
        simp only [getNumInputsPort, hd, if_true, hp] at hi
        have hv : q.validIndex i = false := by
          cases hv : q.validIndex i with
          | false => rfl
          | true =>
            simp only [Port.validIndex, Bool.and_eq_true, decide_eq_true_eq] at hv
            exact absurd hv hi
        simp [hv]
    · simp [hd]

/-- C15: `validType(s)` is true exactly when `s` has two characters whose
upper-cased form is one of NT, AN, NA, OR, NO, XO, NX, and then leaves `s`
upper-cased (so "nt" and "Na" are accepted); `allocPort(s)` returns a fresh
gate of kind `k` exactly when the upper-cased `s` is the mnemonic of `k`, and
the null pointer exactly when `validType(s)` is false. -/
theorem validType_allocPort_spec (s : List Char) :
    ((validType s).1 = true ↔
      ∃ a b : Char, s = [a, b] ∧ [a.toUpper, b.toUpper] ∈
        ["NT".toList, "AN".toList, "NA".toList, "OR".toList, "NO".toList, "XO".toList,
          "NX".toList]) ∧
    (∀ a b : Char, s = [a, b] → (validType s).2 = [a.toUpper, b.toUpper]) ∧
    (∀ k : PortKind, (allocPort s).1 = some { kind := k, id_in := [], out := bool3S.UNDEF } ↔
      ∃ a b : Char, s = [a, b] ∧ [a.toUpper, b.toUpper] = k.getName) ∧
    ((allocPort s).1 = none ↔ (validType s).1 = false) ∧
    (PortKind.NT.getName = "NT".toList ∧ PortKind.AN.getName = "AN".toList ∧
      PortKind.NA.getName = "NA".toList ∧ PortKind.OR.getName = "OR".toList ∧
      PortKind.NO.getName = "NO".toList ∧ PortKind.XO.getName = "XO".toList ∧
      PortKind.NX.getName = "NX".toList) ∧
    validType "nt".toList = (true, "NT".toList) ∧
    validType "Na".toList = (true, "NA".toList) := by
  have hnames : PortKind.NT.getName = "NT".toList ∧ PortKind.AN.getName = "AN".toList ∧
      PortKind.NA.getName = "NA".toList ∧ PortKind.OR.getName = "OR".toList ∧
      PortKind.NO.getName = "NO".toList ∧ PortKind.XO.getName = "XO".toList ∧
      PortKind.NX.getName = "NX".toList := by decide
  by_cases hs : ∃ a b : Char, s = [a, b]
  · obtain ⟨a, b, rfl⟩ := hs
    refine ⟨?_, ?_, ?_, ?_, hnames, by decide, by decide⟩
    · rw [validType_pair]
      simp only [decide_eq_true_eq]
      constructor
      · intro h
        exact ⟨a, b, rfl, h⟩
      · rintro ⟨a1, b1, h1, h2⟩
        simp only [List.cons.injEq, and_true] at h1
        rw [h1.1, h1.2]
        exact h2
    · intro a1 b1 h1
      simp only [List.cons.injEq, and_true] at h1
      rw [validType_pair, h1.1, h1.2]
    · intro k
      rw [allocPort_pair]
      constructor
      · intro h
        by_cases hm : [a.toUpper, b.toUpper] ∈ mnemonics
        · rw [if_pos hm] at h
          obtain ⟨k1, hk1⟩ := (mem_mnemonics_iff _).mp hm
          rw [hk1, allocPort_name] at h
          simp only [Option.some.injEq, Port.mk.injEq, and_true] at h
          exact ⟨a, b, rfl, by rw [hk1, h]⟩
        · rw [if_neg hm] at h
          cases h
      · rintro ⟨a1, b1, h1, h2⟩
        simp only [List.cons.injEq, and_true] at h1
        rw [← h1.1, ← h1.2] at h2
        have hm : [a.toUpper, b.toUpper] ∈ mnemonics := (mem_mnemonics_iff _).mpr ⟨k, h2⟩
        rw [if_pos hm, h2, allocPort_name]
    · rw [allocPort_pair, validType_pair]
      by_cases hm : [a.toUpper, b.toUpper] ∈ mnemonics
      · obtain ⟨k1, hk1⟩ := (mem_mnemonics_iff _).mp hm
        rw [if_pos hm, hk1, allocPort_name]
        simp [hk1 ▸ hm]
      · rw [if_neg hm]
        simp [hm]
  · have hne : ∀ a b : Char, s ≠ [a, b] := fun a b h => hs ⟨a, b, h⟩
    have hv := validType_not_pair s hne
    refine ⟨?_, ?_, ?_, ?_, hnames, by decide, by decide⟩
    · rw [hv]
      constructor
      · intro h
        cases h
      · rintro ⟨a, b, h, _⟩
        exact absurd h (hne a b)
    · intro a b h
      exact absurd h (hne a b)
    · intro k
      simp only [allocPort, hv]
      constructor
      · intro h
        cases h
      · rintro ⟨a, b, h, _⟩
        exact absurd h (hne a b)
    · simp [allocPort, hv]

/-- C16 (the code at the failing input): copy-constructing from the netlist left
by `resize(1, 1, 1)`, whose gate slot is not set, dereferences the null pointer
`C.ports.at(0)`. -/
theorem copy_of_resized_derefs_null :
    circNOT.clear.resize 1 1 1 = circResized ∧
    circResized.definedPort 1 = false ∧
    circResized.copy = none :=
  ⟨by decide, by decide, by decide⟩

/-- C17: output read-out of `simular`. On a valid netlist (whose vectors
`out_circ` and `id_out` have the same size) with an input vector of the right
length, `simular` returns leaving an object with the same counts, output
origins, gate kinds, arities and input origins, in which every output
`k` in `[1, getNumOutputs()]` holds `in_circ[-o-1]` when its origin `o` is
negative and the final cached output of gate `o` when `o` is positive. -/
theorem simular_readout (C : Circuito) (in_circ : List bool3S) (hv : C.valid = true)
    (hlen : (in_circ.length : Int) = C.getNumInputs)
    (hwf : C.out_circ.length = C.id_out.length) :
    ∃ C1, C.simular in_circ = Outcome.done (true, C1) ∧
      C1.getNumInputs = C.getNumInputs ∧ C1.getNumOutputs = C.getNumOutputs ∧
      C1.getNumPorts = C.getNumPorts ∧
      (∀ k : Int, C1.getIdOutput k = C.getIdOutput k) ∧
      (∀ p : Int, C1.getNamePort p = C.getNamePort p ∧
        C1.getNumInputsPort p = C.getNumInputsPort p ∧
        ∀ i : Int, C1.getId_inPort p i = C.getId_inPort p i) ∧
      (∀ k : Int, 1 ≤ k → k ≤ C.getNumOutputs →
        (C.getIdOutput k < 0 →
          ∃ s, vecAt in_circ (-(C.getIdOutput k) - 1) = some s ∧ C1.getOutput k = some s) ∧
        (C.getIdOutput k > 0 →
          ∃ q, ptrAt C1.ports (C.getIdOutput k - 1) = some q ∧
            C1.getOutput k = some q.getOutput) ∧
        C.getIdOutput k ≠ 0) := by
  obtain ⟨ports1, n, _, _, _, _, htopo, _, hsim⟩ := simular_run hv hlen hwf
  obtain ⟨hok, hout⟩ := valid_portsOk hv hlen
  have hq := queries_of_topo (C := C)
    (D := { C with ports := ports1, out_circ := readOut in_circ ports1 C.id_out }) rfl rfl htopo
  obtain ⟨q1, q2, q3, q4, q5⟩ := hq
  refine ⟨_, hsim _ (Nat.le_succ _), q1, q2, q3, q4, fun p => (q5 p).2, fun k hk1 hk2 => ?_⟩
  simp only [getNumOutputs] at hk2
  have hkn : (k - 1).toNat < C.id_out.length := by omega
  have hko : C.getIdOutput k = C.id_out[(k - 1).toNat] := by
    have := getIdOutput_natCast C (k - 1).toNat hkn
    rwa [show (((k - 1).toNat : Nat) : Int) + 1 = k by omega] at this
  have hlen1 : ports1.length = C.ports.length := by
    have := congrArg List.length htopo
    simpa [topo] using this
  have hok1 : PortsOk in_circ.length ports1 := hok.of_topo htopo
  obtain ⟨s, hs⟩ := @simular_origem_isSome in_circ.length in_circ ports1 rfl hok1.all_set _
    (hlen1 ▸ hout _ (List.getElem_mem hkn))
  have hget : getOutput { C with ports := ports1, out_circ := readOut in_circ ports1 C.id_out } k
      = some s := by
    have hvalid : validIdOutput
        { C with ports := ports1, out_circ := readOut in_circ ports1 C.id_out } k = true := by
      simp only [validIdOutput, getNumOutputs, Bool.and_eq_true, decide_eq_true_eq]
      omega
    unfold getOutput
    rw [if_pos hvalid, vecAt, if_neg (by omega)]
    simp only [readOut, List.getElem?_map, List.getElem?_eq_getElem hkn, Option.map_some', hs,
      Option.getD_some]
  rw [← hko] at hs
  have hor := hout _ (List.getElem_mem hkn)
  rw [← hko] at hor
  refine ⟨fun hneg => ?_, fun hpos => ?_, ?_⟩
  · refine ⟨s, ?_, hget⟩
    simpa [simular_origem, not_lt.mpr (le_of_lt hneg)] using hs
  · simp only [simular_origem, gt_iff_lt, hpos, if_true, Option.map_eq_some'] at hs
    obtain ⟨q, hq, hqs⟩ := hs
    exact ⟨q, hq, by rw [hget, hqs]⟩
  · rcases hor with ⟨h1, _⟩ | ⟨_, h2⟩ <;> omega

/-- Witness of C17 on the one-gate AND netlist. -/
theorem simular_readout_witness :
    ∃ C1, (circAND bool3S.UNDEF bool3S.UNDEF).simular [bool3S.TRUE, bool3S.FALSE] =
        Outcome.done (true, C1) ∧
      C1.getNumInputs = (circAND bool3S.UNDEF bool3S.UNDEF).getNumInputs ∧
      C1.getNumOutputs = (circAND bool3S.UNDEF bool3S.UNDEF).getNumOutputs ∧
      C1.getNumPorts = (circAND bool3S.UNDEF bool3S.UNDEF).getNumPorts ∧
      (∀ k : Int, C1.getIdOutput k = (circAND bool3S.UNDEF bool3S.UNDEF).getIdOutput k) ∧
      (∀ p : Int, C1.getNamePort p = (circAND bool3S.UNDEF bool3S.UNDEF).getNamePort p ∧
        C1.getNumInputsPort p = (circAND bool3S.UNDEF bool3S.UNDEF).getNumInputsPort p ∧
        ∀ i : Int, C1.getId_inPort p i =
          (circAND bool3S.UNDEF bool3S.UNDEF).getId_inPort p i) ∧
      (∀ k : Int, 1 ≤ k → k ≤ (circAND bool3S.UNDEF bool3S.UNDEF).getNumOutputs →
        ((circAND bool3S.UNDEF bool3S.UNDEF).getIdOutput k < 0 →
          ∃ s, vecAt [bool3S.TRUE, bool3S.FALSE]
              (-((circAND bool3S.UNDEF bool3S.UNDEF).getIdOutput k) - 1) = some s ∧
            C1.getOutput k = some s) ∧
        ((circAND bool3S.UNDEF bool3S.UNDEF).getIdOutput k > 0 →
          ∃ q, ptrAt C1.ports ((circAND bool3S.UNDEF bool3S.UNDEF).getIdOutput k - 1) = some q ∧
            C1.getOutput k = some q.getOutput) ∧
        (circAND bool3S.UNDEF bool3S.UNDEF).getIdOutput k ≠ 0) :=
  simular_readout (circAND bool3S.UNDEF bool3S.UNDEF) [bool3S.TRUE, bool3S.FALSE]
    (by decide) (by decide) (by decide)

/-- C18: fixpoint at exit. On a valid netlist (whose vectors `out_circ` and
`id_out` have the same size) with an input vector of the right length, when
`simular` returns every gate's cached output equals its evaluation rule applied
to the list `xs` of the final values of its inputs (`in_circ[-id-1]` for an
origin `id <= -1`, the final cached output of gate `id` for `id >= 1`), the
list the inner loop of `simular` would gather again; so evaluating any gate
once more would leave it as it is. -/
theorem simular_fixpoint (C : Circuito) (in_circ : List bool3S) (hv : C.valid = true)
    (hlen : (in_circ.length : Int) = C.getNumInputs)
    (hwf : C.out_circ.length = C.id_out.length) :
    ∃ C1, C.simular in_circ = Outcome.done (true, C1) ∧
      ∀ k : Nat, (k : Int) < C.getNumPorts →
        ∃ p xs, ptrAt C1.ports (k : Int) = some p ∧
          xs.map some = p.id_in.map (simular_origem in_circ C1.ports) ∧
          simular_in_port in_circ C1.ports p = some xs ∧
          p.getOutput = p.kind.eval xs ∧
          p.simular xs = p := by
  obtain ⟨ports1, n, _, hloop, _, _, htopo, _, hsim⟩ := simular_run hv hlen hwf
  obtain ⟨hok, _⟩ := valid_portsOk hv hlen
  have hok1 : PortsOk in_circ.length ports1 := hok.of_topo htopo
  have hlen1 : ports1.length = C.ports.length := by
    have := congrArg List.length htopo
    simpa [topo] using this
  obtain ⟨hcons, hstuck⟩ := simular_loop_fixpoint in_circ _ _ ports1 n
    (hloop C.ports.length (le_refl _)) (Cons.resetAll in_circ C.ports)
  refine ⟨_, hsim _ (Nat.le_succ _), fun k hk => ?_⟩
  simp only [getNumPorts] at hk
  have hk1 : k < ports1.length := by omega
  obtain ⟨p, hp, _⟩ := hok1 k hk1
  have hex : ∃ xs, simular_in_port in_circ ports1 p = some xs ∧ p.kind.eval xs = p.out := by
    by_cases hu : p.out = bool3S.UNDEF
    · obtain ⟨xs, hxs, he⟩ := hstuck k p hk1 hp hu
      exact ⟨xs, hxs, by rw [he, hu]⟩
    · exact hcons k p hp hu
  obtain ⟨xs, hxs, he⟩ := hex
  refine ⟨p, xs, hp, ?_, hxs, he.symm, ?_⟩
  · rw [simular_in_port_eq] at hxs
    exact ((allOk_eq_some_iff _ _).mp hxs).symm
  · cases p
    simp only [Port.simular, Port.mk.injEq, true_and]
    exact he

/-- Witness of C18 on the two-gate netlist with a forward reference. -/
theorem simular_fixpoint_witness :
    circForward.valid = true ∧
    ∃ C1, circForward.simular [bool3S.TRUE] = Outcome.done (true, C1) ∧
      ∀ k : Nat, (k : Int) < circForward.getNumPorts →
        ∃ p xs, ptrAt C1.ports (k : Int) = some p ∧
          xs.map some = p.id_in.map (simular_origem [bool3S.TRUE] C1.ports) ∧
          simular_in_port [bool3S.TRUE] C1.ports p = some xs ∧
          p.getOutput = p.kind.eval xs ∧
          p.simular xs = p :=
  ⟨by decide, simular_fixpoint circForward [bool3S.TRUE] (by decide) (by decide) (by decide)⟩

/-- C19: index safety of `simular`. On a valid netlist (whose vectors `out_circ`
and `id_out` have the same size) with an input vector of the right length:
the run, which the model stops at the first null or out-of-range access, never
stops that way, whatever the fuel; every gate vector that arises during the run
has the kinds and wiring of `C.ports`; and in every such vector each gate
pointer `ports[i]` is non-null, each origin read from a gate input or from
`id_out` is non-zero, a positive origin `id` has `0 <= id-1 < getNumPorts()`
with `ports[id-1]` non-null, a negative one has `0 <= -id-1 < in_circ.size()`,
and each index `j` of the read-out is inside `out_circ`. -/
theorem simular_index_safe (C : Circuito) (in_circ : List bool3S) (hv : C.valid = true)
    (hlen : (in_circ.length : Int) = C.getNumInputs)
    (hwf : C.out_circ.length = C.id_out.length) :
    (∀ fuel : Nat, simularFuel fuel C in_circ ≠ Outcome.undefinedBehaviour) ∧
    (∃ ports0, forLoop simular_reset_body C.ports.length C.ports = some ports0 ∧
      topo ports0 = topo C.ports ∧
      (∀ fuel : Nat, ∀ b ∈ runTrace in_circ fuel ports0, topo b.ports = topo C.ports) ∧
      (∀ (fuel : Nat) (ports1 : List (Option Port)) (n : Nat),
        simular_loop in_circ fuel ports0 = Outcome.done (ports1, n) →
        topo ports1 = topo C.ports)) ∧
    (∀ ports : List (Option Port), topo ports = topo C.ports →
      (∀ i : Nat, (i : Int) ≤ C.getNumPorts - 1 →
        ∃ p, ptrAt ports (i : Int) = some p ∧
          ∀ j : Nat, (j : Int) < p.getNumInputs →
            p.getId_in j ≠ 0 ∧
            (p.getId_in j > 0 → 0 ≤ p.getId_in j - 1 ∧ p.getId_in j - 1 < C.getNumPorts ∧
              ∃ q, ptrAt ports (p.getId_in j - 1) = some q) ∧
            (¬ p.getId_in j > 0 → 0 ≤ -(p.getId_in j) - 1 ∧
              -(p.getId_in j) - 1 < (in_circ.length : Int))) ∧
      (∀ j : Nat, (j : Int) ≤ C.getNumOutputs - 1 →
        j < C.out_circ.length ∧
        ∃ id, vecAt C.id_out (j : Int) = some id ∧ id ≠ 0 ∧
          (id > 0 → 0 ≤ id - 1 ∧ id - 1 < C.getNumPorts ∧
            ∃ q, ptrAt ports (id - 1) = some q) ∧
          (¬ id > 0 → 0 ≤ -id - 1 ∧ -id - 1 < (in_circ.length : Int)))) := by
  obtain ⟨hok, hout⟩ := valid_portsOk hv hlen
  have hreset := simular_reset_ok hok.all_set
  have hok0 : PortsOk in_circ.length (resetAll C.ports) := hok.of_topo (topo_resetAll _)
  have horig : ∀ ports : List (Option Port), topo ports = topo C.ports → ∀ id : Int,
      OrigOk in_circ.length C.ports.length id →
      id ≠ 0 ∧
      (id > 0 → 0 ≤ id - 1 ∧ id - 1 < C.getNumPorts ∧ ∃ q, ptrAt ports (id - 1) = some q) ∧
      (¬ id > 0 → 0 ≤ -id - 1 ∧ -id - 1 < (in_circ.length : Int)) := by
    intro ports ht id hid
    have hokp : PortsOk in_circ.length ports := hok.of_topo ht
    have hlenp : ports.length = C.ports.length := by
      have := congrArg List.length ht
      simpa [topo] using this
    refine ⟨?_, fun hpos => ?_, fun hneg => ?_⟩
    · rcases hid with ⟨h1, _⟩ | ⟨_, h2⟩ <;> omega
    · rcases hid with ⟨h1, h2⟩ | ⟨_, h2⟩
      · refine ⟨by omega, by simp only [getNumPorts]; omega, ?_⟩
        obtain ⟨q, hq⟩ := hokp.all_set (id - 1).toNat (by omega)
        rw [show (((id - 1).toNat : Nat) : Int) = id - 1 by omega] at hq
        exact ⟨q, hq⟩
      · omega
    · rcases hid with ⟨h1, h2⟩ | ⟨h1, h2⟩
      · omega
      · omega
  refine ⟨fun fuel => ?_, ⟨resetAll C.ports, hreset, topo_resetAll _, fun fuel b hb => ?_,
    fun fuel ports1 n h => ?_⟩, fun ports ht => ⟨fun i hi => ?_, fun j hj => ?_⟩⟩
  · unfold simularFuel
    rw [hreset]
    simp only
    cases hl : simular_loop in_circ fuel (resetAll C.ports) with
    | undefinedBehaviour => exact absurd hl (simular_loop_safe rfl fuel _ hok0)
    | outOfFuel => simp
    | done a =>
      obtain ⟨ports1, n⟩ := a
      obtain ⟨_, ht1⟩ := simular_loop_mono in_circ fuel _ ports1 n hl
      have htopo1 : topo ports1 = topo C.ports := ht1.trans (topo_resetAll _)
      have hok1 : PortsOk in_circ.length ports1 := hok.of_topo htopo1
      have hlen1 : ports1.length = C.ports.length := by
        have := congrArg List.length htopo1
        simpa [topo] using this
      have hro := @simular_out_ok in_circ ports1 C.id_out C.out_circ hwf
        (fun id hid => simular_origem_isSome rfl hok1.all_set (hlen1 ▸ hout id hid))
      simp [hro]
  · exact (runTrace_topo in_circ fuel _ b hb).trans (topo_resetAll _)
  · exact (simular_loop_mono in_circ fuel _ ports1 n h).2.trans (topo_resetAll _)
  · have hokp : PortsOk in_circ.length ports := hok.of_topo ht
    have hlenp : ports.length = C.ports.length := by
      have := congrArg List.length ht
      simpa [topo] using this
    simp only [getNumPorts] at hi
    obtain ⟨p, hp, hids⟩ := hokp i (by omega)
    refine ⟨p, hp, fun j hj => ?_⟩
    have hj2 : j < p.id_in.length := by
      simp only [Port.getNumInputs] at hj
      omega
    rw [(Port.getId_in_natCast p j hj2).2]
    exact horig ports ht _ (hlenp ▸ hids _ (List.getElem_mem hj2))
  · simp only [getNumOutputs] at hj
    have hj2 : j < C.id_out.length := by omega
    refine ⟨by omega, C.id_out[j], ?_, horig ports ht _ (hout _ (List.getElem_mem hj2))⟩
    rw [vecAt_natCast, List.getElem?_eq_getElem hj2]

/-- Witness of C19 on the two-gate netlist with a forward reference. -/
theorem simular_index_safe_witness :
    circForward.valid = true ∧
    (∀ fuel : Nat, simularFuel fuel circForward [bool3S.TRUE] ≠ Outcome.undefinedBehaviour) :=
  ⟨by decide,
    (simular_index_safe circForward [bool3S.TRUE] (by decide) (by decide) (by decide)).1⟩

/-- C20: complete resolution of acyclic circuits. On a valid netlist (whose
vectors `out_circ` and `id_out` have the same size and whose NOT gates have an
input) whose gate dependency graph has no cycle, whatever the order of the
gates, with an input vector of the right length whose entries are all TRUE or
FALSE, `simular` returns leaving every gate's cached output and every
`getOutput(k)` TRUE or FALSE. -/
theorem simular_acyclic_resolves (C : Circuito) (in_circ : List bool3S)
    (hv : C.valid = true) (hlen : (in_circ.length : Int) = C.getNumInputs)
    (hwf : C.out_circ.length = C.id_out.length) (hac : Acyclic C.ports)
    (hin : ∀ s ∈ in_circ, s ≠ bool3S.UNDEF)
    (hnot : ∀ (k : Nat) (p : Port), ptrAt C.ports (k : Int) = some p →
      p.kind = PortKind.NT → p.getNumInputs ≠ 0) :
    ∃ C1, C.simular in_circ = Outcome.done (true, C1) ∧
      (∀ k : Nat, (k : Int) < C.getNumPorts →
        ∃ p, ptrAt C1.ports (k : Int) = some p ∧ p.getOutput ≠ bool3S.UNDEF) ∧
      (∀ k : Int, 1 ≤ k → k ≤ C.getNumOutputs →
        ∃ s, C1.getOutput k = some s ∧ s ≠ bool3S.UNDEF) := by
  obtain ⟨ports1, n, _, hloop, _, _, htopo, _, hsim⟩ := simular_run hv hlen hwf
  obtain ⟨hok, hout⟩ := valid_portsOk hv hlen
  obtain ⟨_, _, hnp, _, _⟩ := valid_unpack hv
  have hinU : bool3S.UNDEF ∉ in_circ := fun h => hin _ h rfl
  have hok0 : PortsOk in_circ.length (resetAll C.ports) := hok.of_topo (topo_resetAll _)
  have hlen0 : (resetAll C.ports).length = C.ports.length := by simp [resetAll]
  have hlen1 : ports1.length = C.ports.length := by
    have := congrArg List.length htopo
    simpa [topo] using this
  have hnot0 : ∀ (k : Nat) (p : Port), ptrAt (resetAll C.ports) (k : Int) = some p →
      p.kind = PortKind.NT → p.id_in ≠ [] := by
    intro k p hp hkind hnil
    obtain ⟨p0, hp0, hk0, hi0⟩ := topo_ptrAt_some (topo_resetAll C.ports) hp
    apply hnot k p0 hp0 (hk0.trans hkind)
    simp [Port.getNumInputs, hi0, hnil]
  have hex : ∃ k, outAt (resetAll C.ports) k = some bool3S.UNDEF := by
    obtain ⟨p, hp, _⟩ := hok 0 hnp
    refine ⟨0, ?_⟩
    rw [ptrAt_eq_some] at hp
    have h0 : ptrAt (resetAll C.ports) ((0 : Nat) : Int) = some (p.setOutput bool3S.UNDEF) := by
      rw [ptrAt_eq_some]
      simp [resetAll, hp]
    rw [outAt, h0]
    rfl
  have hall := simular_loop_all_defined hinU C.ports.length (resetAll C.ports) ports1 n hok0
    (hac.transport (topo_resetAll _)) hnot0 hex (hloop _ (le_refl _))
  rw [hlen0] at hall
  refine ⟨_, hsim _ (Nat.le_succ _), fun k hk => ?_, fun k hk1 hk2 => ?_⟩
  · simp only [getNumPorts] at hk
    exact hall k (by omega)
  · have hk3 := hk2
    simp only [getNumOutputs] at hk3
    have hkn : (k - 1).toNat < C.id_out.length := by omega
    have hko : C.getIdOutput k = C.id_out[(k - 1).toNat] := by
      have := getIdOutput_natCast C (k - 1).toNat hkn
      rwa [show (((k - 1).toNat : Nat) : Int) + 1 = k by omega] at this
    have hor := hout _ (List.getElem_mem hkn)
    rw [← hko] at hor
    have hok1 : PortsOk in_circ.length ports1 := hok.of_topo htopo
    obtain ⟨s, hs⟩ := @simular_origem_isSome in_circ.length in_circ ports1 rfl hok1.all_set _
      (hlen1 ▸ hor)
    refine ⟨s, getOutput_readOut hk1 hk2 hs, ?_⟩
    unfold simular_origem at hs
    by_cases hpos : C.getIdOutput k > 0
    · simp only [hpos, if_true, Option.map_eq_some'] at hs
      obtain ⟨q, hq, hqs⟩ := hs
      have hx : (C.getIdOutput k - 1).toNat < C.ports.length := by
        rcases hor with ⟨_, h2⟩ | ⟨_, h2⟩ <;> omega
      obtain ⟨q1, hq1, hd⟩ := hall _ hx
      rw [show (((C.getIdOutput k - 1).toNat : Nat) : Int) = C.getIdOutput k - 1 by omega,
        hq] at hq1
      cases hq1
      rw [← hqs]
      exact hd
    · simp only [hpos, if_false] at hs
      have hneg : ¬ (-(C.getIdOutput k) - 1 < 0) := by
        intro hlt0
        simp [vecAt, hlt0] at hs
      simp only [vecAt, hneg, if_false] at hs
      exact hin s (List.getElem?_mem hs)

/-- Witness of C20 on the two-gate netlist with a forward reference. -/
theorem simular_acyclic_resolves_witness :
    circForward.valid = true ∧
    ∃ C1, circForward.simular [bool3S.TRUE] = Outcome.done (true, C1) ∧
      (∀ k : Nat, (k : Int) < circForward.getNumPorts →
        ∃ p, ptrAt C1.ports (k : Int) = some p ∧ p.getOutput ≠ bool3S.UNDEF) ∧
      (∀ k : Int, 1 ≤ k → k ≤ circForward.getNumOutputs →
        ∃ s, C1.getOutput k = some s ∧ s ≠ bool3S.UNDEF) :=
  ⟨by decide, simular_acyclic_resolves circForward [bool3S.TRUE] (by decide) (by decide)
    (by decide) acyclic_circForward (by decide)
    (fun k p hp _ => by
      have hk := ptrAt_lt hp
      match k, hp with
      | 0, hp =>
        have h0 : ptrAt circForward.ports ((0 : Nat) : Int) = some
            { kind := PortKind.NT, id_in := [2], out := bool3S.UNDEF } := by decide
        rw [h0] at hp
        rw [← Option.some.inj hp]
        decide
      | 1, hp =>
        have h1 : ptrAt circForward.ports ((1 : Nat) : Int) = some
            { kind := PortKind.NT, id_in := [-1], out := bool3S.UNDEF } := by decide
        rw [h1] at hp
        rw [← Option.some.inj hp]
        decide
      | k + 2, hp =>
        have := ptrAt_lt hp
        simp [circForward] at this)⟩

end Circ
